import Mathlib

/-!
Verification development for the sweep-bptree B+ tree engine.

The Rust sources embedded here:
* `src/leaf_node.rs` — leaf node layout and operations (`LeafNode`),
* `src/node_store.rs` — the flat-buffer node store (`NodeStoreVec`),
* `src/tree/mod.rs` — the tree driver (`BPlusTree`: insert, remove,
  rebalancing, cursors),
* `src/argument/group.rs` — the group-count augmentation (`GroupCount`).

The leaf's parallel `slot_key` / `slot_value` arrays keep only the first
`size` slots initialised; they are embedded as the single list `data` of the
initialised pairs (the two arrays only ever change in lockstep).  Machine
`u16`/`usize` sizes are embedded as `Nat`: all sizes involved are bounded by
the fan-out constants, far below any overflow.  Iterative descent loops with
an explicit visit stack are embedded as the structural recursion they
implement, with an explicit fuel argument bounding the recursion depth.

The inner-node module (`src/tree/inner_node.rs`), the node-store cache
(`src/tree/node_stores.rs`) and the cursor module (`src/tree/cursor.rs`) are
not part of the sources; the definitions for those are modelled from the
specification and are marked `Modelled from the spec:` in their doc comments.
-/

namespace Sweep

/-- Node identifier, tagged as inner or leaf (`NodeId` in src/tree/mod.rs). -/
inductive NodeId where
  | inner (id : Nat)
  | leaf (id : Nat)
deriving DecidableEq, Repr

instance : Inhabited NodeId := ⟨NodeId.inner 0⟩

/-- Projection used by the driver's `leaf_id_unchecked`; on the wrong variant
the source is UB, here it returns the raw index. -/
def NodeId.leafIdUnchecked : NodeId → Nat
  | .inner i => i
  | .leaf i => i

/-- Projection used by the driver's `inner_id_unchecked`. -/
def NodeId.innerIdUnchecked : NodeId → Nat
  | .inner i => i
  | .leaf i => i

/-- Result of slot location in a sorted key array, mirroring Rust's
`Result<usize, usize>` from `binary_search`: `found i` when the key sits at
slot `i`, `notFound i` when `i` is the insertion point keeping order. -/
inductive SlotResult where
  | found (i : Nat)
  | notFound (i : Nat)
deriving DecidableEq, Repr

variable {K V : Type}

/-- Location of `k` in a key list.  On strictly sorted lists this computes
exactly what `binary_search_by_key` in `LeafNode::locate_child_idx`
(src/leaf_node.rs) returns: the slot of `k` when present, otherwise the
insertion point. -/
def locateList [LinearOrder K] (k : K) : List K → SlotResult
  | [] => .notFound 0
  | a :: rest =>
    if a < k then
      match locateList k rest with
      | .found i => .found (i + 1)
      | .notFound i => .notFound (i + 1)
    else if a = k then .found 0
    else .notFound 0

/-- Leaf node (src/leaf_node.rs `LeafNode<K, V, N>`): the initialised prefix
of the parallel slot arrays as one list of pairs, plus the sibling links of
the doubly-linked leaf chain.  `size` is `data.length`. -/
structure LeafNode (K V : Type) where
  data : List (K × V)
  prev : Option Nat := none
  next : Option Nat := none
deriving DecidableEq, Repr

instance : Inhabited (LeafNode K V) := ⟨{ data := [] }⟩

namespace LeafNode

/-- Number of initialised slots (the `size` field). -/
def size (l : LeafNode K V) : Nat := l.data.length

/-- Keys of the initialised prefix. -/
def keys (l : LeafNode K V) : List K := l.data.map Prod.fst

/-- Split point for a full leaf (`split_origin_size`, src/leaf_node.rs): `⌊N/2⌋`. -/
def splitOriginSize (N : Nat) : Nat := N / 2

/-- Minimum size for a leaf node (`minimum_size`, src/leaf_node.rs):
`⌊N/4⌋`, but never below 1. -/
def minimumSize (N : Nat) : Nat := if N / 4 = 0 then 1 else N / 4

/-- Check that the source calls `is_full` (src/leaf_node.rs). -/
def isFull (N : Nat) (l : LeafNode K V) : Bool := l.size == N

/-- Check that the source calls `able_to_lend` (src/leaf_node.rs):
size strictly above the minimum. -/
def ableToLend (N : Nat) (l : LeafNode K V) : Bool := minimumSize N < l.size

/-- First and last key of the leaf (`key_range`, src/leaf_node.rs);
empty leaves have no range. -/
def keyRange (l : LeafNode K V) : Option (K × K) :=
  match l.data.head?, l.data.getLast? with
  | some a, some b => some (a.1, b.1)
  | _, _ => none

/-- Key/value pair at a slot (`data_at`); out-of-range reads are UB in the
source and default here. -/
def dataAt [Inhabited K] [Inhabited V] (l : LeafNode K V) (slot : Nat) : K × V :=
  l.data.getD slot default

/-- Locate a key's slot (`locate_child_idx` / trait `locate_slot`). -/
def locateSlot [LinearOrder K] (l : LeafNode K V) (k : K) : SlotResult :=
  locateList k l.keys

/-- Locate the slot for `k` together with its value when present
(`locate_child` / trait `locate_slot_with_value`). -/
def locateSlotWithValue [LinearOrder K] (l : LeafNode K V) (k : K) :
    Nat × Option V :=
  match l.locateSlot k with
  | .found idx => (idx, (l.data.get? idx).map Prod.snd)
  | .notFound idx => (idx, none)

end LeafNode

/-- Result of `LeafNode::try_upsert` (src/leaf_node.rs `LeafUpsertResult`). -/
inductive LeafUpsertResult (V : Type) where
  | inserted
  | updated (prev : V)
  | isFull (idx : Nat)
deriving DecidableEq, Repr

/-- Result of `LeafNode::delete` (src/leaf_node.rs `LeafDeleteResult`). -/
inductive LeafDeleteResult (K V : Type) where
  | notFound
  | done (kv : K × V)
  | underSize (idx : Nat)
deriving DecidableEq, Repr

namespace LeafNode

variable [LinearOrder K]

/-- Insert or update (`try_upsert`, src/leaf_node.rs): update in place when
the key exists, insert when there is room, report `isFull` with the
provisional insertion point otherwise.  The `found` slot is always in range
on sorted data; the out-of-range branch mirrors the source's UB by a no-op. -/
def tryUpsert (N : Nat) (l : LeafNode K V) (k : K) (v : V) :
    LeafNode K V × LeafUpsertResult V :=
  match l.locateSlot k with
  | .found idx =>
    match l.data.get? idx with
    | some kv =>
      ({ l with data := l.data.set idx (kv.1, v) }, .updated kv.2)
    | none => (l, .isFull idx)
  | .notFound idx =>
    if l.isFull N then (l, .isFull idx)
    else ({ l with data := l.data.insertIdx idx (k, v) }, .inserted)

/-- Delete a key (`delete`, src/leaf_node.rs): removal happens only when the
leaf can spare an entry, otherwise the slot is reported as `underSize`. -/
def tryDelete (N : Nat) (l : LeafNode K V) (k : K) :
    LeafNode K V × LeafDeleteResult K V :=
  match l.locateSlot k with
  | .found idx =>
    if l.ableToLend N then
      match l.data.get? idx with
      | some kv => ({ l with data := l.data.eraseIdx idx }, .done kv)
      | none => (l, .notFound)
    else (l, .underSize idx)
  | .notFound _ => (l, .notFound)

/-- Split a full leaf on insert (`split_new_leaf`, src/leaf_node.rs): slots
`[⌊N/2⌋, N)` move to the new right leaf, the item goes into the half its
insertion index falls into, and the sibling links are wired:
new.prev = self id, new.next = old next, self.next = new id.
Returns `(updated self, new leaf)`. -/
def splitNewLeaf (N : Nat) (l : LeafNode K V) (insertIdx : Nat) (item : K × V)
    (newLeafId selfLeafId : Nat) : LeafNode K V × LeafNode K V :=
  let so := splitOriginSize N
  let movedToNew := l.data.drop so
  if insertIdx < so then
    ({ data := (l.data.take so).insertIdx insertIdx item
       prev := l.prev
       next := some newLeafId },
     { data := movedToNew
       prev := some selfLeafId
       next := l.next })
  else
    ({ data := l.data.take so
       prev := l.prev
       next := some newLeafId },
     { data := movedToNew.insertIdx (insertIdx - so) item
       prev := some selfLeafId
       next := l.next })

/-- Remove and return the last entry (`pop`, src/leaf_node.rs).  The source
debug-asserts `able_to_lend`; an empty leaf is UB there and a default here. -/
def pop [Inhabited K] [Inhabited V] (l : LeafNode K V) :
    LeafNode K V × (K × V) :=
  match l.data.getLast? with
  | some kv => ({ l with data := l.data.dropLast }, kv)
  | none => (l, default)

/-- Remove and return the first entry (`pop_front`, src/leaf_node.rs). -/
def popFront [Inhabited K] [Inhabited V] (l : LeafNode K V) :
    LeafNode K V × (K × V) :=
  match l.data.head? with
  | some kv => ({ l with data := l.data.tail }, kv)
  | none => (l, default)

/-- Remove the entry at `idx` and append `item` at the end
(`delete_with_push`, src/leaf_node.rs); the size is unchanged. -/
def deleteWithPush [Inhabited K] [Inhabited V] (l : LeafNode K V) (idx : Nat)
    (item : K × V) : LeafNode K V × (K × V) :=
  match l.data.get? idx with
  | some kv => ({ l with data := l.data.eraseIdx idx ++ [item] }, kv)
  | none => (l, default)

/-- Remove the entry at `idx` and prepend `item` at the front
(`delete_with_push_front`, src/leaf_node.rs); the size is unchanged. -/
def deleteWithPushFront [Inhabited K] [Inhabited V] (l : LeafNode K V)
    (idx : Nat) (item : K × V) : LeafNode K V × (K × V) :=
  match l.data.get? idx with
  | some kv => ({ l with data := item :: l.data.eraseIdx idx }, kv)
  | none => (l, default)

/-- Append all entries of `right` (`merge_right`, src/leaf_node.rs) and adopt
its `next` link. -/
def mergeRight (l right : LeafNode K V) : LeafNode K V :=
  { l with data := l.data ++ right.data, next := right.next }

/-- Append the entries of `right` skipping its slot `idx`, which is returned
as the deleted pair (`merge_with_right_with_delete` /
trait `merge_right_delete_first`, src/leaf_node.rs). -/
def mergeRightDeleteFirst [Inhabited K] [Inhabited V] (l : LeafNode K V)
    (idx : Nat) (right : LeafNode K V) : LeafNode K V × (K × V) :=
  match right.data.get? idx with
  | some kv =>
    ({ l with data := l.data ++ right.data.eraseIdx idx, next := right.next }, kv)
  | none =>
    ({ l with data := l.data ++ right.data, next := right.next }, default)

/-- Unconditional removal by index (`delete_at`, src/leaf_node.rs). -/
def deleteAt [Inhabited K] [Inhabited V] (l : LeafNode K V) (idx : Nat) :
    LeafNode K V × (K × V) :=
  match l.data.get? idx with
  | some kv => ({ l with data := l.data.eraseIdx idx }, kv)
  | none => (l, default)

/-- Set the `prev` sibling link (`set_prev`, src/leaf_node.rs). -/
def setPrev (l : LeafNode K V) (id : Option Nat) : LeafNode K V :=
  { l with prev := id }

/-- Membership of `k` in the leaf's inclusive key range (`in_range` of the
leaf trait; used by the node-store cache). -/
def inRange (l : LeafNode K V) (k : K) : Bool :=
  match l.keyRange with
  | some (a, b) => a ≤ k ∧ k ≤ b
  | none => false

end LeafNode

/-- Result of merging away an inner-node slot (`InnerMergeResult` of the
driver): `done`, or `underSize` when the node now violates its minimum. -/
inductive InnerMergeResult where
  | done
  | underSize
deriving DecidableEq, Repr

/-- Modelled from the spec: the inner node of `src/tree/inner_node.rs` is not
part of the sources; §3 and §4.2 of the spec describe it as `size ≤ IN`
separator keys with `size + 1` child ids. -/
structure InnerNode (K : Type) where
  keys : List K
  childs : List NodeId
deriving DecidableEq, Repr

instance : Inhabited (InnerNode K) := ⟨{ keys := [], childs := [] }⟩

namespace InnerNode

/-- Number of separator keys (`len` of the `INode` trait). -/
def size (n : InnerNode K) : Nat := n.keys.length

/-- Modelled from the spec: minimum number of separators of a non-root inner
node.  §4.2 writes `able_to_lend : size > ⌈IN/2⌉`; the ceiling makes two
minimal siblings overflow on merge for odd `IN`, so the floor — which agrees
with the ceiling on the even fan-outs the crate ships (64) — is used. -/
def minimumSize (IN : Nat) : Nat := IN / 2

/-- Check `is_full`: `size == IN` (spec §4.2). -/
def isFull (IN : Nat) (n : InnerNode K) : Bool := n.size == IN

/-- Check `able_to_lend`: size strictly above the minimum (spec §4.2). -/
def ableToLend (IN : Nat) (n : InnerNode K) : Bool := minimumSize IN < n.size

/-- Check `is_empty`: no separator keys (trait `INode`). -/
def isEmpty (n : InnerNode K) : Bool := n.size == 0

/-- Child id at an index (`child_id` of the `INode` trait); out-of-range is
UB in the source and defaults here. -/
def childId (n : InnerNode K) (idx : Nat) : NodeId :=
  n.childs.getD idx default

/-- Separator key at a slot (`key` of the `INode` trait). -/
def keyAt [Inhabited K] (n : InnerNode K) (slot : Nat) : K :=
  n.keys.getD slot default

/-- Modelled from the spec: `locate_child` (§4.2) binary-searches the
separators and routes equality to the right, so the chosen child index is the
number of separators `≤ k`. -/
def locateChild [LinearOrder K] (n : InnerNode K) (k : K) : Nat × NodeId :=
  match locateList k n.keys with
  | .found i => (i + 1, n.childId (i + 1))
  | .notFound i => (i, n.childId i)

/-- Modelled from the spec: `insert_at(slot, key, right_child)` (§4.2) puts
the separator at `slot` and the child to its right. -/
def insertAt (n : InnerNode K) (slot : Nat) (key : K) (rightChild : NodeId) :
    InnerNode K :=
  { keys := n.keys.insertIdx slot key
    childs := n.childs.insertIdx (slot + 1) rightChild }

/-- Modelled from the spec: `split(child_idx, k, right_child)` (§4.2) on a
full node inserts the pair, splits in two halves around a promoted key that
remains in neither half, and returns `(promoted key, new right node)` with
`self` shrunk to the left half. -/
def split [Inhabited K] (IN : Nat) (n : InnerNode K) (childIdx : Nat) (k : K)
    (newChildId : NodeId) : InnerNode K × (K × InnerNode K) :=
  let ks := n.keys.insertIdx childIdx k
  let cs := n.childs.insertIdx (childIdx + 1) newChildId
  let m := IN / 2
  let promoted := ks.getD m default
  ({ keys := ks.take m, childs := cs.take (m + 1) },
   (promoted, { keys := ks.drop (m + 1), childs := cs.drop (m + 1) }))

/-- Modelled from the spec: `pop` (§4.2) removes the last
`(key, right_child)` pair. -/
def pop [Inhabited K] (n : InnerNode K) : InnerNode K × (K × NodeId) :=
  ({ keys := n.keys.dropLast, childs := n.childs.dropLast },
   (n.keys.getLast?.getD default, n.childs.getLast?.getD default))

/-- Modelled from the spec: `pop_front` (§4.2) removes the first
`(key, left_child)` pair. -/
def popFront [Inhabited K] (n : InnerNode K) : InnerNode K × (K × NodeId) :=
  ({ keys := n.keys.tail, childs := n.childs.tail },
   (n.keys.head?.getD default, n.childs.head?.getD default))

/-- Modelled from the spec: `push(key, child)` (§4.2) appends a separator and
its right child. -/
def push (n : InnerNode K) (k : K) (child : NodeId) : InnerNode K :=
  { keys := n.keys ++ [k], childs := n.childs ++ [child] }

/-- Modelled from the spec: `push_front(key, child)` (§4.2) prepends a
separator and its left child. -/
def pushFront (n : InnerNode K) (k : K) (child : NodeId) : InnerNode K :=
  { keys := k :: n.keys, childs := child :: n.childs }

/-- Modelled from the spec: `merge_next(separator_key, right)` (§4.2) absorbs
`right` by appending the separator, `right`'s keys and all its children. -/
def mergeNext (n : InnerNode K) (slotKey : K) (right : InnerNode K) :
    InnerNode K :=
  { keys := n.keys ++ slotKey :: right.keys
    childs := n.childs ++ right.childs }

/-- Modelled from the spec: `remove_slot_with_right(slot)` (§4.2) removes
`key(slot)` and the child at `slot + 1`, reporting whether the node now
violates the minimum. -/
def removeSlotWithRight [Inhabited K] (IN : Nat) (n : InnerNode K)
    (slot : Nat) : InnerNode K × (InnerMergeResult × K) :=
  let removed := n.keys.getD slot default
  let n' : InnerNode K :=
    { keys := n.keys.eraseIdx slot, childs := n.childs.eraseIdx (slot + 1) }
  (n', (if n'.size < minimumSize IN then .underSize else .done, removed))

/-- Modelled from the spec: `set_key(slot, key)` of the `INode` trait
replaces the separator at `slot` and returns the previous one. -/
def setKey [Inhabited K] (n : InnerNode K) (slot : Nat) (key : K) :
    InnerNode K × K :=
  ({ n with keys := n.keys.set slot key }, n.keys.getD slot default)

end InnerNode

/-- Node store backed by flat buffers (src/node_store.rs `NodeStoreVec`),
holding every inner and leaf node, addressed by index.  The single-slot leaf
cache of the driver's store (`src/tree/node_stores.rs`, not in the sources)
is modelled from spec §4.3 as an optional cached leaf id. -/
structure NodeStoreVec (K V : Type) where
  innerNodes : List (InnerNode K)
  leafNodes : List (LeafNode K V)
  cache : Option Nat := none
deriving Repr

namespace NodeStoreVec

/-- Empty store (`NodeStoreVec::new`). -/
def new : NodeStoreVec K V := { innerNodes := [], leafNodes := [] }

/-- Append a fresh empty leaf and return its id (`new_empty_leaf` /
`create_leaf`). -/
def newEmptyLeaf (s : NodeStoreVec K V) : Nat × NodeStoreVec K V :=
  (s.leafNodes.length, { s with leafNodes := s.leafNodes ++ [default] })

/-- Modelled from the spec: `reserve_leaf` (§4.3) hands out a fresh id whose
slot must be assigned later; the slot holds the default empty leaf until
`assign_leaf`. -/
def reserveLeaf (s : NodeStoreVec K V) : Nat × NodeStoreVec K V :=
  (s.leafNodes.length, { s with leafNodes := s.leafNodes ++ [default] })

/-- Store a leaf under a reserved id (`assign_leaf`). -/
def assignLeaf (s : NodeStoreVec K V) (id : Nat) (leaf : LeafNode K V) :
    NodeStoreVec K V :=
  { s with leafNodes := s.leafNodes.set id leaf }

/-- Read a leaf (`get_leaf`); an invalid id panics in the source and
defaults here. -/
def getLeaf (s : NodeStoreVec K V) (id : Nat) : LeafNode K V :=
  s.leafNodes.getD id default

/-- Write a leaf in place (the write half of `get_mut_leaf`). -/
def setLeaf (s : NodeStoreVec K V) (id : Nat) (leaf : LeafNode K V) :
    NodeStoreVec K V :=
  { s with leafNodes := s.leafNodes.set id leaf }

/-- Fallible leaf read (`try_get_leaf`, src/node_store.rs): none when the id
is out of range or the stored leaf holds zero entries. -/
def tryGetLeaf (s : NodeStoreVec K V) (id : Nat) : Option (LeafNode K V) :=
  match s.leafNodes.get? id with
  | none => none
  | some leafNode => if leafNode.size = 0 then none else some leafNode

/-- Take a leaf out, leaving the default empty leaf (`take_leaf`,
src/node_store.rs uses `mem::take`). -/
def takeLeaf (s : NodeStoreVec K V) (id : Nat) :
    LeafNode K V × NodeStoreVec K V :=
  (s.getLeaf id, { s with leafNodes := s.leafNodes.set id default })

/-- Append an inner node and return its id (`add_inner`). -/
def addInner (s : NodeStoreVec K V) (node : InnerNode K) :
    Nat × NodeStoreVec K V :=
  (s.innerNodes.length, { s with innerNodes := s.innerNodes ++ [node] })

/-- Read an inner node (`get_inner`). -/
def getInner (s : NodeStoreVec K V) (id : Nat) : InnerNode K :=
  s.innerNodes.getD id default

/-- Write an inner node in place (the write half of `get_mut_inner`). -/
def setInner (s : NodeStoreVec K V) (id : Nat) (node : InnerNode K) :
    NodeStoreVec K V :=
  { s with innerNodes := s.innerNodes.set id node }

/-- Take an inner node out, leaving the default (`take_inner`). -/
def takeInner (s : NodeStoreVec K V) (id : Nat) :
    InnerNode K × NodeStoreVec K V :=
  (s.getInner id, { s with innerNodes := s.innerNodes.set id default })

/-- Modelled from the spec: `cache_leaf(id)` (§4.3) records the most recently
touched leaf in the single cache slot. -/
def cacheLeaf (s : NodeStoreVec K V) (id : Nat) : NodeStoreVec K V :=
  { s with cache := some id }

/-- Modelled from the spec: `try_cache(k)` (§4.3) returns the cached leaf id
exactly when `k` lies within that leaf's key range (inclusive). -/
def tryCache [LinearOrder K] (s : NodeStoreVec K V) (k : K) : Option Nat :=
  match s.cache with
  | some id => if (s.getLeaf id).inRange k then some id else none
  | none => none

end NodeStoreVec

/-- Result of descending insert (`DescendInsertResult`, src/tree/mod.rs). -/
inductive DescendInsertResult (K V : Type) where
  | updated (prev : V)
  | inserted
  | split (k : K) (newChild : NodeId)
deriving DecidableEq, Repr

/-- Result of descending delete (`DeleteDescendResult`, src/tree/mod.rs):
`noEntry` is the source's `None` variant. -/
inductive DeleteDescendResult (K V : Type) where
  | noEntry
  | done (kv : K × V)
  | innerUnderSize (kv : K × V)
deriving DecidableEq, Repr

/-- Rebalance action for an under-sized leaf (`FixAction`, src/tree/mod.rs). -/
inductive FixAction where
  | rotateRight
  | rotateLeft
  | mergeLeft
  | mergeRight
deriving DecidableEq, Repr

/-- B+ tree driver state (src/tree/mod.rs `BPlusTree`): root id, entry count
and the node store.  The statistics counters do not influence behaviour and
are omitted. -/
structure BPlusTree (K V : Type) where
  root : NodeId
  len : Nat
  store : NodeStoreVec K V
deriving Repr

variable [LinearOrder K] [Inhabited K] [Inhabited V]

/-- Create a tree over a fresh store (`BPlusTree::new`): the root is a new
empty leaf. -/
def BPlusTree.new : BPlusTree K V :=
  let (rootId, s) := (NodeStoreVec.new : NodeStoreVec K V).newEmptyLeaf
  { root := .leaf rootId, len := 0, store := s }

/-- Insert into a leaf (`insert_leaf`, src/tree/mod.rs): upsert, and on a full
leaf reserve a right id, split, fix the split-off successor's `prev`, assign
the new leaf, cache the half that received the key, and report the split. -/
def insertLeaf (LN : Nat) (s : NodeStoreVec K V) (id : Nat) (k : K) (v : V) :
    NodeStoreVec K V × DescendInsertResult K V :=
  match (s.getLeaf id).tryUpsert LN k v with
  | (leaf', .inserted) => ((s.setLeaf id leaf').cacheLeaf id, .inserted)
  | (leaf', .updated v₀) => (s.setLeaf id leaf', .updated v₀)
  | (_, .isFull idx) =>
    let (rightId, s) := s.reserveLeaf
    let (lLeaf, rLeaf) := (s.getLeaf id).splitNewLeaf LN idx (k, v) rightId id
    let slotKey := (rLeaf.dataAt 0).1
    let s := s.setLeaf id lLeaf
    let s :=
      match rLeaf.next with
      | some nxt => s.setLeaf nxt ((s.getLeaf nxt).setPrev (some rightId))
      | none => s
    let s := s.assignLeaf rightId rLeaf
    let updatedId := if LN / 2 ≤ idx then rightId else id
    (s.cacheLeaf updatedId, .split slotKey (.leaf rightId))

/-- Descend an insert from a node (`descend_insert` / `insert_inner`,
src/tree/mod.rs).  The source's iterative loop with an explicit visit stack
is the structural recursion written here; `fuel` bounds the depth and the
driver passes more fuel than any well-formed tree's height. -/
def descendInsert (IN LN : Nat) :
    Nat → NodeStoreVec K V → NodeId → K → V →
    NodeStoreVec K V × DescendInsertResult K V
  | _, s, .leaf lid, k, v => insertLeaf LN s lid k v
  | 0, s, .inner _, _, _ => (s, .inserted)
  | fuel + 1, s, .inner iid, k, v =>
    let (childIdx, childId) := (s.getInner iid).locateChild k
    match descendInsert IN LN fuel s childId k v with
    | (s, .split key rightChild) =>
      let innerNode := s.getInner iid
      if innerNode.isFull IN then
        let (left, (pk, newNode)) := innerNode.split IN childIdx key rightChild
        let (newId, s) := s.addInner newNode
        (s.setInner iid left, .split pk (.inner newId))
      else
        (s.setInner iid (innerNode.insertAt childIdx key rightChild), .inserted)
    | r => r

/-- Insert along the slow path (`insert` after a cache miss,
src/tree/mod.rs): descend from the root and grow a new inner root when a
split propagates all the way up; `len` grows exactly when no previous value
is returned. -/
def insertSlow (IN LN : Nat) (t : BPlusTree K V) (k : K) (v : V) :
    BPlusTree K V × Option V :=
  match descendInsert IN LN (t.store.innerNodes.length + 1) t.store t.root k v with
  | (s, .inserted) => ({ root := t.root, len := t.len + 1, store := s }, none)
  | (s, .updated v₀) => ({ root := t.root, len := t.len, store := s }, some v₀)
  | (s, .split key newChildId) =>
    let newRoot : InnerNode K := { keys := [key], childs := [t.root, newChildId] }
    let (newRootId, s) := s.addInner newRoot
    ({ root := .inner newRootId, len := t.len + 1, store := s }, none)

/-- Insert a key-value pair (`insert`, src/tree/mod.rs).  The cache fast path
fires when the cached leaf covers `k` and is not full; its `IsFull` match arm
is unreachable in the source and keeps the tree unchanged here. -/
def BPlusTree.insert (IN LN : Nat) (t : BPlusTree K V) (k : K) (v : V) :
    BPlusTree K V × Option V :=
  match t.store.tryCache k with
  | some leafId =>
    let leaf := t.store.getLeaf leafId
    if leaf.isFull LN then insertSlow IN LN t k v
    else
      match leaf.tryUpsert LN k v with
      | (leaf', .inserted) =>
        ({ t with store := t.store.setLeaf leafId leaf', len := t.len + 1 }, none)
      | (leaf', .updated v₀) =>
        ({ t with store := t.store.setLeaf leafId leaf' }, some v₀)
      | (_, .isFull _) => (t, none)
  | none => insertSlow IN LN t k v

/-- Choose a rebalance action for an under-sized leaf from its siblings (the
`FixAction` match in `handle_leaf_under_size`, src/tree/mod.rs): when both
siblings can lend, take from the larger (prev wins only when strictly
larger); when one can lend, take from it; otherwise merge with the left
sibling if present, else with the right.  Both siblings missing is the
source's `unreachable!`. -/
def chooseFixAction (LN : Nat) (prevSibling nextSibling : Option (LeafNode K V)) :
    Option FixAction :=
  match prevSibling, nextSibling with
  | some p, some n =>
    if p.ableToLend LN then
      if n.ableToLend LN then
        if n.size < p.size then some .rotateRight else some .rotateLeft
      else some .rotateRight
    else if n.ableToLend LN then some .rotateLeft
    else some .mergeLeft
  | some p, none =>
    if p.ableToLend LN then some .rotateRight else some .mergeLeft
  | none, some n =>
    if n.ableToLend LN then some .rotateLeft else some .mergeRight
  | none, none => none

/-- Rotate one entry right across leaves (`rotate_right_for_leaf`,
src/tree/mod.rs): pop the left sibling's last entry, delete-with-push-front
in the right leaf, update the parent separator to the moved key, cache the
right leaf; returns the pair deleted at `deleteIdx`. -/
def rotateRightForLeaf (s : NodeStoreVec K V) (parentId slot deleteIdx : Nat) :
    NodeStoreVec K V × (K × V) :=
  let parent := s.getInner parentId
  let leftId := (parent.childId slot).leafIdUnchecked
  let rightId := (parent.childId (slot + 1)).leafIdUnchecked
  let (left', kv) := (s.getLeaf leftId).pop
  let newSlotKey := kv.1
  let s := s.setLeaf leftId left'
  let (right', deleted) := (s.getLeaf rightId).deleteWithPushFront deleteIdx kv
  let s := (s.setLeaf rightId right').cacheLeaf rightId
  let (parent', _) := parent.setKey slot newSlotKey
  (s.setInner parentId parent', deleted)

/-- Rotate one entry left across leaves (`rotate_left_for_leaf`,
src/tree/mod.rs): pop the right sibling's first entry, delete-with-push in
the left leaf, update the parent separator to the right sibling's new first
key, cache the left leaf. -/
def rotateLeftForLeaf (s : NodeStoreVec K V) (parentId slot deleteIdx : Nat) :
    NodeStoreVec K V × (K × V) :=
  let parent := s.getInner parentId
  let leftId := (parent.childId slot).leafIdUnchecked
  let rightId := (parent.childId (slot + 1)).leafIdUnchecked
  let (right', kv) := (s.getLeaf rightId).popFront
  let newSlotKey := (right'.dataAt 0).1
  let s := s.setLeaf rightId right'
  let (left', deleted) := (s.getLeaf leftId).deleteWithPush deleteIdx kv
  let (parent', _) := parent.setKey slot newSlotKey
  let s := (s.setLeaf leftId left').setInner parentId parent'
  (s.cacheLeaf leftId, deleted)

/-- Merge an under-sized leaf into its left sibling (`merge_leaf_node_left`,
src/tree/mod.rs): take the right leaf, merge skipping the deleted slot, fix
the successor's `prev`, drop the separator in the parent, cache the survivor. -/
def mergeLeafNodeLeft (IN : Nat) (s : NodeStoreVec K V)
    (parentId slot deleteIdx : Nat) :
    NodeStoreVec K V × DeleteDescendResult K V :=
  let parent := s.getInner parentId
  let leftLeafId := (parent.childId slot).leafIdUnchecked
  let rightLeafId := (parent.childId (slot + 1)).leafIdUnchecked
  let (right, s) := s.takeLeaf rightLeafId
  let (left', kv) := (s.getLeaf leftLeafId).mergeRightDeleteFirst deleteIdx right
  let s := s.setLeaf leftLeafId left'
  let s :=
    match left'.next with
    | some nxt => s.setLeaf nxt ((s.getLeaf nxt).setPrev (some leftLeafId))
    | none => s
  let (parent', (mergeResult, _)) := parent.removeSlotWithRight IN slot
  let s := (s.setInner parentId parent').cacheLeaf leftLeafId
  match mergeResult with
  | .done => (s, .done kv)
  | .underSize => (s, .innerUnderSize kv)

/-- Merge the right sibling into an under-sized leaf
(`merge_leaf_node_with_right`, src/tree/mod.rs): delete locally, absorb the
taken right leaf, fix links, drop the separator, cache the survivor. -/
def mergeLeafNodeWithRight (IN : Nat) (s : NodeStoreVec K V)
    (parentId slot deleteIdx : Nat) :
    NodeStoreVec K V × DeleteDescendResult K V :=
  let parent := s.getInner parentId
  let leftLeafId := (parent.childId slot).leafIdUnchecked
  let rightLeafId := (parent.childId (slot + 1)).leafIdUnchecked
  let (right, s) := s.takeLeaf rightLeafId
  let (leftDel, kv) := (s.getLeaf leftLeafId).deleteAt deleteIdx
  let left' := leftDel.mergeRight right
  let s := s.setLeaf leftLeafId left'
  let s :=
    match left'.next with
    | some nxt => s.setLeaf nxt ((s.getLeaf nxt).setPrev (some leftLeafId))
    | none => s
  let (parent', (mergeResult, _)) := parent.removeSlotWithRight IN slot
  let s := (s.setInner parentId parent').cacheLeaf leftLeafId
  match mergeResult with
  | .done => (s, .done kv)
  | .underSize => (s, .innerUnderSize kv)

/-- Rebalance an under-sized leaf below a parent inner node
(`handle_leaf_under_size`, src/tree/mod.rs): inspect the up-to-two siblings,
choose the action, and apply it.  The parent lives in the store at
`parentId`; the source mutates it through an aliasing pointer into the store. -/
def handleLeafUnderSize (IN LN : Nat) (s : NodeStoreVec K V)
    (parentId childIdx keyIdxInChild : Nat) :
    NodeStoreVec K V × DeleteDescendResult K V :=
  let node := s.getInner parentId
  let prevSibling :=
    if 0 < childIdx then
      some (s.getLeaf ((node.childId (childIdx - 1)).leafIdUnchecked))
    else none
  let nextSibling :=
    if childIdx < node.size then
      some (s.getLeaf ((node.childId (childIdx + 1)).leafIdUnchecked))
    else none
  match chooseFixAction LN prevSibling nextSibling with
  | some .rotateRight =>
    let (s, kv) := rotateRightForLeaf s parentId (childIdx - 1) keyIdxInChild
    (s, .done kv)
  | some .rotateLeft =>
    let (s, kv) := rotateLeftForLeaf s parentId childIdx keyIdxInChild
    (s, .done kv)
  | some .mergeLeft => mergeLeafNodeLeft IN s parentId (childIdx - 1) keyIdxInChild
  | some .mergeRight => mergeLeafNodeWithRight IN s parentId childIdx keyIdxInChild
  | none => (s, .noEntry)

/-- Rotate a separator right across inner siblings
(`try_rotate_right_for_inner_node`, src/tree/mod.rs): when the left child can
lend, pop its last pair, swap the key into the parent separator and push the
old separator with the moved child to the right child's front. -/
def tryRotateRightForInnerNode (IN : Nat) (s : NodeStoreVec K V)
    (parentId slot : Nat) : Option (NodeStoreVec K V) :=
  let parent := s.getInner parentId
  let rightChildId := (parent.childId (slot + 1)).innerIdUnchecked
  let leftChildId := (parent.childId slot).innerIdUnchecked
  let prevNode := s.getInner leftChildId
  if prevNode.ableToLend IN then
    let (prev', (k, c)) := prevNode.pop
    let (parent', slotKey) := parent.setKey slot k
    let right' := (s.getInner rightChildId).pushFront slotKey c
    some (((s.setInner leftChildId prev').setInner parentId parent').setInner
      rightChildId right')
  else none

/-- Rotate a separator left across inner siblings
(`try_rotate_left_for_inner_node`, src/tree/mod.rs). -/
def tryRotateLeftForInnerNode (IN : Nat) (s : NodeStoreVec K V)
    (parentId slot : Nat) : Option (NodeStoreVec K V) :=
  let parent := s.getInner parentId
  let rightChildId := (parent.childId (slot + 1)).innerIdUnchecked
  let leftChildId := (parent.childId slot).innerIdUnchecked
  let right := s.getInner rightChildId
  if right.ableToLend IN then
    let (right', (k, c)) := right.popFront
    let (parent', slotKey) := parent.setKey slot k
    let left' := (s.getInner leftChildId).push slotKey c
    some (((s.setInner rightChildId right').setInner parentId parent').setInner
      leftChildId left')
  else none

/-- Merge two inner siblings around a separator (`merge_inner_node`,
src/tree/mod.rs): drop the separator and the right child pointer from the
parent, take the right child and absorb it into the left via `merge_next`. -/
def mergeInnerNode (IN : Nat) (s : NodeStoreVec K V) (parentId slot : Nat) :
    NodeStoreVec K V × InnerMergeResult :=
  let parent := s.getInner parentId
  let leftChildId := (parent.childId slot).innerIdUnchecked
  let rightChildId := (parent.childId (slot + 1)).innerIdUnchecked
  let (parent', (result, slotKey)) := parent.removeSlotWithRight IN slot
  let s := s.setInner parentId parent'
  let (right, s) := s.takeInner rightChildId
  let left' := (s.getInner leftChildId).mergeNext slotKey right
  (s.setInner leftChildId left', result)

/-- Rebalance an under-sized inner child (`handle_inner_under_size`,
src/tree/mod.rs): try rotate-right from the left sibling, then rotate-left
from the right sibling, else merge (with the left when it exists). -/
def handleInnerUnderSize (IN : Nat) (s : NodeStoreVec K V)
    (parentId childIdx : Nat) (deletedItem : K × V) :
    NodeStoreVec K V × DeleteDescendResult K V :=
  match
    if 0 < childIdx then tryRotateRightForInnerNode IN s parentId (childIdx - 1)
    else none
  with
  | some s => (s, .done deletedItem)
  | none =>
    match
      if childIdx < (s.getInner parentId).size then
        tryRotateLeftForInnerNode IN s parentId childIdx
      else none
    with
    | some s => (s, .done deletedItem)
    | none =>
      let mergeSlot := if 0 < childIdx then childIdx - 1 else childIdx
      match mergeInnerNode IN s parentId mergeSlot with
      | (s, .done) => (s, .done deletedItem)
      | (s, .underSize) => (s, .innerUnderSize deletedItem)

/-- Descend a removal from an inner node (`remove_inner`, src/tree/mod.rs).
The source's iterative loop with an explicit visit stack is the structural
recursion written here, with `fuel` bounding the depth; the parent node that
the source mutates through `get_mut_inner_ptr` lives in the store throughout. -/
def removeInnerGo (IN LN : Nat) :
    Nat → NodeStoreVec K V → Nat → K →
    NodeStoreVec K V × DeleteDescendResult K V
  | 0, s, _, _ => (s, .noEntry)
  | fuel + 1, s, iid, k =>
    let (childIdx, childId) := (s.getInner iid).locateChild k
    match childId with
    | .inner cid =>
      match removeInnerGo IN LN fuel s cid k with
      | (s, .innerUnderSize kv) => handleInnerUnderSize IN s iid childIdx kv
      | r => r
    | .leaf lid =>
      match (s.getLeaf lid).tryDelete LN k with
      | (leaf', .done kv) => (s.setLeaf lid leaf', .done kv)
      | (_, .notFound) => (s, .noEntry)
      | (_, .underSize idx) => handleLeafUnderSize IN LN s iid childIdx idx

/-- Remove along the slow path (`remove` after a cache miss,
src/tree/mod.rs): descend from the root; an under-sized inner root with zero
separators is shrunk to its sole child; `len` shrinks exactly when a value
is returned.  A root leaf is exempt from the minimum: its under-size result
is resolved by a plain `delete_at`. -/
def removeSlow (IN LN : Nat) (t : BPlusTree K V) (k : K) :
    BPlusTree K V × Option V :=
  match t.root with
  | .inner iid =>
    match removeInnerGo IN LN (t.store.innerNodes.length + 1) t.store iid k with
    | (s, .done kv) => ({ root := t.root, len := t.len - 1, store := s }, some kv.2)
    | (s, .noEntry) => ({ root := t.root, len := t.len, store := s }, none)
    | (s, .innerUnderSize kv) =>
      let root := s.getInner iid
      let newRoot := if root.isEmpty then root.childId 0 else t.root
      ({ root := newRoot, len := t.len - 1, store := s }, some kv.2)
  | .leaf lid =>
    match (t.store.getLeaf lid).tryDelete LN k with
    | (leaf', .done kv) =>
      ({ t with store := t.store.setLeaf lid leaf', len := t.len - 1 }, some kv.2)
    | (_, .notFound) => (t, none)
    | (_, .underSize idx) =>
      let (leaf', kv) := (t.store.getLeaf lid).deleteAt idx
      ({ t with store := t.store.setLeaf lid leaf', len := t.len - 1 }, some kv.2)

/-- Remove a key (`remove`, src/tree/mod.rs).  The cache fast path fires when
the cached leaf covers `k` and can spare an entry; its `UnderSize` match arm
is unreachable in the source and keeps the tree unchanged here. -/
def BPlusTree.remove (IN LN : Nat) (t : BPlusTree K V) (k : K) :
    BPlusTree K V × Option V :=
  match t.store.tryCache k with
  | some cacheLeafId =>
    let leaf := t.store.getLeaf cacheLeafId
    if leaf.ableToLend LN then
      match leaf.tryDelete LN k with
      | (leaf', .done kv) =>
        ({ t with store := t.store.setLeaf cacheLeafId leaf', len := t.len - 1 },
         some kv.2)
      | (_, .notFound) => (t, none)
      | (_, .underSize _) => (t, none)
    else removeSlow IN LN t k
  | none => removeSlow IN LN t k

/-- Cursor (spec §4.6): an owned triple of key, hinted leaf id and hinted
slot.  The cursor module `src/tree/cursor.rs` is not in the sources; the
structure is what `get_cursor` in src/tree/mod.rs constructs. -/
structure Cursor (K : Type) where
  key : K
  leafId : Nat
  idx : Nat
deriving DecidableEq, Repr

/-- Descend from an inner node to the leaf covering `k` (the
`descend_visit_inner` call in `get_cursor` / `locate_leaf`, src/tree/mod.rs),
with fuel bounding the depth. -/
def descendToLeaf (IN : Nat) :
    Nat → NodeStoreVec K V → Nat → K → Option Nat
  | 0, _, _, _ => none
  | fuel + 1, s, iid, k =>
    match ((s.getInner iid).locateChild k).2 with
    | .inner nid => descendToLeaf IN fuel s nid k
    | .leaf lid => some lid

/-- Create a cursor for `k` (`get_cursor`, src/tree/mod.rs): descend to the
leaf whose range covers `k` and pair the cursor with the value when present. -/
def BPlusTree.getCursor (IN : Nat) (t : BPlusTree K V) (k : K) :
    Option (Cursor K × Option V) :=
  let leafId? :=
    match t.root with
    | .inner iid => descendToLeaf IN (t.store.innerNodes.length + 1) t.store iid k
    | .leaf lid => some lid
  match leafId? with
  | none => none
  | some lid =>
    let (idx, v) := (t.store.getLeaf lid).locateSlotWithValue k
    some ({ key := k, leafId := lid, idx := idx }, v)

/-- Entries of the subtree rooted at a node, leaves left to right;
`fuel` bounds the depth as everywhere in the driver. -/
def subtreeEntries (s : NodeStoreVec K V) : Nat → NodeId → List (K × V)
  | _, .leaf lid => (s.getLeaf lid).data
  | 0, .inner _ => []
  | fuel + 1, .inner iid =>
    ((s.getInner iid).childs.map (subtreeEntries s fuel)).flatten

/-- Leaf ids of the subtree rooted at a node, left to right. -/
def subtreeLeafIds (s : NodeStoreVec K V) : Nat → NodeId → List Nat
  | _, .leaf lid => [lid]
  | 0, .inner _ => []
  | fuel + 1, .inner iid =>
    ((s.getInner iid).childs.map (subtreeLeafIds s fuel)).flatten

/-- Inner-node ids of the subtree rooted at a node. -/
def subtreeInnerIds (s : NodeStoreVec K V) : Nat → NodeId → List Nat
  | _, .leaf _ => []
  | 0, .inner iid => [iid]
  | fuel + 1, .inner iid =>
    iid :: ((s.getInner iid).childs.map (subtreeInnerIds s fuel)).flatten

/-- Association list of all entries of the tree in key order. -/
def BPlusTree.toList (t : BPlusTree K V) : List (K × V) :=
  subtreeEntries t.store (t.store.innerNodes.length + 1) t.root

/-- Leaf ids of the whole tree in key order. -/
def BPlusTree.leafIds (t : BPlusTree K V) : List Nat :=
  subtreeLeafIds t.store (t.store.innerNodes.length + 1) t.root

/-- Group-count summary (src/argument/group.rs `GroupCount<G>`): `zero`,
`one(group, key count)`, or `multiple` with the minimum and maximum groups
(each paired with a key count) and the number of groups. -/
inductive GroupCount (G : Type) where
  | zero
  | one (g : G) (count : Nat)
  | multiple (minGroup : G × Nat) (maxGroup : G × Nat) (groupCount : Nat)
deriving DecidableEq, Repr

namespace GroupCount

/-- Number of groups a summary reports (`group_count`, src/argument/group.rs). -/
def groupCountOf : GroupCount G → Nat
  | .zero => 0
  | .one _ _ => 1
  | .multiple _ _ gc => gc

/-- Loop of `GroupCount::from_leaf` (src/argument/group.rs).  The source
keeps `last_group_item_count` as a mutable borrow aliasing either
`min_group_count` (before the first group change) or `last_group_count`
(after); `ptrIsMin` tracks which one it points to.  The source never resets
`last_group_count` to 1 on a group change — only repoints the borrow — and
this translation reproduces that behaviour faithfully. -/
def fromLeafGo [DecidableEq G] (grp : K → G) :
    List K → Nat → Nat → Nat → Bool → G → Nat × Nat × Nat × G
  | [], gc, minC, lastC, _, lastG => (gc, minC, lastC, lastG)
  | key :: rest, gc, minC, lastC, ptrIsMin, lastG =>
    let g := grp key
    if lastG ≠ g then fromLeafGo grp rest (gc + 1) minC lastC false g
    else if ptrIsMin then fromLeafGo grp rest gc (minC + 1) lastC ptrIsMin lastG
    else fromLeafGo grp rest gc minC (lastC + 1) ptrIsMin lastG

/-- Fold a leaf's keys into a summary (`from_leaf`, src/argument/group.rs),
with the group of a key given by `grp` (the `FromRef` projection). -/
def fromLeaf [DecidableEq G] (grp : K → G) (keys : List K) : GroupCount G :=
  match keys with
  | [] => .zero
  | k0 :: rest =>
    let firstGroup := grp k0
    let (gc, minC, lastC, lastG) := fromLeafGo grp rest 1 1 1 true firstGroup
    match gc with
    | 1 => .one firstGroup minC
    | _ => .multiple (firstGroup, minC) (lastG, lastC) gc

/-- Merge a summary with the summary of the keys to its right (`merge_with`,
src/argument/group.rs): adjacent equal groups are fused and the group count
deducts the double-counted boundary group. -/
def mergeWith [DecidableEq G] : GroupCount G → GroupCount G → GroupCount G
  | .zero, r => r
  | l, .zero => l
  | .one g1 c1, .one g2 c2 =>
    if g1 = g2 then .one g1 (c1 + c2)
    else .multiple (g1, c1) (g2, c2) 2
  | .one g1 c1, .multiple minGroup maxGroup gc =>
    if g1 = minGroup.1 then .multiple (g1, c1 + minGroup.2) maxGroup gc
    else .multiple (g1, c1) maxGroup (gc + 1)
  | .multiple minGroup maxGroup gc, .one g2 c2 =>
    if g2 = maxGroup.1 then .multiple minGroup (maxGroup.1, maxGroup.2 + c2) gc
    else .multiple minGroup (g2, c2) (gc + 1)
  | .multiple lMin lMax lGc, .multiple rMin rMax rGc =>
    .multiple lMin rMax (if lMax.1 = rMin.1 then lGc + rGc - 1 else lGc + rGc)

/-- Fold child summaries (`from_inner`, src/argument/group.rs). -/
def fromInner [DecidableEq G] (arguments : List (GroupCount G)) : GroupCount G :=
  arguments.foldl mergeWith .zero

end GroupCount

/-- Fold a list of inserts over a `Nat`-keyed tree (each key maps to itself);
helper for concrete executions. -/
def runInserts (IN LN : Nat) (t : BPlusTree Nat Nat) (ks : List Nat) :
    BPlusTree Nat Nat :=
  ks.foldl (fun t k => (t.insert IN LN k k).1) t

/-- Ceiling of `n / 2`, the "half fan-out" the spec's occupancy claim uses. -/
def halfCeil (n : Nat) : Nat := (n + 1) / 2

/-! ### Abstract map operations on sorted association lists

The functional specification `insert` / `remove` are verified against:
an association list sorted strictly by key. -/

/-- Insert-or-update on an association list sorted by key. -/
def upsertList (k : K) (v : V) [LinearOrder K] : List (K × V) → List (K × V)
  | [] => [(k, v)]
  | (a, b) :: rest =>
    if k < a then (k, v) :: (a, b) :: rest
    else if k = a then (k, v) :: rest
    else (a, b) :: upsertList k v rest

/-- Lookup of the first binding of `k`. -/
def lookupList (k : K) [DecidableEq K] : List (K × V) → Option V
  | [] => none
  | (a, b) :: rest => if a = k then some b else lookupList k rest

/-- Removal of the first binding of `k`. -/
def eraseKeyList (k : K) [DecidableEq K] : List (K × V) → List (K × V)
  | [] => []
  | (a, b) :: rest => if a = k then rest else (a, b) :: eraseKeyList k rest

/-- Keys of an association list. -/
def keysOf (es : List (K × V)) : List K := es.map Prod.fst

/-- Strict sortedness of an association list by key. -/
def SortedKeys [LinearOrder K] (es : List (K × V)) : Prop :=
  List.Chain' (· < ·) (keysOf es)

/-! ### Well-formedness of a tree state

The invariant ties a store, a height and a node id to the key interval the
subtree covers: a half-open interval, inclusive lower bound (separators equal
the first key of the child to their right) and exclusive upper bound. -/

/-- Membership of a key in a half-open interval with optional ends. -/
def inBnd [LinearOrder K] (lo hi : Option K) (k : K) : Prop :=
  (match lo with
   | some a => a ≤ k
   | none => True) ∧
  (match hi with
   | some b => k < b
   | none => True)

/-- Interval bounds of the children of an inner node with separators `ks`:
child `i` covers `[bnds[i], bnds[i+1])`. -/
def boundsList (lo hi : Option K) (ks : List K) : List (Option K) :=
  lo :: (ks.map some ++ [hi])

/-- Entries of the subtree at a node, recursing on the exact height. -/
def entriesAt (s : NodeStoreVec K V) : Nat → NodeId → List (K × V)
  | _, .leaf lid => (s.getLeaf lid).data
  | 0, .inner _ => []
  | h + 1, .inner iid =>
    ((s.getInner iid).childs.map (entriesAt s h)).flatten

/-- Inner-node ids of the subtree at a node, recursing on the exact height. -/
def fpInner (s : NodeStoreVec K V) : Nat → NodeId → List Nat
  | _, .leaf _ => []
  | 0, .inner iid => [iid]
  | h + 1, .inner iid =>
    iid :: ((s.getInner iid).childs.map (fpInner s h)).flatten

/-- Leaf ids of the subtree at a node, recursing on the exact height. -/
def fpLeaf (s : NodeStoreVec K V) : Nat → NodeId → List Nat
  | _, .leaf lid => [lid]
  | 0, .inner _ => []
  | h + 1, .inner iid =>
    ((s.getInner iid).childs.map (fpLeaf s h)).flatten

/-- Shape of one inner node whose children satisfy `P`, with `minKeys` the
lower bound on its separator count (the non-root minimum, or the root's 1). -/
def InnerBody [LinearOrder K] (IN : Nat) (s : NodeStoreVec K V)
    (P : NodeId → Option K → Option K → Prop) (iid : Nat)
    (lo hi : Option K) (minKeys : Nat) : Prop :=
  iid < s.innerNodes.length ∧
  (s.getInner iid).childs.length = (s.getInner iid).keys.length + 1 ∧
  minKeys ≤ (s.getInner iid).size ∧
  (s.getInner iid).size ≤ IN ∧
  ∀ i, i < (s.getInner iid).childs.length →
    P ((s.getInner iid).childs.getD i default)
      ((boundsList lo hi (s.getInner iid).keys).getD i none)
      ((boundsList lo hi (s.getInner iid).keys).getD (i + 1) none)

/-- Well-formedness of the subtree of height `h` at a node: valid ids,
strictly sorted leaf keys, keys inside the node's interval, and non-root
occupancy minima throughout. -/
def Good [LinearOrder K] (IN LN : Nat) (s : NodeStoreVec K V) :
    Nat → NodeId → Option K → Option K → Prop
  | 0, .leaf lid, lo, hi =>
    lid < s.leafNodes.length ∧
    SortedKeys (s.getLeaf lid).data ∧
    (∀ kv ∈ (s.getLeaf lid).data, inBnd lo hi kv.1) ∧
    LeafNode.minimumSize LN ≤ (s.getLeaf lid).size ∧
    (s.getLeaf lid).size ≤ LN
  | _ + 1, .leaf _, _, _ => False
  | 0, .inner _, _, _ => False
  | h + 1, .inner iid, lo, hi =>
    InnerBody IN s (Good IN LN s h) iid lo hi (InnerNode.minimumSize IN)

/-- Well-formedness of the whole tree at its root: the root leaf is exempt
from the occupancy minimum; an inner root needs only one separator.  The
subtree node ids are all distinct. -/
def TreeAt [LinearOrder K] (IN LN : Nat) (s : NodeStoreVec K V) :
    Nat → NodeId → Prop
  | 0, .leaf lid =>
    lid < s.leafNodes.length ∧
    SortedKeys (s.getLeaf lid).data ∧
    (s.getLeaf lid).size ≤ LN
  | _ + 1, .leaf _ => False
  | 0, .inner _ => False
  | h + 1, .inner iid =>
    InnerBody IN s (Good IN LN s h) iid none none 1

instance instDecInBnd [LinearOrder K] (lo hi : Option K) (k : K) :
    Decidable (inBnd lo hi k) :=
  match lo, hi with
  | none, none => inferInstanceAs (Decidable (True ∧ True))
  | none, some b => inferInstanceAs (Decidable (True ∧ k < b))
  | some a, none => inferInstanceAs (Decidable (a ≤ k ∧ True))
  | some a, some b => inferInstanceAs (Decidable (a ≤ k ∧ k < b))

/-- Kernel-friendly decision procedure for `List.Chain'`. -/
def decChain' {α : Type} {r : α → α → Prop} [inst : DecidableRel r] :
    (l : List α) → Decidable (List.Chain' r l)
  | [] => isTrue trivial
  | [_] => isTrue (List.chain'_singleton _)
  | a :: b :: l =>
    match inst a b, decChain' (b :: l) with
    | isTrue h1, isTrue h2 => isTrue (List.chain'_cons.mpr ⟨h1, h2⟩)
    | isFalse h1, _ => isFalse (fun hc => h1 (List.chain'_cons.mp hc).1)
    | _, isFalse h2 => isFalse (fun hc => h2 (List.chain'_cons.mp hc).2)

instance instDecSortedKeys [LinearOrder K] (es : List (K × V)) :
    Decidable (SortedKeys es) :=
  decChain' (keysOf es)

instance instDecInnerBody [LinearOrder K] (IN : Nat) (s : NodeStoreVec K V)
    (P : NodeId → Option K → Option K → Prop)
    [inst : ∀ id lo hi, Decidable (P id lo hi)] (iid : Nat)
    (lo hi : Option K) (minKeys : Nat) :
    Decidable (InnerBody IN s P iid lo hi minKeys) :=
  inferInstanceAs (Decidable
    (iid < s.innerNodes.length ∧
     (s.getInner iid).childs.length = (s.getInner iid).keys.length + 1 ∧
     minKeys ≤ (s.getInner iid).size ∧
     (s.getInner iid).size ≤ IN ∧
     ∀ i, i < (s.getInner iid).childs.length →
       P ((s.getInner iid).childs.getD i default)
         ((boundsList lo hi (s.getInner iid).keys).getD i none)
         ((boundsList lo hi (s.getInner iid).keys).getD (i + 1) none)))

/-- Decidability of `Good`, by recursion on the height. -/
def decGood [LinearOrder K] (IN LN : Nat) (s : NodeStoreVec K V) :
    (h : Nat) → (id : NodeId) → (lo hi : Option K) →
      Decidable (Good IN LN s h id lo hi)
  | 0, .leaf lid, lo, hi =>
    inferInstanceAs (Decidable
      (lid < s.leafNodes.length ∧
       SortedKeys (s.getLeaf lid).data ∧
       (∀ kv ∈ (s.getLeaf lid).data, inBnd lo hi kv.1) ∧
       LeafNode.minimumSize LN ≤ (s.getLeaf lid).size ∧
       (s.getLeaf lid).size ≤ LN))
  | _ + 1, .leaf _, _, _ => isFalse (fun hf => hf)
  | 0, .inner _, _, _ => isFalse (fun hf => hf)
  | h + 1, .inner iid, lo, hi =>
    @instDecInnerBody K V _ IN s (Good IN LN s h)
      (fun id lo hi => decGood IN LN s h id lo hi) iid lo hi
      (InnerNode.minimumSize IN)

instance instDecGood [LinearOrder K] (IN LN : Nat) (s : NodeStoreVec K V)
    (h : Nat) (id : NodeId) (lo hi : Option K) :
    Decidable (Good IN LN s h id lo hi) :=
  decGood IN LN s h id lo hi

/-- Decidability of `TreeAt`. -/
def decTreeAt [LinearOrder K] (IN LN : Nat) (s : NodeStoreVec K V) :
    (h : Nat) → (id : NodeId) → Decidable (TreeAt IN LN s h id)
  | 0, .leaf lid =>
    inferInstanceAs (Decidable
      (lid < s.leafNodes.length ∧
       SortedKeys (s.getLeaf lid).data ∧
       (s.getLeaf lid).size ≤ LN))
  | _ + 1, .leaf _ => isFalse (fun hf => hf)
  | 0, .inner _ => isFalse (fun hf => hf)
  | h + 1, .inner iid =>
    @instDecInnerBody K V _ IN s (Good IN LN s h)
      (fun id lo hi => decGood IN LN s h id lo hi) iid none none 1

instance instDecTreeAt [LinearOrder K] (IN LN : Nat) (s : NodeStoreVec K V)
    (h : Nat) (id : NodeId) : Decidable (TreeAt IN LN s h id) :=
  decTreeAt IN LN s h id

/-- Full invariant of a driver state: sane fan-outs, a well-formed tree of
some height, distinct node ids, `len` equal to the number of entries, and a
cache that only ever points at a leaf of the tree. -/
def WF [LinearOrder K] (IN LN : Nat) (t : BPlusTree K V) : Prop :=
  2 ≤ IN ∧ 2 ≤ LN ∧
  ∃ h, TreeAt IN LN t.store h t.root ∧
    (fpInner t.store h t.root).Nodup ∧
    (fpLeaf t.store h t.root).Nodup ∧
    t.len = (entriesAt t.store h t.root).length ∧
    (∀ cid, t.store.cache = some cid → cid ∈ fpLeaf t.store h t.root)

/-- Statement that a store mutation only created fresh nodes and rewrote
nodes inside the given footprints: every old node outside them is unchanged. -/
def PreservedOutside (s s' : NodeStoreVec K V) (fpI fpL : List Nat) : Prop :=
  s.innerNodes.length ≤ s'.innerNodes.length ∧
  s.leafNodes.length ≤ s'.leafNodes.length ∧
  (∀ j, j < s.innerNodes.length → j ∉ fpI → s'.getInner j = s.getInner j) ∧
  (∀ j, j < s.leafNodes.length → j ∉ fpL →
    (s'.getLeaf j).data = (s.getLeaf j).data)

/-- Context of one leaf inside a well-formed subtree: its interval, the
entries to its left and right, the separation facts between them, and the
ability to overwrite the leaf with any well-formed content in its interval,
rebuilding `Rebuild` of the new store. -/
def LeafCtx [LinearOrder K] (IN LN : Nat) (s : NodeStoreVec K V) (h : Nat)
    (id : NodeId) (lo hi : Option K) (lid : Nat)
    (Rebuild : NodeStoreVec K V → Prop) : Prop :=
  ∃ llo lhi A B,
    Good IN LN s 0 (.leaf lid) llo lhi ∧
    entriesAt s h id = A ++ (s.getLeaf lid).data ++ B ∧
    (∀ x, inBnd llo lhi x → inBnd lo hi x) ∧
    (∀ kv ∈ A, ∀ x, inBnd llo lhi x → kv.1 < x) ∧
    (∀ kv ∈ B, ∀ x, inBnd llo lhi x → x < kv.1) ∧
    (∀ leaf' : LeafNode K V,
      SortedKeys leaf'.data →
      (∀ kv ∈ leaf'.data, inBnd llo lhi kv.1) →
      LeafNode.minimumSize LN ≤ leaf'.data.length →
      leaf'.data.length ≤ LN →
        Rebuild (s.setLeaf lid leaf') ∧
        entriesAt (s.setLeaf lid leaf') h id = A ++ leaf'.data ++ B ∧
        fpInner (s.setLeaf lid leaf') h id = fpInner s h id ∧
        fpLeaf (s.setLeaf lid leaf') h id = fpLeaf s h id)

/-- Footprint bookkeeping of a mutation that may create fresh nodes: the new
footprints are duplicate-free, consist of old-footprint ids and fresh ids,
and still cover the old footprint. -/
def FpOk (s : NodeStoreVec K V) (oldI oldL newI newL : List Nat) : Prop :=
  newI.Nodup ∧ newL.Nodup ∧
  (∀ j ∈ newI, j ∈ oldI ∨ s.innerNodes.length ≤ j) ∧
  (∀ j ∈ newL, j ∈ oldL ∨ s.leafNodes.length ≤ j) ∧
  (∀ j ∈ oldI, j ∈ newI) ∧
  (∀ j ∈ oldL, j ∈ newL)

/-- Postcondition of `descendInsert` on a well-formed subtree of height `h`
at `id` covering `[lo, hi)`: nodes outside the subtree keep their data, and
the result describes an update, an insertion, or a split into two adjacent
well-formed subtrees around the reported key. -/
def InsertPost [LinearOrder K] (IN LN : Nat) (s : NodeStoreVec K V) (h : Nat)
    (id : NodeId) (lo hi : Option K) (k : K) (v : V)
    (out : NodeStoreVec K V × DescendInsertResult K V) : Prop :=
  PreservedOutside s out.1 (fpInner s h id) (fpLeaf s h id) ∧
  match out.2 with
  | .updated v₀ =>
      lookupList k (entriesAt s h id) = some v₀ ∧
      Good IN LN out.1 h id lo hi ∧
      entriesAt out.1 h id = upsertList k v (entriesAt s h id) ∧
      out.1.innerNodes = s.innerNodes ∧
      out.1.leafNodes.length = s.leafNodes.length ∧
      out.1.cache = s.cache
  | .inserted =>
      lookupList k (entriesAt s h id) = none ∧
      Good IN LN out.1 h id lo hi ∧
      entriesAt out.1 h id = upsertList k v (entriesAt s h id) ∧
      FpOk s (fpInner s h id) (fpLeaf s h id)
        (fpInner out.1 h id) (fpLeaf out.1 h id) ∧
      (∀ cid, out.1.cache = some cid →
        s.cache = some cid ∨ cid ∈ fpLeaf out.1 h id)
  | .split key rc =>
      lookupList k (entriesAt s h id) = none ∧
      Good IN LN out.1 h id lo (some key) ∧
      Good IN LN out.1 h rc (some key) hi ∧
      entriesAt out.1 h id ++ entriesAt out.1 h rc =
        upsertList k v (entriesAt s h id) ∧
      FpOk s (fpInner s h id) (fpLeaf s h id)
        (fpInner out.1 h id ++ fpInner out.1 h rc)
        (fpLeaf out.1 h id ++ fpLeaf out.1 h rc) ∧
      (∀ cid, out.1.cache = some cid →
        s.cache = some cid ∨ cid ∈ fpLeaf out.1 h id ++ fpLeaf out.1 h rc)

/-- `InsertPost` for an inner node whose own minimum-separator requirement is
the parameter `m` instead of `InnerNode.minimumSize IN`: the form taken by the
root, whose minimum is `1`.  Children are held to the full invariant. -/
def InsertPostTop [LinearOrder K] (IN LN m : Nat) (s : NodeStoreVec K V)
    (h iid : Nat) (lo hi : Option K) (k : K) (v : V)
    (out : NodeStoreVec K V × DescendInsertResult K V) : Prop :=
  PreservedOutside s out.1 (fpInner s (h + 1) (.inner iid))
    (fpLeaf s (h + 1) (.inner iid)) ∧
  match out.2 with
  | .updated v₀ =>
      lookupList k (entriesAt s (h + 1) (.inner iid)) = some v₀ ∧
      InnerBody IN out.1 (Good IN LN out.1 h) iid lo hi m ∧
      entriesAt out.1 (h + 1) (.inner iid) =
        upsertList k v (entriesAt s (h + 1) (.inner iid)) ∧
      out.1.innerNodes = s.innerNodes ∧
      out.1.leafNodes.length = s.leafNodes.length ∧
      out.1.cache = s.cache
  | .inserted =>
      lookupList k (entriesAt s (h + 1) (.inner iid)) = none ∧
      InnerBody IN out.1 (Good IN LN out.1 h) iid lo hi m ∧
      entriesAt out.1 (h + 1) (.inner iid) =
        upsertList k v (entriesAt s (h + 1) (.inner iid)) ∧
      FpOk s (fpInner s (h + 1) (.inner iid)) (fpLeaf s (h + 1) (.inner iid))
        (fpInner out.1 (h + 1) (.inner iid))
        (fpLeaf out.1 (h + 1) (.inner iid)) ∧
      (∀ cid, out.1.cache = some cid →
        s.cache = some cid ∨ cid ∈ fpLeaf out.1 (h + 1) (.inner iid))
  | .split key rc =>
      lookupList k (entriesAt s (h + 1) (.inner iid)) = none ∧
      Good IN LN out.1 (h + 1) (.inner iid) lo (some key) ∧
      Good IN LN out.1 (h + 1) rc (some key) hi ∧
      entriesAt out.1 (h + 1) (.inner iid) ++ entriesAt out.1 (h + 1) rc =
        upsertList k v (entriesAt s (h + 1) (.inner iid)) ∧
      FpOk s (fpInner s (h + 1) (.inner iid)) (fpLeaf s (h + 1) (.inner iid))
        (fpInner out.1 (h + 1) (.inner iid) ++ fpInner out.1 (h + 1) rc)
        (fpLeaf out.1 (h + 1) (.inner iid) ++ fpLeaf out.1 (h + 1) rc) ∧
      (∀ cid, out.1.cache = some cid →
        s.cache = some cid ∨
          cid ∈ fpLeaf out.1 (h + 1) (.inner iid) ++ fpLeaf out.1 (h + 1) rc)

/-- Postcondition of `removeInnerGo` on a well-formed inner subtree of height
`h + 1` at `iid` covering `[lo, hi)` whose node minimum is `m`: `noEntry`
leaves everything alone; `done` removes exactly the binding of `k`; an
`innerUnderSize` answer additionally leaves the node one separator short. -/
def RemovePost [LinearOrder K] (IN LN : Nat) (s : NodeStoreVec K V)
    (h iid : Nat) (lo hi : Option K) (k : K) (m : Nat)
    (out : NodeStoreVec K V × DeleteDescendResult K V) : Prop :=
  PreservedOutside s out.1 (fpInner s (h + 1) (.inner iid))
    (fpLeaf s (h + 1) (.inner iid)) ∧
  out.1.innerNodes.length = s.innerNodes.length ∧
  out.1.leafNodes.length = s.leafNodes.length ∧
  match out.2 with
  | .noEntry =>
      lookupList k (entriesAt s (h + 1) (.inner iid)) = none ∧ out.1 = s
  | .done kv =>
      kv.1 = k ∧
      lookupList k (entriesAt s (h + 1) (.inner iid)) = some kv.2 ∧
      InnerBody IN out.1 (Good IN LN out.1 h) iid lo hi m ∧
      entriesAt out.1 (h + 1) (.inner iid) =
        eraseKeyList k (entriesAt s (h + 1) (.inner iid)) ∧
      (fpInner out.1 (h + 1) (.inner iid)).Nodup ∧
      (fpLeaf out.1 (h + 1) (.inner iid)).Nodup ∧
      (∀ j ∈ fpInner out.1 (h + 1) (.inner iid),
        j ∈ fpInner s (h + 1) (.inner iid)) ∧
      (∀ j ∈ fpLeaf out.1 (h + 1) (.inner iid),
        j ∈ fpLeaf s (h + 1) (.inner iid)) ∧
      (∀ cid, out.1.cache = some cid →
        (s.cache = some cid ∧
          fpLeaf out.1 (h + 1) (.inner iid) = fpLeaf s (h + 1) (.inner iid)) ∨
        cid ∈ fpLeaf out.1 (h + 1) (.inner iid))
  | .innerUnderSize kv =>
      kv.1 = k ∧
      lookupList k (entriesAt s (h + 1) (.inner iid)) = some kv.2 ∧
      InnerBody IN out.1 (Good IN LN out.1 h) iid lo hi (m - 1) ∧
      (out.1.getInner iid).size < InnerNode.minimumSize IN ∧
      entriesAt out.1 (h + 1) (.inner iid) =
        eraseKeyList k (entriesAt s (h + 1) (.inner iid)) ∧
      (fpInner out.1 (h + 1) (.inner iid)).Nodup ∧
      (fpLeaf out.1 (h + 1) (.inner iid)).Nodup ∧
      (∀ j ∈ fpInner out.1 (h + 1) (.inner iid),
        j ∈ fpInner s (h + 1) (.inner iid)) ∧
      (∀ j ∈ fpLeaf out.1 (h + 1) (.inner iid),
        j ∈ fpLeaf s (h + 1) (.inner iid)) ∧
      (∀ cid, out.1.cache = some cid →
        (s.cache = some cid ∧
          fpLeaf out.1 (h + 1) (.inner iid) = fpLeaf s (h + 1) (.inner iid)) ∨
        cid ∈ fpLeaf out.1 (h + 1) (.inner iid))

end Sweep

/-! ## Theorems -/

namespace Sweep

variable {K V : Type}

theorem insertIdx_eq_take_cons_drop {α : Type} (x : α) :
    ∀ (i : Nat) (xs : List α), i ≤ xs.length →
      xs.insertIdx i x = xs.take i ++ x :: xs.drop i
  | 0, xs, _ => by simp
  | i + 1, [], h => by simp at h
  | i + 1, a :: xs, h => by
    have ih := insertIdx_eq_take_cons_drop x i xs (Nat.le_of_succ_le_succ h)
    simp [List.insertIdx_succ_cons, ih]

theorem drop_take_append_drop {α : Type} (xs : List α) (i m : Nat)
    (him : i ≤ m) :
    (xs.take m).drop i ++ xs.drop m = xs.drop i := by
  have h1 : (xs.take m).drop i = (xs.drop i).take (m - i) := by
    rw [List.drop_take]
  have h2 : xs.drop m = (xs.drop i).drop (m - i) := by
    rw [List.drop_drop]
    congr 1
    omega
  rw [h1, h2, List.take_append_drop]

theorem take_append_take_drop {α : Type} (xs : List α) (i m : Nat)
    (him : m ≤ i) :
    xs.take m ++ (xs.drop m).take (i - m) = xs.take i := by
  have h : m + (i - m) = i := by omega
  calc xs.take m ++ (xs.drop m).take (i - m)
      = xs.take (m + (i - m)) := (List.take_add xs m (i - m)).symm
    _ = xs.take i := by rw [h]

/-- Claim C4: `split_new_leaf` on a full leaf of `N = LN` entries moves slots
`[⌊LN/2⌋, N)` into the new right leaf, inserts the item into the left half
when `insert_idx < ⌊LN/2⌋` and into the right half otherwise, the two leaves'
concatenated contents equal the original entries with the item inserted at
`insert_idx`, and the sibling links are wired with `new.prev = self_id`,
`new.next = old next` and `self.next = new_id`. -/
theorem splitNewLeaf_spec [LinearOrder K] (N : Nat) (l : LeafNode K V)
    (insertIdx : Nat) (item : K × V) (newId selfId : Nat)
    (hfull : l.size = N) (hidx : insertIdx ≤ N) :
    (insertIdx < N / 2 →
      (l.splitNewLeaf N insertIdx item newId selfId).1.data =
        (l.data.take (N / 2)).insertIdx insertIdx item ∧
      (l.splitNewLeaf N insertIdx item newId selfId).2.data =
        l.data.drop (N / 2)) ∧
    (N / 2 ≤ insertIdx →
      (l.splitNewLeaf N insertIdx item newId selfId).1.data =
        l.data.take (N / 2) ∧
      (l.splitNewLeaf N insertIdx item newId selfId).2.data =
        (l.data.drop (N / 2)).insertIdx (insertIdx - N / 2) item) ∧
    (l.splitNewLeaf N insertIdx item newId selfId).1.data ++
        (l.splitNewLeaf N insertIdx item newId selfId).2.data =
      l.data.insertIdx insertIdx item ∧
    (l.splitNewLeaf N insertIdx item newId selfId).2.prev = some selfId ∧
    (l.splitNewLeaf N insertIdx item newId selfId).2.next = l.next ∧
    (l.splitNewLeaf N insertIdx item newId selfId).1.next = some newId ∧
    (l.splitNewLeaf N insertIdx item newId selfId).1.prev = l.prev := by
  have hlen : l.data.length = N := hfull
  have hm : N / 2 ≤ N := Nat.div_le_self N 2
  by_cases hc : insertIdx < N / 2
  · have e : l.splitNewLeaf N insertIdx item newId selfId =
        ({ data := (l.data.take (N / 2)).insertIdx insertIdx item,
           prev := l.prev, next := some newId },
         { data := l.data.drop (N / 2), prev := some selfId, next := l.next }) := by
      simp [LeafNode.splitNewLeaf, LeafNode.splitOriginSize, hc]
    rw [e]
    refine ⟨fun _ => ⟨rfl, rfl⟩, fun h => absurd h (by omega), ?_, rfl, rfl, rfl, rfl⟩
    show (l.data.take (N / 2)).insertIdx insertIdx item ++ l.data.drop (N / 2) =
      l.data.insertIdx insertIdx item
    have hi : insertIdx ≤ (l.data.take (N / 2)).length := by
      simp [List.length_take, hlen]
      omega
    rw [insertIdx_eq_take_cons_drop item insertIdx _ hi,
      insertIdx_eq_take_cons_drop item insertIdx _ (by omega)]
    have ht : (l.data.take (N / 2)).take insertIdx = l.data.take insertIdx := by
      rw [List.take_take]
      congr 1
      omega
    rw [ht, List.append_assoc, List.cons_append,
      drop_take_append_drop l.data insertIdx (N / 2) (by omega)]
  · have e : l.splitNewLeaf N insertIdx item newId selfId =
        ({ data := l.data.take (N / 2), prev := l.prev, next := some newId },
         { data := (l.data.drop (N / 2)).insertIdx (insertIdx - N / 2) item,
           prev := some selfId, next := l.next }) := by
      simp [LeafNode.splitNewLeaf, LeafNode.splitOriginSize, hc]
    rw [e]
    refine ⟨fun h => absurd h hc, fun _ => ⟨rfl, rfl⟩, ?_, rfl, rfl, rfl, rfl⟩
    show l.data.take (N / 2) ++ (l.data.drop (N / 2)).insertIdx (insertIdx - N / 2) item =
      l.data.insertIdx insertIdx item
    have hi : insertIdx - N / 2 ≤ (l.data.drop (N / 2)).length := by
      simp [List.length_drop, hlen]
      omega
    rw [insertIdx_eq_take_cons_drop item _ _ hi,
      insertIdx_eq_take_cons_drop item insertIdx _ (by omega)]
    rw [← List.append_assoc,
      take_append_take_drop l.data insertIdx (N / 2) (by omega)]
    congr 2
    rw [List.drop_drop]
    congr 1
    omega

/-- Witness for C4 at a concrete full leaf with `N = 4`, `insert_idx = 2`. -/
theorem splitNewLeaf_spec_witness :
    (({ data := [((0 : Nat), (0 : Nat)), (1, 0), (3, 0), (4, 0)] } :
        LeafNode Nat Nat).size = 4 ∧ (2 : Nat) ≤ 4) ∧
    (({ data := [((0 : Nat), (0 : Nat)), (1, 0), (3, 0), (4, 0)] } :
        LeafNode Nat Nat).splitNewLeaf 4 2 (2, 0) 2 1).1.data ++
      (({ data := [((0 : Nat), (0 : Nat)), (1, 0), (3, 0), (4, 0)] } :
        LeafNode Nat Nat).splitNewLeaf 4 2 (2, 0) 2 1).2.data =
      [(0, 0), (1, 0), (2, 0), (3, 0), (4, 0)] := by
  refine ⟨⟨by decide, by decide⟩, ?_⟩
  have h := splitNewLeaf_spec 4
    ({ data := [((0 : Nat), (0 : Nat)), (1, 0), (3, 0), (4, 0)] } :
      LeafNode Nat Nat) 2 (2, 0) 2 1 (by decide) (by decide)
  rw [h.2.2.1]
  decide

/-- Claim C5: the rebalance-action choice for an under-sized leaf.  With both
siblings able to lend it rotates from the strictly larger one (previous wins
only when it holds more entries, otherwise the next is used); with exactly
one sibling able to lend it rotates from that sibling; with neither able to
lend it merges with the left sibling when present, else with the right. -/
theorem chooseFixAction_table [LinearOrder K] (LN : Nat)
    (pl nl : LeafNode K V) :
    (pl.ableToLend LN = true → nl.ableToLend LN = true →
      chooseFixAction LN (some pl) (some nl) =
        some (if nl.size < pl.size then .rotateRight else .rotateLeft)) ∧
    (pl.ableToLend LN = true → nl.ableToLend LN = false →
      chooseFixAction LN (some pl) (some nl) = some .rotateRight) ∧
    (pl.ableToLend LN = false → nl.ableToLend LN = true →
      chooseFixAction LN (some pl) (some nl) = some .rotateLeft) ∧
    (pl.ableToLend LN = false → nl.ableToLend LN = false →
      chooseFixAction LN (some pl) (some nl) = some .mergeLeft) ∧
    (pl.ableToLend LN = true →
      chooseFixAction LN (some pl) none = some .rotateRight) ∧
    (pl.ableToLend LN = false →
      chooseFixAction LN (some pl) none = some .mergeLeft) ∧
    (nl.ableToLend LN = true →
      chooseFixAction LN none (some nl) = some .rotateLeft) ∧
    (nl.ableToLend LN = false →
      chooseFixAction LN none (some nl) = some .mergeRight) := by
  refine ⟨?_, ?_, ?_, ?_, ?_, ?_, ?_, ?_⟩
  · intro h1 h2
    by_cases hsz : nl.size < pl.size <;> simp [chooseFixAction, h1, h2, hsz]
  all_goals
    first
      | (intro h1 h2
         simp [chooseFixAction, h1, h2])
      | (intro h1
         simp [chooseFixAction, h1])

/-- Witness for C5 at concrete leaves (`LN = 4`, previous sibling larger). -/
theorem chooseFixAction_table_witness :
    (({ data := [((1 : Nat), (1 : Nat)), (2, 2), (3, 3)] } :
        LeafNode Nat Nat).ableToLend 4 = true ∧
     ({ data := [((5 : Nat), (5 : Nat)), (6, 6)] } :
        LeafNode Nat Nat).ableToLend 4 = true) ∧
    chooseFixAction 4
        (some ({ data := [((1 : Nat), (1 : Nat)), (2, 2), (3, 3)] } :
          LeafNode Nat Nat))
        (some ({ data := [((5 : Nat), (5 : Nat)), (6, 6)] } : LeafNode Nat Nat)) =
      some .rotateRight := by
  refine ⟨⟨by decide, by decide⟩, ?_⟩
  have h := (chooseFixAction_table 4
    ({ data := [((1 : Nat), (1 : Nat)), (2, 2), (3, 3)] } : LeafNode Nat Nat)
    ({ data := [((5 : Nat), (5 : Nat)), (6, 6)] } : LeafNode Nat Nat)).1
    (by decide) (by decide)
  rw [h]
  decide

/-- Claim C6: when a leaf satisfies `able_to_lend` (its size is strictly
greater than the leaf minimum), `try_delete` never answers `UnderSize`, so
remove's cache fast path can never hit its unreachable `UnderSize` arm. -/
theorem tryDelete_not_underSize [LinearOrder K] (LN : Nat) (l : LeafNode K V)
    (k : K) (h : l.ableToLend LN = true) :
    ∀ idx, (l.tryDelete LN k).2 ≠ .underSize idx := by
  intro idx
  unfold LeafNode.tryDelete
  match l.locateSlot k with
  | .found i =>
    simp only [h, if_true]
    match l.data.get? i with
    | some kv => simp
    | none => simp
  | .notFound i => simp

/-- Witness for C6 at a concrete leaf (`LN = 4`). -/
theorem tryDelete_not_underSize_witness :
    ({ data := [((1 : Nat), (1 : Nat)), (2, 2)] } :
      LeafNode Nat Nat).ableToLend 4 = true ∧
    (({ data := [((1 : Nat), (1 : Nat)), (2, 2)] } :
      LeafNode Nat Nat).tryDelete 4 1).2 ≠ .underSize 0 :=
  ⟨by decide,
   tryDelete_not_underSize 4
     ({ data := [((1 : Nat), (1 : Nat)), (2, 2)] } : LeafNode Nat Nat) 1
     (by decide) 0⟩

/-- Claim C7 (code bug): on ordered group tags `[0, 1, 1, 2]` — keys
`[0, 2, 3, 4]` with group `k / 2` — `from_leaf` reports the max group as
`(2, 2)` although the last group holds a single key: the source never resets
`last_group_count` when a new group starts, it only repoints the borrow. -/
theorem fromLeaf_lastGroup_bug :
    GroupCount.fromLeaf (fun k => k / 2) ([0, 2, 3, 4] : List Nat) =
      .multiple (0, 1) (2, 2) 3 ∧
    ([0, 2, 3, 4].map (fun k : Nat => k / 2)).count 2 = 1 := by
  constructor
  · rfl
  · decide

/-- Claim C10: `try_get_leaf` answers none exactly when the id is out of
range or the stored leaf holds zero entries; a taken leaf slot and the
initial empty root both fall under the zero-entries case. -/
theorem tryGetLeaf_spec [LinearOrder K] [Inhabited K] [Inhabited V]
    (s : NodeStoreVec K V) (id : Nat) :
    (s.tryGetLeaf id = none ↔
      s.leafNodes.length ≤ id ∨ (s.getLeaf id).size = 0) ∧
    (s.takeLeaf id).2.tryGetLeaf id = none ∧
    (BPlusTree.new : BPlusTree K V).store.tryGetLeaf 0 = none := by
  refine ⟨?_, ?_, ?_⟩
  · unfold NodeStoreVec.tryGetLeaf NodeStoreVec.getLeaf
    rcases h : s.leafNodes.get? id with _ | leaf
    · have hge : s.leafNodes.length ≤ id := by
        by_contra hlt
        rcases List.get?_eq_get (l := s.leafNodes) (n := id) (by omega) with h'
        rw [h] at h'
        exact Option.noConfusion h'
      simp [hge]
    · have hlt : id < s.leafNodes.length := by
        by_contra hge
        rw [List.get?_eq_none.mpr (by omega)] at h
        exact Option.noConfusion h
      have hgetD : s.leafNodes.getD id default = leaf := by
        simp [List.getD_eq_getElem?_getD, ← List.get?_eq_getElem?, h]
      rw [hgetD]
      by_cases hz : leaf.size = 0
      · simp [hz]
      · simp [hz]
        omega
  · unfold NodeStoreVec.takeLeaf NodeStoreVec.tryGetLeaf
    rcases Nat.lt_or_ge id s.leafNodes.length with hlt | hge
    · simp only [List.get?_set_eq_of_lt _ hlt]
      rfl
    · rw [List.get?_eq_none.mpr (by simpa using hge)]
  · rfl

/-! ### List surgery lemmas -/

theorem getD_set_self {α : Type} (a d : α) :
    ∀ (l : List α) (i : Nat), i < l.length → (l.set i a).getD i d = a
  | [], i, h => absurd h (by simp)
  | _ :: _, 0, _ => rfl
  | x :: l, i + 1, h => by
    simpa using getD_set_self a d l i (by simpa using h)

theorem getD_set_ne {α : Type} (a d : α) :
    ∀ (l : List α) (i j : Nat), i ≠ j → (l.set i a).getD j d = l.getD j d
  | [], _, _, _ => by simp
  | x :: l, 0, 0, h => absurd rfl h
  | x :: l, 0, j + 1, _ => by simp
  | x :: l, i + 1, 0, _ => by simp
  | x :: l, i + 1, j + 1, h => by
    simpa using getD_set_ne a d l i j (by omega)

theorem getD_insertIdx_lt {α : Type} (x d : α) :
    ∀ (l : List α) (i j : Nat), j < i →
      (l.insertIdx i x).getD j d = l.getD j d
  | [], i, j, h => by
    cases i with
    | zero => omega
    | succ i => simp
  | a :: l, i + 1, 0, _ => by simp [List.insertIdx_succ_cons]
  | a :: l, i + 1, j + 1, h => by
    simpa [List.insertIdx_succ_cons] using
      getD_insertIdx_lt x d l i j (by omega)

theorem getD_insertIdx_self {α : Type} (x d : α) :
    ∀ (l : List α) (i : Nat), i ≤ l.length →
      (l.insertIdx i x).getD i d = x
  | _, 0, _ => by simp
  | [], i + 1, h => by simp at h
  | a :: l, i + 1, h => by
    simpa [List.insertIdx_succ_cons] using
      getD_insertIdx_self x d l i (by simpa using h)

theorem getD_insertIdx_succ {α : Type} (x d : α) :
    ∀ (l : List α) (i j : Nat), i ≤ j →
      (l.insertIdx i x).getD (j + 1) d = l.getD j d
  | l, 0, j, _ => by simp
  | [], i + 1, j, h => by simp
  | a :: l, i + 1, j, h => by
    cases j with
    | zero => omega
    | succ j =>
      simpa [List.insertIdx_succ_cons] using
        getD_insertIdx_succ x d l i j (by omega)

theorem getD_eraseIdx_lt {α : Type} (d : α) :
    ∀ (l : List α) (i j : Nat), j < i →
      (l.eraseIdx i).getD j d = l.getD j d
  | [], _, _, _ => by simp
  | a :: l, i + 1, 0, _ => by simp
  | a :: l, i + 1, j + 1, h => by
    simpa using getD_eraseIdx_lt d l i j (by omega)

theorem getD_eraseIdx_ge {α : Type} (d : α) :
    ∀ (l : List α) (i j : Nat), i ≤ j →
      (l.eraseIdx i).getD j d = l.getD (j + 1) d
  | [], _, _, _ => by simp
  | a :: l, 0, j, _ => by simp
  | a :: l, i + 1, j, h => by
    cases j with
    | zero => omega
    | succ j =>
      simpa using getD_eraseIdx_ge d l i j (by omega)

theorem eq_take_cons_drop {α : Type} (a : α) :
    ∀ (l : List α) (i : Nat), l.get? i = some a →
      l = l.take i ++ a :: l.drop (i + 1)
  | [], i, h => by simp at h
  | x :: l, 0, h => by
    simp at h
    simp [h]
  | x :: l, i + 1, h => by
    have := eq_take_cons_drop a l i (by simpa using h)
    simpa using this

theorem set_eq_take_cons_drop {α : Type} (a : α) :
    ∀ (l : List α) (i : Nat), i < l.length →
      l.set i a = l.take i ++ a :: l.drop (i + 1)
  | [], i, h => by simp at h
  | x :: l, 0, _ => by simp
  | x :: l, i + 1, h => by
    have := set_eq_take_cons_drop a l i (by simpa using h)
    simpa using this

theorem eraseIdx_eq_take_drop {α : Type} :
    ∀ (l : List α) (i : Nat), l.eraseIdx i = l.take i ++ l.drop (i + 1)
  | [], _ => by simp
  | x :: l, 0 => by simp
  | x :: l, i + 1 => by
    simpa using eraseIdx_eq_take_drop l i

/-! ### Location in a strictly sorted key list -/

theorem locateList_found [LinearOrder K] (k : K) :
    ∀ (ks : List K), List.Pairwise (· < ·) ks →
      ∀ i, locateList k ks = .found i →
        ks.get? i = some k ∧ (∀ x ∈ ks.take i, x < k) ∧
          (∀ x ∈ ks.drop (i + 1), k < x)
  | [], _, i, h => by simp [locateList] at h
  | a :: ks, hp, i, h => by
    rw [List.pairwise_cons] at hp
    by_cases hak : a < k
    · rw [locateList, if_pos hak] at h
      rcases hr : locateList k ks with j | j <;> rw [hr] at h
      · cases h
        have ih := locateList_found k ks hp.2 j hr
        refine ⟨by simpa using ih.1, ?_, by simpa using ih.2.2⟩
        intro x hx
        rcases (by simpa using hx : x = a ∨ x ∈ ks.take j) with rfl | hx'
        · exact hak
        · exact ih.2.1 x hx'
      · exact absurd h (by simp)
    · rw [locateList, if_neg hak] at h
      by_cases hek : a = k
      · rw [if_pos hek] at h
        cases h
        subst hek
        refine ⟨by simp, by simp, ?_⟩
        intro x hx
        exact hp.1 x (by simpa using hx)
      · rw [if_neg hek] at h
        exact absurd h (by simp)

theorem locateList_notFound [LinearOrder K] (k : K) :
    ∀ (ks : List K), List.Pairwise (· < ·) ks →
      ∀ i, locateList k ks = .notFound i →
        i ≤ ks.length ∧ k ∉ ks ∧ (∀ x ∈ ks.take i, x < k) ∧
          (∀ x ∈ ks.drop i, k < x)
  | [], _, i, h => by
    rw [locateList] at h
    cases h
    simp
  | a :: ks, hp, i, h => by
    rw [List.pairwise_cons] at hp
    by_cases hak : a < k
    · rw [locateList, if_pos hak] at h
      rcases hr : locateList k ks with j | j <;> rw [hr] at h
      · exact absurd h (by simp)
      · cases h
        have ih := locateList_notFound k ks hp.2 j hr
        refine ⟨by simpa using ih.1, ?_, ?_, by simpa using ih.2.2.2⟩
        · intro hmem
          rcases (by simpa using hmem : k = a ∨ k ∈ ks) with rfl | hm
          · exact absurd hak (lt_irrefl k)
          · exact ih.2.1 hm
        · intro x hx
          rcases (by simpa using hx : x = a ∨ x ∈ ks.take j) with rfl | hx'
          · exact hak
          · exact ih.2.2.1 x hx'
    · rw [locateList, if_neg hak] at h
      by_cases hek : a = k
      · rw [if_pos hek] at h
        exact absurd h (by simp)
      · rw [if_neg hek] at h
        cases h
        have hka : k < a := lt_of_le_of_ne (le_of_not_lt hak) (fun he => hek he.symm)
        refine ⟨by simp, ?_, by simp, ?_⟩
        · intro hmem
          rcases (by simpa using hmem : k = a ∨ k ∈ ks) with rfl | hm
          · exact absurd hka (lt_irrefl k)
          · exact absurd hka (not_lt_of_lt (hp.1 k hm))
        · intro x hx
          rcases (by simpa using hx : x = a ∨ x ∈ ks) with rfl | hx'
          · exact hka
          · exact lt_trans hka (hp.1 x hx')

/-! ### Sorted association lists: upsert, lookup, erase -/

theorem sortedKeys_iff_pairwise [LinearOrder K] (es : List (K × V)) :
    SortedKeys es ↔ List.Pairwise (· < ·) (keysOf es) := by
  unfold SortedKeys
  exact List.chain'_iff_pairwise

theorem keysOf_append (A B : List (K × V)) :
    keysOf (A ++ B) = keysOf A ++ keysOf B := by
  simp [keysOf]

theorem keysOf_cons (kv : K × V) (es : List (K × V)) :
    keysOf (kv :: es) = kv.1 :: keysOf es := by
  simp [keysOf]

theorem sortedKeys_middle [LinearOrder K] (A B : List (K × V)) (k : K) (v : V)
    (hs : SortedKeys (A ++ B)) (hA : ∀ x ∈ keysOf A, x < k)
    (hB : ∀ x ∈ keysOf B, k < x) : SortedKeys (A ++ (k, v) :: B) := by
  rw [sortedKeys_iff_pairwise] at hs ⊢
  rw [keysOf_append] at hs ⊢
  rw [List.pairwise_append] at hs
  rw [keysOf_cons, List.pairwise_append]
  refine ⟨hs.1, ?_, ?_⟩
  · rw [List.pairwise_cons]
    exact ⟨hB, hs.2.1⟩
  · intro a ha b hb
    rcases (by simpa using hb : b = k ∨ b ∈ keysOf B) with rfl | hb'
    · exact hA a ha
    · exact hs.2.2 a ha b hb'

theorem sortedKeys_append_of [LinearOrder K] (A B : List (K × V))
    (hA : SortedKeys A) (hB : SortedKeys B)
    (hAB : ∀ a ∈ keysOf A, ∀ b ∈ keysOf B, a < b) : SortedKeys (A ++ B) := by
  rw [sortedKeys_iff_pairwise] at hA hB ⊢
  rw [keysOf_append, List.pairwise_append]
  exact ⟨hA, hB, hAB⟩

theorem sortedKeys_sub [LinearOrder K] (A B : List (K × V))
    (hs : SortedKeys (A ++ B)) :
    SortedKeys A ∧ SortedKeys B ∧
      ∀ a ∈ keysOf A, ∀ b ∈ keysOf B, a < b := by
  rw [sortedKeys_iff_pairwise] at hs
  rw [keysOf_append, List.pairwise_append] at hs
  exact ⟨(sortedKeys_iff_pairwise A).2 hs.1, (sortedKeys_iff_pairwise B).2 hs.2.1,
    hs.2.2⟩

theorem mem_keysOf_cons {K V : Type} {k : K} {a : K × V} {es : List (K × V)} :
    k ∈ keysOf (a :: es) ↔ k = a.1 ∨ k ∈ keysOf es := by
  simp [keysOf]

theorem upsertList_split_notMem [LinearOrder K] (k : K) (v : V) :
    ∀ (A B : List (K × V)), (∀ x ∈ keysOf A, x < k) →
      (∀ x ∈ keysOf B, k < x) →
      upsertList k v (A ++ B) = A ++ (k, v) :: B
  | [], B, _, hB => by
    cases B with
    | nil => rfl
    | cons b rest =>
      have hb : k < b.1 := hB b.1 (by simp [keysOf])
      simp [upsertList, hb]
  | a :: A, B, hA, hB => by
    have ha : a.1 < k := hA a.1 (by simp [keysOf])
    have : ¬ k < a.1 := not_lt_of_lt ha
    have hne : ¬ k = a.1 := fun he => absurd (he ▸ ha) (lt_irrefl k)
    simp only [List.cons_append, upsertList, this, hne, if_false, List.append_eq]
    rw [upsertList_split_notMem k v A B
      (fun x hx => hA x (mem_keysOf_cons.mpr (Or.inr hx))) hB]

theorem upsertList_split_mem [LinearOrder K] (k : K) (v v₀ : V) :
    ∀ (A B : List (K × V)), (∀ x ∈ keysOf A, x < k) →
      upsertList k v (A ++ (k, v₀) :: B) = A ++ (k, v) :: B
  | [], B, _ => by simp [upsertList]
  | a :: A, B, hA => by
    have ha : a.1 < k := hA a.1 (by simp [keysOf])
    have : ¬ k < a.1 := not_lt_of_lt ha
    have hne : ¬ k = a.1 := fun he => absurd (he ▸ ha) (lt_irrefl k)
    simp only [List.cons_append, upsertList, this, hne, if_false, List.append_eq]
    rw [upsertList_split_mem k v v₀ A B
      (fun x hx => hA x (mem_keysOf_cons.mpr (Or.inr hx)))]

theorem lookupList_append_of_notMem [LinearOrder K] (k : K) :
    ∀ (A B : List (K × V)), (∀ x ∈ keysOf A, x ≠ k) →
      lookupList k (A ++ B) = lookupList k B
  | [], B, _ => rfl
  | a :: A, B, hA => by
    have ha : a.1 ≠ k := hA a.1 (by simp [keysOf])
    simp only [List.cons_append, lookupList, ha, if_false]
    exact lookupList_append_of_notMem k A B
      (fun x hx => hA x (mem_keysOf_cons.mpr (Or.inr hx)))

theorem lookupList_cons_self [LinearOrder K] (k : K) (v : V)
    (B : List (K × V)) : lookupList k ((k, v) :: B) = some v := by
  simp [lookupList]

theorem lookupList_eq_none [LinearOrder K] (k : K) :
    ∀ (es : List (K × V)), k ∉ keysOf es → lookupList k es = none
  | [], _ => rfl
  | a :: es, h => by
    have ha : a.1 ≠ k := by
      intro he
      exact h (by simp [keysOf, he])
    simp only [lookupList, ha, if_false]
    exact lookupList_eq_none k es (fun hm => h (mem_keysOf_cons.mpr (Or.inr hm)))

theorem eraseKeyList_split_mem [LinearOrder K] (k : K) (v₀ : V) :
    ∀ (A B : List (K × V)), (∀ x ∈ keysOf A, x ≠ k) →
      eraseKeyList k (A ++ (k, v₀) :: B) = A ++ B
  | [], B, _ => by simp [eraseKeyList]
  | a :: A, B, hA => by
    have ha : a.1 ≠ k := hA a.1 (by simp [keysOf])
    simp only [List.cons_append, eraseKeyList, ha, if_false, List.append_eq]
    rw [eraseKeyList_split_mem k v₀ A B
      (fun x hx => hA x (mem_keysOf_cons.mpr (Or.inr hx)))]

theorem eraseKeyList_eq_self [LinearOrder K] (k : K) :
    ∀ (es : List (K × V)), k ∉ keysOf es → eraseKeyList k es = es
  | [], _ => rfl
  | a :: es, h => by
    have ha : a.1 ≠ k := by
      intro he
      exact h (by simp [keysOf, he])
    simp only [eraseKeyList, ha, if_false]
    rw [eraseKeyList_eq_self k es (fun hm => h (mem_keysOf_cons.mpr (Or.inr hm)))]

/-! ### Unfolding equations for the invariant -/

theorem good_leaf_iff [LinearOrder K] (IN LN : Nat) (s : NodeStoreVec K V)
    (lid : Nat) (lo hi : Option K) :
    Good IN LN s 0 (.leaf lid) lo hi ↔
      lid < s.leafNodes.length ∧
      SortedKeys (s.getLeaf lid).data ∧
      (∀ kv ∈ (s.getLeaf lid).data, inBnd lo hi kv.1) ∧
      LeafNode.minimumSize LN ≤ (s.getLeaf lid).size ∧
      (s.getLeaf lid).size ≤ LN :=
  Iff.rfl

theorem good_inner_iff [LinearOrder K] (IN LN : Nat) (s : NodeStoreVec K V)
    (h iid : Nat) (lo hi : Option K) :
    Good IN LN s (h + 1) (.inner iid) lo hi ↔
      InnerBody IN s (Good IN LN s h) iid lo hi (InnerNode.minimumSize IN) :=
  Iff.rfl

theorem good_leaf_succ [LinearOrder K] (IN LN : Nat) (s : NodeStoreVec K V)
    (h lid : Nat) (lo hi : Option K) :
    ¬ Good IN LN s (h + 1) (.leaf lid) lo hi :=
  fun hf => hf

theorem good_inner_zero [LinearOrder K] (IN LN : Nat) (s : NodeStoreVec K V)
    (iid : Nat) (lo hi : Option K) :
    ¬ Good IN LN s 0 (.inner iid) lo hi :=
  fun hf => hf

theorem treeAt_leaf_iff [LinearOrder K] (IN LN : Nat) (s : NodeStoreVec K V)
    (lid : Nat) :
    TreeAt IN LN s 0 (.leaf lid) ↔
      lid < s.leafNodes.length ∧
      SortedKeys (s.getLeaf lid).data ∧
      (s.getLeaf lid).size ≤ LN :=
  Iff.rfl

theorem treeAt_inner_iff [LinearOrder K] (IN LN : Nat) (s : NodeStoreVec K V)
    (h iid : Nat) :
    TreeAt IN LN s (h + 1) (.inner iid) ↔
      InnerBody IN s (Good IN LN s h) iid none none 1 :=
  Iff.rfl

theorem treeAt_leaf_succ [LinearOrder K] (IN LN : Nat) (s : NodeStoreVec K V)
    (h lid : Nat) : ¬ TreeAt IN LN s (h + 1) (.leaf lid) :=
  fun hf => hf

theorem treeAt_inner_zero [LinearOrder K] (IN LN : Nat) (s : NodeStoreVec K V)
    (iid : Nat) : ¬ TreeAt IN LN s 0 (.inner iid) :=
  fun hf => hf

theorem entriesAt_leaf (s : NodeStoreVec K V) (h lid : Nat) :
    entriesAt s h (.leaf lid) = (s.getLeaf lid).data := by
  cases h <;> rfl

theorem entriesAt_inner (s : NodeStoreVec K V) (h iid : Nat) :
    entriesAt s (h + 1) (.inner iid) =
      ((s.getInner iid).childs.map (entriesAt s h)).flatten :=
  rfl

theorem fpInner_leaf (s : NodeStoreVec K V) (h lid : Nat) :
    fpInner s h (.leaf lid) = [] := by
  cases h <;> rfl

theorem fpInner_inner (s : NodeStoreVec K V) (h iid : Nat) :
    fpInner s (h + 1) (.inner iid) =
      iid :: ((s.getInner iid).childs.map (fpInner s h)).flatten :=
  rfl

theorem fpLeaf_leaf (s : NodeStoreVec K V) (h lid : Nat) :
    fpLeaf s h (.leaf lid) = [lid] := by
  cases h <;> rfl

theorem fpLeaf_inner (s : NodeStoreVec K V) (h iid : Nat) :
    fpLeaf s (h + 1) (.inner iid) =
      ((s.getInner iid).childs.map (fpLeaf s h)).flatten :=
  rfl

/-! ### Bounds plumbing -/

theorem boundsList_length (lo hi : Option K) (ks : List K) :
    (boundsList lo hi ks).length = ks.length + 2 := by
  simp [boundsList]

theorem boundsList_zero (lo hi : Option K) (ks : List K) :
    (boundsList lo hi ks).getD 0 none = lo :=
  rfl

theorem boundsList_mid (lo hi : Option K) (ks : List K) (j : Nat) (d : K)
    (hj : j < ks.length) :
    (boundsList lo hi ks).getD (j + 1) none = some (ks.getD j d) := by
  unfold boundsList
  simp only [List.getD_cons_succ]
  induction ks generalizing j with
  | nil => simp at hj
  | cons a ks ih =>
    cases j with
    | zero => simp
    | succ j => simpa using ih j (by simpa using hj)

theorem boundsList_last (lo hi : Option K) (ks : List K) :
    (boundsList lo hi ks).getD (ks.length + 1) none = hi := by
  unfold boundsList
  simp only [List.getD_cons_succ]
  induction ks with
  | nil => simp
  | cons a ks ih => simpa using ih

theorem inBnd_none_none [LinearOrder K] (k : K) : inBnd none none k :=
  ⟨trivial, trivial⟩

theorem inBnd_iff [LinearOrder K] (lo hi : Option K) (k : K) :
    inBnd lo hi k ↔
      (∀ a, lo = some a → a ≤ k) ∧ (∀ b, hi = some b → k < b) := by
  cases lo <;> cases hi <;> simp [inBnd]

theorem mem_keysOf_iff {K V : Type} (a : K) (es : List (K × V)) :
    a ∈ keysOf es ↔ ∃ kv ∈ es, kv.1 = a := by
  simp [keysOf]

theorem boundsList_get? (lo hi : Option K) (ks : List K) (j : Nat)
    (hj : j < ks.length) :
    (boundsList lo hi ks).getD (j + 1) none = ks.get? j := by
  unfold boundsList
  simp only [List.getD_cons_succ]
  induction ks generalizing j with
  | nil => simp at hj
  | cons a ks ih =>
    cases j with
    | zero => simp
    | succ j => simpa using ih j (by simpa using hj)

theorem drop_eq_getD_cons {α : Type} (d : α) :
    ∀ (l : List α) (j : Nat), j < l.length →
      l.drop j = l.getD j d :: l.drop (j + 1)
  | [], j, h => by simp at h
  | a :: l, 0, _ => by simp
  | a :: l, j + 1, h => by
    simpa using drop_eq_getD_cons d l j (by simpa using h)

theorem one_le_leafMin (LN : Nat) : 1 ≤ LeafNode.minimumSize LN := by
  unfold LeafNode.minimumSize
  split <;> omega

/-- Entries of a well-formed subtree are sorted, lie in the subtree's
interval, and are nonempty. -/
theorem good_entries [LinearOrder K] (IN LN : Nat) (s : NodeStoreVec K V) :
    ∀ (h : Nat) (id : NodeId) (lo hi : Option K), Good IN LN s h id lo hi →
      SortedKeys (entriesAt s h id) ∧
      (∀ kv ∈ entriesAt s h id, inBnd lo hi kv.1) ∧
      entriesAt s h id ≠ [] := by
  intro h
  induction h with
  | zero =>
    intro id lo hi hG
    cases id with
    | inner iid => exact absurd hG (good_inner_zero IN LN s iid lo hi)
    | leaf lid =>
      obtain ⟨_, hsort, hbnd, hmin, _⟩ := (good_leaf_iff IN LN s lid lo hi).1 hG
      refine ⟨by simpa [entriesAt_leaf] using hsort,
        by simpa [entriesAt_leaf] using hbnd, ?_⟩
      rw [entriesAt_leaf]
      have h1 : 1 ≤ (s.getLeaf lid).data.length :=
        le_trans (one_le_leafMin LN) hmin
      intro hnil
      rw [hnil] at h1
      simp at h1
  | succ h IH =>
    intro id lo hi hG
    cases id with
    | leaf lid => exact absurd hG (good_leaf_succ IN LN s h lid lo hi)
    | inner iid =>
      obtain ⟨hvalid, hlock, hmin, hmax, hch⟩ :=
        (good_inner_iff IN LN s h iid lo hi).1 hG
      have aux : ∀ n j, j + n = (s.getInner iid).childs.length →
          SortedKeys ((((s.getInner iid).childs.drop j).map
            (entriesAt s h)).flatten) ∧
          (∀ kv ∈ (((s.getInner iid).childs.drop j).map (entriesAt s h)).flatten,
            inBnd ((boundsList lo hi (s.getInner iid).keys).getD j none) hi kv.1) ∧
          (j < (s.getInner iid).childs.length →
            (((s.getInner iid).childs.drop j).map (entriesAt s h)).flatten ≠ []) := by
        intro n
        induction n with
        | zero =>
          intro j hj
          have : (s.getInner iid).childs.drop j = [] :=
            List.drop_eq_nil_of_le (by omega)
          rw [this]
          refine ⟨by simp [SortedKeys, keysOf], by simp, fun hlt => absurd hlt (by omega)⟩
        | succ n ihn =>
          intro j hj
          have hjlt : j < (s.getInner iid).childs.length := by omega
          rw [drop_eq_getD_cons default _ j hjlt, List.map_cons, List.flatten_cons]
          have hchild := hch j hjlt
          have ihc := IH ((s.getInner iid).childs.getD j default)
            ((boundsList lo hi (s.getInner iid).keys).getD j none)
            ((boundsList lo hi (s.getInner iid).keys).getD (j + 1) none) hchild
          have ihrest := ihn (j + 1) (by omega)
          by_cases hj1 : j + 1 < (s.getInner iid).childs.length
          · have hjk : j < (s.getInner iid).keys.length := by omega
            have hget : (s.getInner iid).keys.get? j =
                some ((s.getInner iid).keys.get ⟨j, hjk⟩) := List.get?_eq_get hjk
            set kj := (s.getInner iid).keys.get ⟨j, hjk⟩ with hkjdef
            have hbmid : (boundsList lo hi (s.getInner iid).keys).getD (j + 1) none =
                some kj := by
              rw [boundsList_get? lo hi (s.getInner iid).keys j hjk, hget]
            rw [hbmid] at ihc
            rw [hbmid] at ihrest
            set ce := entriesAt s h ((s.getInner iid).childs.getD j default) with hcedef
            set rest := (((s.getInner iid).childs.drop (j + 1)).map
              (entriesAt s h)).flatten with hrestdef
            have hrest_ne : rest ≠ [] := ihrest.2.2 hj1
            obtain ⟨b₀, hb₀⟩ := List.exists_mem_of_ne_nil rest hrest_ne
            have hce_ne : ce ≠ [] := ihc.2.2
            obtain ⟨c₀, hc₀⟩ := List.exists_mem_of_ne_nil ce hce_ne
            have hkj_le_b : ∀ kv ∈ rest, kj ≤ kv.1 := fun kv hkv =>
              ((inBnd_iff _ _ _).1 (ihrest.2.1 kv hkv)).1 kj rfl
            have hc_lt_kj : ∀ kv ∈ ce, kv.1 < kj := fun kv hkv =>
              ((inBnd_iff _ _ _).1 (ihc.2.1 kv hkv)).2 kj rfl
            refine ⟨?_, ?_, fun _ => ?_⟩
            · exact sortedKeys_append_of ce rest ihc.1 ihrest.1 (by
                intro a ha b hb
                obtain ⟨kva, hkva, rfl⟩ := (mem_keysOf_iff a ce).1 ha
                obtain ⟨kvb, hkvb, rfl⟩ := (mem_keysOf_iff b rest).1 hb
                exact lt_of_lt_of_le (hc_lt_kj kva hkva) (hkj_le_b kvb hkvb))
            · intro kv hkv
              rcases List.mem_append.1 hkv with hin | hin
              · rw [inBnd_iff]
                refine ⟨fun a ha => ((inBnd_iff _ _ _).1 (ihc.2.1 kv hin)).1 a ha,
                  fun b hb => ?_⟩
                have h1 : kv.1 < kj := hc_lt_kj kv hin
                have h2 : kj ≤ b₀.1 := hkj_le_b b₀ hb₀
                have h3 : b₀.1 < b := ((inBnd_iff _ _ _).1 (ihrest.2.1 b₀ hb₀)).2 b hb
                exact lt_trans (lt_of_lt_of_le h1 h2) h3
              · rw [inBnd_iff]
                refine ⟨fun a ha => ?_,
                  fun b hb => ((inBnd_iff _ _ _).1 (ihrest.2.1 kv hin)).2 b hb⟩
                have h1 : a ≤ c₀.1 := ((inBnd_iff _ _ _).1 (ihc.2.1 c₀ hc₀)).1 a ha
                have h2 : c₀.1 < kj := hc_lt_kj c₀ hc₀
                have h3 : kj ≤ kv.1 := hkj_le_b kv hin
                exact le_trans h1 (le_trans (le_of_lt h2) h3)
            · intro hnil
              exact hce_ne (List.append_eq_nil.mp hnil).1
          · have hjend : j + 1 = (s.getInner iid).childs.length := by omega
            have hdropnil : (s.getInner iid).childs.drop (j + 1) = [] :=
              List.drop_eq_nil_of_le (by omega)
            rw [hdropnil]
            simp only [List.map_nil, List.flatten_nil, List.append_nil]
            have hbend : (boundsList lo hi (s.getInner iid).keys).getD (j + 1) none = hi := by
              have : j = (s.getInner iid).keys.length := by omega
              rw [this]
              exact boundsList_last lo hi (s.getInner iid).keys
            rw [hbend] at ihc
            exact ⟨ihc.1, ihc.2.1, fun _ => ihc.2.2⟩
      have hfinal := aux (s.getInner iid).childs.length 0 (by omega)
      rw [List.drop_zero, boundsList_zero] at hfinal
      rw [entriesAt_inner]
      exact ⟨hfinal.1, hfinal.2.1, hfinal.2.2 (by omega)⟩

theorem getD_eq_get {α : Type} (d : α) :
    ∀ (l : List α) (i : Nat) (h : i < l.length), l.getD i d = l.get ⟨i, h⟩
  | _ :: _, 0, _ => rfl
  | a :: l, i + 1, h => by
    simpa using getD_eq_get d l i (by simpa using h)

theorem getD_mem {α : Type} (d : α) (l : List α) (i : Nat) (h : i < l.length) :
    l.getD i d ∈ l := by
  rw [getD_eq_get d l i h]
  exact List.get_mem l _ h

/-- Separator keys of a well-formed inner node are strictly sorted. -/
theorem good_inner_keys_sorted [LinearOrder K] (IN LN : Nat)
    (s : NodeStoreVec K V) (h iid : Nat) (lo hi : Option K)
    (hG : Good IN LN s (h + 1) (.inner iid) lo hi) :
    List.Pairwise (· < ·) (s.getInner iid).keys := by
  obtain ⟨_, hlock, _, _, hch⟩ := (good_inner_iff IN LN s h iid lo hi).1 hG
  rw [← List.chain'_iff_pairwise]
  rw [List.chain'_iff_get]
  intro i hi1
  have hi1' : i + 1 < (s.getInner iid).keys.length := by
    omega
  have hchild := hch (i + 1) (by omega)
  have hent := good_entries IN LN s h _ _ _ hchild
  obtain ⟨e, he⟩ := List.exists_mem_of_ne_nil _ hent.2.2
  have hbl : (boundsList lo hi (s.getInner iid).keys).getD (i + 1) none =
      some ((s.getInner iid).keys.get ⟨i, by omega⟩) := by
    rw [boundsList_get? lo hi _ i (by omega), List.get?_eq_get]
  have hbu : (boundsList lo hi (s.getInner iid).keys).getD (i + 2) none =
      some ((s.getInner iid).keys.get ⟨i + 1, hi1'⟩) := by
    rw [boundsList_get? lo hi _ (i + 1) hi1', List.get?_eq_get]
  have hb := hent.2.1 e he
  rw [hbl, hbu] at hb
  have h1 := ((inBnd_iff _ _ _).1 hb).1 _ rfl
  have h2 := ((inBnd_iff _ _ _).1 hb).2 _ rfl
  exact lt_of_le_of_lt h1 h2

/-- Frame lemma: a store that agrees with `s` on every node of a well-formed
subtree carries the same well-formed subtree with the same entries and
footprints. -/
theorem good_frame [LinearOrder K] (IN LN : Nat) (s s' : NodeStoreVec K V)
    (hsi : s.innerNodes.length ≤ s'.innerNodes.length)
    (hsl : s.leafNodes.length ≤ s'.leafNodes.length) :
    ∀ (h : Nat) (id : NodeId) (lo hi : Option K),
      Good IN LN s h id lo hi →
      (∀ j ∈ fpInner s h id, s'.getInner j = s.getInner j) →
      (∀ j ∈ fpLeaf s h id, (s'.getLeaf j).data = (s.getLeaf j).data) →
      Good IN LN s' h id lo hi ∧
      entriesAt s' h id = entriesAt s h id ∧
      fpInner s' h id = fpInner s h id ∧
      fpLeaf s' h id = fpLeaf s h id := by
  intro h
  induction h with
  | zero =>
    intro id lo hi hG hfi hfl
    cases id with
    | inner iid => exact absurd hG (good_inner_zero IN LN s iid lo hi)
    | leaf lid =>
      have hdata : (s'.getLeaf lid).data = (s.getLeaf lid).data :=
        hfl lid (by rw [fpLeaf_leaf]; simp)
      obtain ⟨hv, hsort, hbnd, hmin, hmax⟩ := (good_leaf_iff IN LN s lid lo hi).1 hG
      refine ⟨(good_leaf_iff IN LN s' lid lo hi).2
        ⟨by omega, by rw [hdata]; exact hsort, by rw [hdata]; exact hbnd,
         ?_, ?_⟩, ?_, ?_, ?_⟩
      · show LeafNode.minimumSize LN ≤ (s'.getLeaf lid).data.length
        rw [hdata]
        exact hmin
      · show (s'.getLeaf lid).data.length ≤ LN
        rw [hdata]
        exact hmax
      · rw [entriesAt_leaf, entriesAt_leaf, hdata]
      · rw [fpInner_leaf, fpInner_leaf]
      · rw [fpLeaf_leaf, fpLeaf_leaf]
  | succ h IH =>
    intro id lo hi hG hfi hfl
    cases id with
    | leaf lid => exact absurd hG (good_leaf_succ IN LN s h lid lo hi)
    | inner iid =>
      have hnode : s'.getInner iid = s.getInner iid :=
        hfi iid (by rw [fpInner_inner]; simp)
      obtain ⟨hv, hlock, hmin, hmax, hch⟩ :=
        (good_inner_iff IN LN s h iid lo hi).1 hG
      have hchild_fi : ∀ i, i < (s.getInner iid).childs.length →
          ∀ j ∈ fpInner s h ((s.getInner iid).childs.getD i default),
            s'.getInner j = s.getInner j := by
        intro i hi j hj
        refine hfi j ?_
        rw [fpInner_inner]
        refine List.mem_cons_of_mem _ (List.mem_flatten.2 ⟨_, ?_, hj⟩)
        exact List.mem_map_of_mem _ (getD_mem default _ _ hi)
      have hchild_fl : ∀ i, i < (s.getInner iid).childs.length →
          ∀ j ∈ fpLeaf s h ((s.getInner iid).childs.getD i default),
            (s'.getLeaf j).data = (s.getLeaf j).data := by
        intro i hi j hj
        refine hfl j ?_
        rw [fpLeaf_inner]
        refine List.mem_flatten.2 ⟨_, ?_, hj⟩
        exact List.mem_map_of_mem _ (getD_mem default _ _ hi)
      have hrec : ∀ i, i < (s.getInner iid).childs.length →
          Good IN LN s' h ((s.getInner iid).childs.getD i default)
            ((boundsList lo hi (s.getInner iid).keys).getD i none)
            ((boundsList lo hi (s.getInner iid).keys).getD (i + 1) none) ∧
          entriesAt s' h ((s.getInner iid).childs.getD i default) =
            entriesAt s h ((s.getInner iid).childs.getD i default) ∧
          fpInner s' h ((s.getInner iid).childs.getD i default) =
            fpInner s h ((s.getInner iid).childs.getD i default) ∧
          fpLeaf s' h ((s.getInner iid).childs.getD i default) =
            fpLeaf s h ((s.getInner iid).childs.getD i default) := by
        intro i hi
        exact IH _ _ _ (hch i hi) (hchild_fi i hi) (hchild_fl i hi)
      have hmemeq : ∀ c ∈ (s.getInner iid).childs,
          entriesAt s' h c = entriesAt s h c ∧
          fpInner s' h c = fpInner s h c ∧ fpLeaf s' h c = fpLeaf s h c := by
        intro c hc
        obtain ⟨⟨i, hilt⟩, hgi⟩ := List.mem_iff_get.1 hc
        have hcd : (s.getInner iid).childs.getD i default = c := by
          rw [getD_eq_get default _ i hilt, hgi]
        have hri := hrec i hilt
        rw [hcd] at hri
        exact ⟨hri.2.1, hri.2.2.1, hri.2.2.2⟩
      refine ⟨?_, ?_, ?_, ?_⟩
      · rw [good_inner_iff]
        refine ⟨by omega, by rw [hnode]; exact hlock, ?_, ?_, ?_⟩
        · show InnerNode.minimumSize IN ≤ (s'.getInner iid).size
          rw [hnode]
          exact hmin
        · show (s'.getInner iid).size ≤ IN
          rw [hnode]
          exact hmax
        · rw [hnode]
          intro i hi
          exact (hrec i hi).1
      · rw [entriesAt_inner, entriesAt_inner, hnode]
        exact congrArg List.flatten (List.map_congr_left fun c hc => (hmemeq c hc).1)
      · rw [fpInner_inner, fpInner_inner, hnode]
        exact congrArg (iid :: ·)
          (congrArg List.flatten (List.map_congr_left fun c hc => (hmemeq c hc).2.1))
      · rw [fpLeaf_inner, fpLeaf_inner, hnode]
        exact congrArg List.flatten (List.map_congr_left fun c hc => (hmemeq c hc).2.2)

/-- Every node id in a well-formed subtree's footprint is a valid store
index. -/
theorem good_fp_valid [LinearOrder K] (IN LN : Nat) (s : NodeStoreVec K V) :
    ∀ (h : Nat) (id : NodeId) (lo hi : Option K), Good IN LN s h id lo hi →
      (∀ j ∈ fpInner s h id, j < s.innerNodes.length) ∧
      (∀ j ∈ fpLeaf s h id, j < s.leafNodes.length) := by
  intro h
  induction h with
  | zero =>
    intro id lo hi hG
    cases id with
    | inner iid => exact absurd hG (good_inner_zero IN LN s iid lo hi)
    | leaf lid =>
      refine ⟨by rw [fpInner_leaf]; simp, ?_⟩
      rw [fpLeaf_leaf]
      intro j hj
      rw [List.mem_singleton] at hj
      subst hj
      exact ((good_leaf_iff IN LN s j lo hi).1 hG).1
  | succ h IH =>
    intro id lo hi hG
    cases id with
    | leaf lid => exact absurd hG (good_leaf_succ IN LN s h lid lo hi)
    | inner iid =>
      obtain ⟨hv, hlock, hmin, hmax, hch⟩ :=
        (good_inner_iff IN LN s h iid lo hi).1 hG
      constructor
      · rw [fpInner_inner]
        intro j hj
        rcases List.mem_cons.1 hj with rfl | hj'
        · exact hv
        · obtain ⟨l, hl, hjl⟩ := List.mem_flatten.1 hj'
          obtain ⟨c, hc, rfl⟩ := List.mem_map.1 hl
          obtain ⟨⟨i, hilt⟩, hgi⟩ := List.mem_iff_get.1 hc
          have hcd : (s.getInner iid).childs.getD i default = c := by
            rw [getD_eq_get default _ i hilt, hgi]
          have := (IH _ _ _ (hch i hilt)).1 j (by rw [hcd]; exact hjl)
          exact this
      · rw [fpLeaf_inner]
        intro j hj
        obtain ⟨l, hl, hjl⟩ := List.mem_flatten.1 hj
        obtain ⟨c, hc, rfl⟩ := List.mem_map.1 hl
        obtain ⟨⟨i, hilt⟩, hgi⟩ := List.mem_iff_get.1 hc
        have hcd : (s.getInner iid).childs.getD i default = c := by
          rw [getD_eq_get default _ i hilt, hgi]
        exact (IH _ _ _ (hch i hilt)).2 j (by rw [hcd]; exact hjl)

/-- A well-formed subtree of height `h` contributes at least `h` inner ids. -/
theorem good_fpInner_length [LinearOrder K] (IN LN : Nat)
    (s : NodeStoreVec K V) :
    ∀ (h : Nat) (id : NodeId) (lo hi : Option K), Good IN LN s h id lo hi →
      h ≤ (fpInner s h id).length := by
  intro h
  induction h with
  | zero => intro id lo hi _; omega
  | succ h IH =>
    intro id lo hi hG
    cases id with
    | leaf lid => exact absurd hG (good_leaf_succ IN LN s h lid lo hi)
    | inner iid =>
      obtain ⟨hv, hlock, hmin, hmax, hch⟩ :=
        (good_inner_iff IN LN s h iid lo hi).1 hG
      have h0 : 0 < (s.getInner iid).childs.length := by
        rw [hlock]
        omega
      have hc0 := IH _ _ _ (hch 0 h0)
      rw [fpInner_inner]
      have hsub : (fpInner s h ((s.getInner iid).childs.getD 0 default)).length ≤
          (((s.getInner iid).childs.map (fpInner s h)).flatten).length := by
        have hmem : fpInner s h ((s.getInner iid).childs.getD 0 default) ∈
            (s.getInner iid).childs.map (fpInner s h) :=
          List.mem_map_of_mem _ (getD_mem default _ _ h0)
        calc (fpInner s h ((s.getInner iid).childs.getD 0 default)).length
            ≤ (((s.getInner iid).childs.map (fpInner s h)).map List.length).sum :=
              List.le_sum_of_mem (List.mem_map_of_mem _ hmem)
          _ = (((s.getInner iid).childs.map (fpInner s h)).flatten).length := by
              rw [List.length_flatten]
      simp only [List.length_cons]
      omega

/-- A duplicate-free list of indices below `n` has at most `n` members. -/
theorem nodup_length_le {l : List Nat} {n : Nat} (hnd : l.Nodup)
    (hlt : ∀ x ∈ l, x < n) : l.length ≤ n := by
  classical
  have h1 : l.length = l.toFinset.card := (List.toFinset_card_of_nodup hnd).symm
  have h2 : l.toFinset ⊆ Finset.range n := by
    intro x hx
    rw [List.mem_toFinset] at hx
    rw [Finset.mem_range]
    exact hlt x hx
  calc l.length = l.toFinset.card := h1
    _ ≤ (Finset.range n).card := Finset.card_le_card h2
    _ = n := Finset.card_range n

/-! ### Stability of the fueled traversals -/

theorem subtreeEntries_stable [LinearOrder K] (IN LN : Nat)
    (s : NodeStoreVec K V) :
    ∀ (h : Nat) (id : NodeId) (lo hi : Option K), Good IN LN s h id lo hi →
      ∀ fuel, h < fuel → subtreeEntries s fuel id = entriesAt s h id := by
  intro h
  induction h with
  | zero =>
    intro id lo hi hG fuel _
    cases id with
    | inner iid => exact absurd hG (good_inner_zero IN LN s iid lo hi)
    | leaf lid => cases fuel <;> rw [entriesAt_leaf] <;> rfl
  | succ h IH =>
    intro id lo hi hG fuel hfuel
    cases id with
    | leaf lid => exact absurd hG (good_leaf_succ IN LN s h lid lo hi)
    | inner iid =>
      obtain ⟨hv, hlock, hmin, hmax, hch⟩ :=
        (good_inner_iff IN LN s h iid lo hi).1 hG
      obtain ⟨f, rfl⟩ : ∃ f, fuel = f + 1 := ⟨fuel - 1, by omega⟩
      show ((s.getInner iid).childs.map (subtreeEntries s f)).flatten = _
      rw [entriesAt_inner]
      refine congrArg List.flatten (List.map_congr_left fun c hc => ?_)
      obtain ⟨⟨i, hilt⟩, hgi⟩ := List.mem_iff_get.1 hc
      have hcd : (s.getInner iid).childs.getD i default = c := by
        rw [getD_eq_get default _ i hilt, hgi]
      have := IH _ _ _ (hch i hilt) f (by omega)
      rw [hcd] at this
      exact this

theorem subtreeLeafIds_stable [LinearOrder K] (IN LN : Nat)
    (s : NodeStoreVec K V) :
    ∀ (h : Nat) (id : NodeId) (lo hi : Option K), Good IN LN s h id lo hi →
      ∀ fuel, h < fuel → subtreeLeafIds s fuel id = fpLeaf s h id := by
  intro h
  induction h with
  | zero =>
    intro id lo hi hG fuel _
    cases id with
    | inner iid => exact absurd hG (good_inner_zero IN LN s iid lo hi)
    | leaf lid => cases fuel <;> rw [fpLeaf_leaf] <;> rfl
  | succ h IH =>
    intro id lo hi hG fuel hfuel
    cases id with
    | leaf lid => exact absurd hG (good_leaf_succ IN LN s h lid lo hi)
    | inner iid =>
      obtain ⟨hv, hlock, hmin, hmax, hch⟩ :=
        (good_inner_iff IN LN s h iid lo hi).1 hG
      obtain ⟨f, rfl⟩ : ∃ f, fuel = f + 1 := ⟨fuel - 1, by omega⟩
      show ((s.getInner iid).childs.map (subtreeLeafIds s f)).flatten = _
      rw [fpLeaf_inner]
      refine congrArg List.flatten (List.map_congr_left fun c hc => ?_)
      obtain ⟨⟨i, hilt⟩, hgi⟩ := List.mem_iff_get.1 hc
      have hcd : (s.getInner iid).childs.getD i default = c := by
        rw [getD_eq_get default _ i hilt, hgi]
      have := IH _ _ _ (hch i hilt) f (by omega)
      rw [hcd] at this
      exact this

/-! ### Store access lemmas -/

theorem getLeaf_setLeaf_self (s : NodeStoreVec K V) (lid : Nat)
    (x : LeafNode K V) (h : lid < s.leafNodes.length) :
    (s.setLeaf lid x).getLeaf lid = x := by
  unfold NodeStoreVec.setLeaf NodeStoreVec.getLeaf
  exact getD_set_self x default s.leafNodes lid h

theorem getLeaf_setLeaf_ne (s : NodeStoreVec K V) (lid j : Nat)
    (x : LeafNode K V) (h : lid ≠ j) :
    (s.setLeaf lid x).getLeaf j = s.getLeaf j := by
  unfold NodeStoreVec.setLeaf NodeStoreVec.getLeaf
  exact getD_set_ne x default s.leafNodes lid j h

theorem getInner_setLeaf (s : NodeStoreVec K V) (lid : Nat)
    (x : LeafNode K V) (j : Nat) :
    (s.setLeaf lid x).getInner j = s.getInner j := rfl

theorem setLeaf_lengths (s : NodeStoreVec K V) (lid : Nat) (x : LeafNode K V) :
    (s.setLeaf lid x).innerNodes.length = s.innerNodes.length ∧
    (s.setLeaf lid x).leafNodes.length = s.leafNodes.length := by
  constructor
  · rfl
  · exact List.length_set s.leafNodes lid x

theorem getInner_setInner_self (s : NodeStoreVec K V) (iid : Nat)
    (x : InnerNode K) (h : iid < s.innerNodes.length) :
    (s.setInner iid x).getInner iid = x := by
  unfold NodeStoreVec.setInner NodeStoreVec.getInner
  exact getD_set_self x default s.innerNodes iid h

theorem getInner_setInner_ne (s : NodeStoreVec K V) (iid j : Nat)
    (x : InnerNode K) (h : iid ≠ j) :
    (s.setInner iid x).getInner j = s.getInner j := by
  unfold NodeStoreVec.setInner NodeStoreVec.getInner
  exact getD_set_ne x default s.innerNodes iid j h

theorem getLeaf_setInner (s : NodeStoreVec K V) (iid : Nat) (x : InnerNode K)
    (j : Nat) : (s.setInner iid x).getLeaf j = s.getLeaf j := rfl

theorem setInner_lengths (s : NodeStoreVec K V) (iid : Nat) (x : InnerNode K) :
    (s.setInner iid x).innerNodes.length = s.innerNodes.length ∧
    (s.setInner iid x).leafNodes.length = s.leafNodes.length := by
  constructor
  · exact List.length_set s.innerNodes iid x
  · rfl

/-- Stores with equal node buffers have identical shape predicates,
entries and footprints (the cache slot is irrelevant to them). -/
theorem store_fields_congr [LinearOrder K] (IN LN : Nat)
    {s s' : NodeStoreVec K V} (hinner : s'.innerNodes = s.innerNodes)
    (hleaf : s'.leafNodes = s.leafNodes) :
    ∀ (h : Nat) (id : NodeId),
      entriesAt s' h id = entriesAt s h id ∧
      fpInner s' h id = fpInner s h id ∧
      fpLeaf s' h id = fpLeaf s h id ∧
      (∀ lo hi, Good IN LN s' h id lo hi ↔ Good IN LN s h id lo hi) := by
  have hgi : ∀ j, s'.getInner j = s.getInner j := by
    intro j
    unfold NodeStoreVec.getInner
    rw [hinner]
  have hgl : ∀ j, s'.getLeaf j = s.getLeaf j := by
    intro j
    unfold NodeStoreVec.getLeaf
    rw [hleaf]
  intro h
  induction h with
  | zero =>
    intro id
    cases id with
    | leaf lid =>
      refine ⟨by rw [entriesAt_leaf, entriesAt_leaf, hgl], by rw [fpInner_leaf, fpInner_leaf],
        by rw [fpLeaf_leaf, fpLeaf_leaf], ?_⟩
      intro lo hi
      rw [good_leaf_iff, good_leaf_iff, hgl lid, hleaf]
    | inner iid =>
      refine ⟨rfl, rfl, rfl, ?_⟩
      intro lo hi
      exact ⟨fun hf => absurd hf (good_inner_zero IN LN s' iid lo hi),
        fun hf => absurd hf (good_inner_zero IN LN s iid lo hi)⟩
  | succ h IH =>
    intro id
    cases id with
    | leaf lid =>
      refine ⟨by rw [entriesAt_leaf, entriesAt_leaf, hgl], by rw [fpInner_leaf, fpInner_leaf],
        by rw [fpLeaf_leaf, fpLeaf_leaf], ?_⟩
      intro lo hi
      exact ⟨fun hf => absurd hf (good_leaf_succ IN LN s' h lid lo hi),
        fun hf => absurd hf (good_leaf_succ IN LN s h lid lo hi)⟩
    | inner iid =>
      have hmap1 : ∀ c ∈ (s.getInner iid).childs,
          entriesAt s' h c = entriesAt s h c := fun c _ => (IH c).1
      have hmap2 : ∀ c ∈ (s.getInner iid).childs,
          fpInner s' h c = fpInner s h c := fun c _ => (IH c).2.1
      have hmap3 : ∀ c ∈ (s.getInner iid).childs,
          fpLeaf s' h c = fpLeaf s h c := fun c _ => (IH c).2.2.1
      refine ⟨?_, ?_, ?_, ?_⟩
      · rw [entriesAt_inner, entriesAt_inner, hgi]
        exact congrArg List.flatten (List.map_congr_left hmap1)
      · rw [fpInner_inner, fpInner_inner, hgi]
        exact congrArg (iid :: ·)
          (congrArg List.flatten (List.map_congr_left hmap2))
      · rw [fpLeaf_inner, fpLeaf_inner, hgi]
        exact congrArg List.flatten (List.map_congr_left hmap3)
      · intro lo hi
        rw [good_inner_iff, good_inner_iff]
        unfold InnerBody
        rw [hgi, hinner]
        constructor
        · rintro ⟨h1, h2, h3, h4, h5⟩
          exact ⟨h1, h2, h3, h4, fun i hilt => ((IH _).2.2.2 _ _).1 (h5 i hilt)⟩
        · rintro ⟨h1, h2, h3, h4, h5⟩
          exact ⟨h1, h2, h3, h4, fun i hilt => ((IH _).2.2.2 _ _).2 (h5 i hilt)⟩

theorem flatten_split_at {α β : Type} (f : α → List β) (d : α) (cs : List α)
    (j : Nat) (hj : j < cs.length) :
    (cs.map f).flatten =
      ((cs.take j).map f).flatten ++ f (cs.getD j d) ++
        ((cs.drop (j + 1)).map f).flatten := by
  conv_lhs => rw [eq_take_cons_drop (cs.getD j d) cs j
    (by rw [getD_eq_get d cs j hj]; exact List.get?_eq_get hj)]
  rw [List.map_append, List.map_cons, List.flatten_append, List.flatten_cons]
  rw [List.append_assoc]

theorem take_succ_getD {α : Type} (d : α) (l : List α) (j : Nat)
    (hj : j < l.length) : l.take (j + 1) = l.take j ++ [l.getD j d] := by
  rw [List.take_succ]
  congr 1
  simp [List.getElem?_eq_getElem hj, getD_eq_get d l j hj, List.get_eq_getElem]

/-- Entries of the children right of position `j` lie above the `j`-th bound. -/
theorem good_children_suffix [LinearOrder K] (IN LN : Nat)
    (s : NodeStoreVec K V) (h iid : Nat) (lo hi : Option K)
    (hlock : (s.getInner iid).childs.length = (s.getInner iid).keys.length + 1)
    (hch : ∀ i, i < (s.getInner iid).childs.length →
      Good IN LN s h ((s.getInner iid).childs.getD i default)
        ((boundsList lo hi (s.getInner iid).keys).getD i none)
        ((boundsList lo hi (s.getInner iid).keys).getD (i + 1) none)) :
    ∀ n j, j + n = (s.getInner iid).childs.length →
      ∀ kv ∈ (((s.getInner iid).childs.drop j).map (entriesAt s h)).flatten,
        ∀ a, (boundsList lo hi (s.getInner iid).keys).getD j none = some a →
          a ≤ kv.1 := by
  intro n
  induction n with
  | zero =>
    intro j hj kv hkv
    rw [List.drop_eq_nil_of_le (by omega)] at hkv
    simp at hkv
  | succ n ihn =>
    intro j hj kv hkv a ha
    have hjlt : j < (s.getInner iid).childs.length := by omega
    rw [drop_eq_getD_cons default _ j hjlt, List.map_cons, List.flatten_cons] at hkv
    have hchild := hch j hjlt
    have hent := good_entries IN LN s h _ _ _ hchild
    rcases List.mem_append.1 hkv with hin | hin
    · have := hent.2.1 kv hin
      rw [ha] at this
      exact ((inBnd_iff _ _ _).1 this).1 a rfl
    · have hjk : j < (s.getInner iid).keys.length := by
        by_contra hge
        have hj1 : j + 1 = (s.getInner iid).childs.length := by omega
        rw [List.drop_eq_nil_of_le (by omega)] at hin
        simp at hin
      have hget : (s.getInner iid).keys.get? j =
          some ((s.getInner iid).keys.get ⟨j, hjk⟩) := List.get?_eq_get hjk
      have hbmid : (boundsList lo hi (s.getInner iid).keys).getD (j + 1) none =
          some ((s.getInner iid).keys.get ⟨j, hjk⟩) := by
        rw [boundsList_get? lo hi _ j hjk, hget]
      have hrec := ihn (j + 1) (by omega) kv hin _ hbmid
      obtain ⟨e, he⟩ := List.exists_mem_of_ne_nil _ hent.2.2
      have hb := hent.2.1 e he
      rw [ha, hbmid] at hb
      have h1 : a ≤ e.1 := ((inBnd_iff _ _ _).1 hb).1 a rfl
      have h2 : e.1 < (s.getInner iid).keys.get ⟨j, hjk⟩ :=
        ((inBnd_iff _ _ _).1 hb).2 _ rfl
      exact le_trans h1 (le_trans (le_of_lt h2) hrec)

/-- Entries of the children left of position `j` lie strictly below the
`j`-th bound. -/
theorem good_children_prefix [LinearOrder K] (IN LN : Nat)
    (s : NodeStoreVec K V) (h iid : Nat) (lo hi : Option K)
    (hlock : (s.getInner iid).childs.length = (s.getInner iid).keys.length + 1)
    (hch : ∀ i, i < (s.getInner iid).childs.length →
      Good IN LN s h ((s.getInner iid).childs.getD i default)
        ((boundsList lo hi (s.getInner iid).keys).getD i none)
        ((boundsList lo hi (s.getInner iid).keys).getD (i + 1) none)) :
    ∀ j, j ≤ (s.getInner iid).childs.length →
      ∀ kv ∈ (((s.getInner iid).childs.take j).map (entriesAt s h)).flatten,
        ∀ b, (boundsList lo hi (s.getInner iid).keys).getD j none = some b →
          kv.1 < b := by
  intro j
  induction j with
  | zero =>
    intro _ kv hkv
    simp at hkv
  | succ j ihj =>
    intro hj kv hkv b hb
    have hjlt : j < (s.getInner iid).childs.length := by omega
    rw [take_succ_getD default _ j hjlt, List.map_append, List.flatten_append] at hkv
    have hchild := hch j hjlt
    have hent := good_entries IN LN s h _ _ _ hchild
    rcases List.mem_append.1 hkv with hin | hin
    · cases j with
      | zero => simp at hin
      | succ j' =>
        have hjk : j' < (s.getInner iid).keys.length := by omega
        have hget : (s.getInner iid).keys.get? j' =
            some ((s.getInner iid).keys.get ⟨j', hjk⟩) := List.get?_eq_get hjk
        have hbmid : (boundsList lo hi (s.getInner iid).keys).getD (j' + 1) none =
            some ((s.getInner iid).keys.get ⟨j', hjk⟩) := by
          rw [boundsList_get? lo hi _ j' hjk, hget]
        have hrec := ihj (by omega) kv hin _ hbmid
        obtain ⟨e, he⟩ := List.exists_mem_of_ne_nil _ hent.2.2
        have hbe := hent.2.1 e he
        rw [hbmid, hb] at hbe
        have h1 : (s.getInner iid).keys.get ⟨j', hjk⟩ ≤ e.1 :=
          ((inBnd_iff _ _ _).1 hbe).1 _ rfl
        have h2 : e.1 < b := ((inBnd_iff _ _ _).1 hbe).2 b rfl
        exact lt_of_lt_of_le hrec (le_trans h1 (le_of_lt h2))
    · rcases List.mem_flatten.1 hin with ⟨l, hl, hkvl⟩
      rcases List.mem_map.1 hl with ⟨c, hc, rfl⟩
      rw [List.mem_singleton] at hc
      subst hc
      have := hent.2.1 kv hkvl
      rw [hb] at this
      exact ((inBnd_iff _ _ _).1 this).2 b rfl

theorem getD_take {α : Type} (d : α) :
    ∀ (l : List α) (j i : Nat), i < j → (l.take j).getD i d = l.getD i d
  | [], _, _, _ => by simp
  | a :: l, j + 1, 0, _ => by simp
  | a :: l, j + 1, i + 1, h => by
    simpa using getD_take d l j i (by omega)

theorem getD_drop {α : Type} (d : α) :
    ∀ (l : List α) (n m : Nat), (l.drop n).getD m d = l.getD (n + m) d
  | _, 0, _ => by simp
  | [], n + 1, m => by simp
  | a :: l, n + 1, m => by
    simpa [Nat.succ_add] using getD_drop d l n m

/-- Entries of the children right of position `j` lie strictly below the
node's upper bound. -/
theorem good_children_suffix_upper [LinearOrder K] (IN LN : Nat)
    (s : NodeStoreVec K V) (h iid : Nat) (lo hi : Option K)
    (hlock : (s.getInner iid).childs.length = (s.getInner iid).keys.length + 1)
    (hch : ∀ i, i < (s.getInner iid).childs.length →
      Good IN LN s h ((s.getInner iid).childs.getD i default)
        ((boundsList lo hi (s.getInner iid).keys).getD i none)
        ((boundsList lo hi (s.getInner iid).keys).getD (i + 1) none)) :
    ∀ n j, j + n = (s.getInner iid).childs.length →
      ∀ kv ∈ (((s.getInner iid).childs.drop j).map (entriesAt s h)).flatten,
        ∀ b, hi = some b → kv.1 < b := by
  intro n
  induction n with
  | zero =>
    intro j hj kv hkv
    rw [List.drop_eq_nil_of_le (by omega)] at hkv
    simp at hkv
  | succ n ihn =>
    intro j hj kv hkv b hb
    have hjlt : j < (s.getInner iid).childs.length := by omega
    rw [drop_eq_getD_cons default _ j hjlt, List.map_cons, List.flatten_cons] at hkv
    have hchild := hch j hjlt
    have hent := good_entries IN LN s h _ _ _ hchild
    rcases List.mem_append.1 hkv with hin | hin
    · by_cases hj1 : j + 1 = (s.getInner iid).childs.length
      · have hlast : (boundsList lo hi (s.getInner iid).keys).getD (j + 1) none = hi := by
          have hje : j = (s.getInner iid).keys.length := by omega
          rw [hje]
          exact boundsList_last lo hi (s.getInner iid).keys
        have := hent.2.1 kv hin
        rw [hlast, hb] at this
        exact ((inBnd_iff _ _ _).1 this).2 b rfl
      · have hjk : j < (s.getInner iid).keys.length := by omega
        have hget : (s.getInner iid).keys.get? j =
            some ((s.getInner iid).keys.get ⟨j, hjk⟩) := List.get?_eq_get hjk
        have hbmid : (boundsList lo hi (s.getInner iid).keys).getD (j + 1) none =
            some ((s.getInner iid).keys.get ⟨j, hjk⟩) := by
          rw [boundsList_get? lo hi _ j hjk, hget]
        have hub := hent.2.1 kv hin
        rw [hbmid] at hub
        have h1 : kv.1 < (s.getInner iid).keys.get ⟨j, hjk⟩ :=
          ((inBnd_iff _ _ _).1 hub).2 _ rfl
        have hj1lt : j + 1 < (s.getInner iid).childs.length := by omega
        have hchild1 := hch (j + 1) hj1lt
        have hent1 := good_entries IN LN s h _ _ _ hchild1
        obtain ⟨e, he⟩ := List.exists_mem_of_ne_nil _ hent1.2.2
        have hein : e ∈ (((s.getInner iid).childs.drop (j + 1)).map
            (entriesAt s h)).flatten := by
          refine List.mem_flatten.2 ⟨_, List.mem_map_of_mem _ ?_, he⟩
          have : (s.getInner iid).childs.getD (j + 1) default =
              ((s.getInner iid).childs.drop (j + 1)).getD 0 default := by
            rw [getD_drop]
          rw [this]
          refine getD_mem default _ 0 ?_
          rw [List.length_drop]
          omega
        have h2 := good_children_suffix IN LN s h iid lo hi hlock hch n (j + 1)
          (by omega) e hein _ hbmid
        have h3 := ihn (j + 1) (by omega) e hein b hb
        exact lt_trans (lt_of_lt_of_le h1 h2) h3
    · exact ihn (j + 1) (by omega) kv hin b hb

/-- Step lemma: the context of a leaf lifts through one inner node whose
children are well formed. -/
theorem innerBody_leaf_ctx [LinearOrder K] (IN LN : Nat) (s : NodeStoreVec K V)
    (h iid : Nat) (lo hi : Option K) (m : Nat)
    (hbody : InnerBody IN s (Good IN LN s h) iid lo hi m)
    (hnd : (fpLeaf s (h + 1) (.inner iid)).Nodup)
    (lid : Nat) (hmem : lid ∈ fpLeaf s (h + 1) (.inner iid))
    (hctx : ∀ i, i < (s.getInner iid).childs.length →
      (fpLeaf s h ((s.getInner iid).childs.getD i default)).Nodup →
      lid ∈ fpLeaf s h ((s.getInner iid).childs.getD i default) →
      LeafCtx IN LN s h ((s.getInner iid).childs.getD i default)
        ((boundsList lo hi (s.getInner iid).keys).getD i none)
        ((boundsList lo hi (s.getInner iid).keys).getD (i + 1) none) lid
        (fun s' => Good IN LN s' h ((s.getInner iid).childs.getD i default)
          ((boundsList lo hi (s.getInner iid).keys).getD i none)
          ((boundsList lo hi (s.getInner iid).keys).getD (i + 1) none))) :
    LeafCtx IN LN s (h + 1) (.inner iid) lo hi lid
      (fun s' => InnerBody IN s' (Good IN LN s' h) iid lo hi m) := by
  obtain ⟨hv, hlock, hmin, hmax, hch⟩ := hbody
  rw [fpLeaf_inner] at hmem hnd
  obtain ⟨fl, hfl, hlfl⟩ := List.mem_flatten.1 hmem
  obtain ⟨c, hc, rfl⟩ := List.mem_map.1 hfl
  obtain ⟨⟨j, hjlt⟩, hgj⟩ := List.mem_iff_get.1 hc
  have hcd : (s.getInner iid).childs.getD j default = c := by
    rw [getD_eq_get default _ j hjlt, hgj]
  have hlfl' : lid ∈ fpLeaf s h ((s.getInner iid).childs.getD j default) := by
    rw [hcd]
    exact hlfl
  have hsplitfp := flatten_split_at (fpLeaf s h) default (s.getInner iid).childs j hjlt
  rw [hsplitfp] at hnd
  have hndA := List.nodup_append.1 hnd
  have hndB := List.nodup_append.1 hndA.1
  have hndj : (fpLeaf s h ((s.getInner iid).childs.getD j default)).Nodup :=
    hndB.2.1
  have hlid_pre : lid ∉ (((s.getInner iid).childs.take j).map (fpLeaf s h)).flatten :=
    fun hin => hndB.2.2 hin hlfl'
  have hlid_suf : lid ∉ (((s.getInner iid).childs.drop (j + 1)).map (fpLeaf s h)).flatten :=
    fun hin => hndA.2.2 (List.mem_append.2 (Or.inr hlfl')) hin
  obtain ⟨llo, lhi, Aj, Bj, hgl, hentj, hmono, hAj, hBj, hupd⟩ :=
    hctx j hjlt hndj hlfl'
  -- facts about the `j`-th bounds relative to an `x` in the leaf's interval
  have hxbnd : ∀ x, inBnd llo lhi x →
      inBnd ((boundsList lo hi (s.getInner iid).keys).getD j none)
        ((boundsList lo hi (s.getInner iid).keys).getD (j + 1) none) x := hmono
  -- membership helpers for the first child and the child after `j`
  have hmem_pre : ∀ i, i < j →
      ∀ kv ∈ entriesAt s h ((s.getInner iid).childs.getD i default),
        kv ∈ (((s.getInner iid).childs.take j).map (entriesAt s h)).flatten := by
    intro i hij kv hkv
    refine List.mem_flatten.2 ⟨_, List.mem_map_of_mem _ ?_, hkv⟩
    have he : ((s.getInner iid).childs.take j).getD i default =
        (s.getInner iid).childs.getD i default := getD_take default _ j i hij
    rw [← he]
    exact getD_mem default _ i (by rw [List.length_take]; omega)
  have hmem_suf : ∀ i, j + 1 ≤ i → i < (s.getInner iid).childs.length →
      ∀ kv ∈ entriesAt s h ((s.getInner iid).childs.getD i default),
        kv ∈ (((s.getInner iid).childs.drop (j + 1)).map (entriesAt s h)).flatten := by
    intro i hij hilt kv hkv
    refine List.mem_flatten.2 ⟨_, List.mem_map_of_mem _ ?_, hkv⟩
    have he : ((s.getInner iid).childs.drop (j + 1)).getD (i - (j + 1)) default =
        (s.getInner iid).childs.getD i default := by
      rw [getD_drop]
      congr 1
      omega
    rw [← he]
    exact getD_mem default _ _ (by rw [List.length_drop]; omega)
  refine ⟨llo, lhi,
    (((s.getInner iid).childs.take j).map (entriesAt s h)).flatten ++ Aj,
    Bj ++ (((s.getInner iid).childs.drop (j + 1)).map (entriesAt s h)).flatten,
    hgl, ?_, ?_, ?_, ?_, ?_⟩
  · rw [entriesAt_inner,
      flatten_split_at (entriesAt s h) default (s.getInner iid).childs j hjlt,
      hentj]
    simp [List.append_assoc]
  · intro x hx
    have hxj := hmono x hx
    rw [inBnd_iff]
    constructor
    · intro a ha
      by_cases hj0 : j = 0
      · subst hj0
        refine ((inBnd_iff _ _ _).1 hxj).1 a ?_
        rw [boundsList_zero, ha]
      · have hjk : j - 1 < (s.getInner iid).keys.length := by omega
        have hj' : j - 1 + 1 = j := by omega
        have hbj : (boundsList lo hi (s.getInner iid).keys).getD j none =
            some ((s.getInner iid).keys.get ⟨j - 1, hjk⟩) := by
          have hb0 := boundsList_get? lo hi (s.getInner iid).keys (j - 1) hjk
          rw [List.get?_eq_get hjk, hj'] at hb0
          exact hb0
        have hkx : (s.getInner iid).keys.get ⟨j - 1, hjk⟩ ≤ x := by
          refine ((inBnd_iff _ _ _).1 hxj).1 _ ?_
          exact hbj
        have h00 : 0 < (s.getInner iid).childs.length := by omega
        have hc0 := hch 0 h00
        have hent0 := good_entries IN LN s h _ _ _ hc0
        obtain ⟨e₀, he₀⟩ := List.exists_mem_of_ne_nil _ hent0.2.2
        have hae : a ≤ e₀.1 := by
          have := hent0.2.1 e₀ he₀
          rw [boundsList_zero, ha] at this
          exact ((inBnd_iff _ _ _).1 this).1 a rfl
        have hpre := good_children_prefix IN LN s h iid lo hi hlock hch j
          (le_of_lt hjlt) e₀ (hmem_pre 0 (by omega) e₀ he₀) _ hbj
        exact le_trans hae (le_trans (le_of_lt hpre) hkx)
    · intro b hb
      by_cases hj1 : j + 1 = (s.getInner iid).childs.length
      · refine ((inBnd_iff _ _ _).1 hxj).2 b ?_
        have hje : j = (s.getInner iid).keys.length := by omega
        rw [hje, boundsList_last, hb]
      · have hjk : j < (s.getInner iid).keys.length := by omega
        have hbj1 : (boundsList lo hi (s.getInner iid).keys).getD (j + 1) none =
            some ((s.getInner iid).keys.get ⟨j, hjk⟩) := by
          rw [boundsList_get? lo hi _ j hjk, List.get?_eq_get hjk]
        have hxk : x < (s.getInner iid).keys.get ⟨j, hjk⟩ :=
          ((inBnd_iff _ _ _).1 hxj).2 _ hbj1
        have hj1lt : j + 1 < (s.getInner iid).childs.length := by omega
        have hc1 := hch (j + 1) hj1lt
        have hent1 := good_entries IN LN s h _ _ _ hc1
        obtain ⟨e₁, he₁⟩ := List.exists_mem_of_ne_nil _ hent1.2.2
        have hm1 := hmem_suf (j + 1) (by omega) hj1lt e₁ he₁
        have hke : (s.getInner iid).keys.get ⟨j, hjk⟩ ≤ e₁.1 :=
          good_children_suffix IN LN s h iid lo hi hlock hch
            ((s.getInner iid).childs.length - (j + 1)) (j + 1) (by omega)
            e₁ hm1 _ hbj1
        have heb : e₁.1 < b :=
          good_children_suffix_upper IN LN s h iid lo hi hlock hch
            ((s.getInner iid).childs.length - (j + 1)) (j + 1) (by omega)
            e₁ hm1 b hb
        exact lt_trans (lt_of_lt_of_le hxk hke) heb
  · intro kv hkv x hx
    rcases List.mem_append.1 hkv with hin | hin
    · by_cases hj0 : j = 0
      · subst hj0
        simp at hin
      · have hjk : j - 1 < (s.getInner iid).keys.length := by omega
        have hj' : j - 1 + 1 = j := by omega
        have hbj : (boundsList lo hi (s.getInner iid).keys).getD j none =
            some ((s.getInner iid).keys.get ⟨j - 1, hjk⟩) := by
          have hb0 := boundsList_get? lo hi (s.getInner iid).keys (j - 1) hjk
          rw [List.get?_eq_get hjk, hj'] at hb0
          exact hb0
        have hpre := good_children_prefix IN LN s h iid lo hi hlock hch j
          (le_of_lt hjlt) kv hin _ hbj
        have hkx : (s.getInner iid).keys.get ⟨j - 1, hjk⟩ ≤ x :=
          ((inBnd_iff _ _ _).1 (hmono x hx)).1 _ hbj
        exact lt_of_lt_of_le hpre hkx
    · exact hAj kv hin x hx
  · intro kv hkv x hx
    rcases List.mem_append.1 hkv with hin | hin
    · exact hBj kv hin x hx
    · by_cases hj1 : j + 1 = (s.getInner iid).childs.length
      · rw [List.drop_eq_nil_of_le (by omega)] at hin
        simp at hin
      · have hjk : j < (s.getInner iid).keys.length := by omega
        have hbj1 : (boundsList lo hi (s.getInner iid).keys).getD (j + 1) none =
            some ((s.getInner iid).keys.get ⟨j, hjk⟩) := by
          rw [boundsList_get? lo hi _ j hjk, List.get?_eq_get hjk]
        have hxk : x < (s.getInner iid).keys.get ⟨j, hjk⟩ :=
          ((inBnd_iff _ _ _).1 (hmono x hx)).2 _ hbj1
        have hke : (s.getInner iid).keys.get ⟨j, hjk⟩ ≤ kv.1 :=
          good_children_suffix IN LN s h iid lo hi hlock hch
            ((s.getInner iid).childs.length - (j + 1)) (j + 1) (by omega)
            kv hin _ hbj1
        exact lt_of_lt_of_le hxk hke
  · intro leaf' hls hlb hlmn hlmx
    obtain ⟨hgj', hentj2, hfpI', hfpL'⟩ := hupd leaf' hls hlb hlmn hlmx
    have hleneq := setLeaf_lengths s lid leaf'
    have hginner : ∀ jj, (s.setLeaf lid leaf').getInner jj = s.getInner jj :=
      fun jj => getInner_setLeaf s lid leaf' jj
    have hsib : ∀ i, i < (s.getInner iid).childs.length → i ≠ j →
        Good IN LN (s.setLeaf lid leaf') h ((s.getInner iid).childs.getD i default)
          ((boundsList lo hi (s.getInner iid).keys).getD i none)
          ((boundsList lo hi (s.getInner iid).keys).getD (i + 1) none) ∧
        entriesAt (s.setLeaf lid leaf') h ((s.getInner iid).childs.getD i default) =
          entriesAt s h ((s.getInner iid).childs.getD i default) ∧
        fpInner (s.setLeaf lid leaf') h ((s.getInner iid).childs.getD i default) =
          fpInner s h ((s.getInner iid).childs.getD i default) ∧
        fpLeaf (s.setLeaf lid leaf') h ((s.getInner iid).childs.getD i default) =
          fpLeaf s h ((s.getInner iid).childs.getD i default) := by
      intro i hi hne
      refine good_frame IN LN s (s.setLeaf lid leaf') (le_of_eq hleneq.1.symm)
        (le_of_eq hleneq.2.symm) h _ _ _ (hch i hi) (fun jj _ => hginner jj) ?_
      intro jj hjj
      have hjj_ne : lid ≠ jj := by
        intro he
        subst he
        rcases Nat.lt_or_ge i j with hij | hij
        · exact hlid_pre (List.mem_flatten.2
            ⟨_, List.mem_map_of_mem _ (by
              have he2 : ((s.getInner iid).childs.take j).getD i default =
                  (s.getInner iid).childs.getD i default := getD_take default _ j i hij
              rw [← he2]
              exact getD_mem default _ i (by rw [List.length_take]; omega)), hjj⟩)
        · have hij' : j + 1 ≤ i := by omega
          exact hlid_suf (List.mem_flatten.2
            ⟨_, List.mem_map_of_mem _ (by
              have he2 : ((s.getInner iid).childs.drop (j + 1)).getD (i - (j + 1)) default =
                  (s.getInner iid).childs.getD i default := by
                rw [getD_drop]
                congr 1
                omega
              rw [← he2]
              exact getD_mem default _ _ (by rw [List.length_drop]; omega)), hjj⟩)
      exact congrArg LeafNode.data (getLeaf_setLeaf_ne s lid jj leaf' hjj_ne)
    have hmemeq : ∀ c' ∈ (s.getInner iid).childs.take j,
        entriesAt (s.setLeaf lid leaf') h c' = entriesAt s h c' ∧
        fpInner (s.setLeaf lid leaf') h c' = fpInner s h c' ∧
        fpLeaf (s.setLeaf lid leaf') h c' = fpLeaf s h c' := by
      intro c' hc'
      obtain ⟨⟨i, hilt⟩, hgi⟩ := List.mem_iff_get.1 hc'
      have hlt2 : i < j := by
        have := hilt
        rw [List.length_take] at this
        omega
      have hcd2 : (s.getInner iid).childs.getD i default = c' := by
        rw [← hgi, ← getD_eq_get default _ i hilt, getD_take default _ j i hlt2]
      have hr := hsib i (by omega) (by omega)
      rw [hcd2] at hr
      exact ⟨hr.2.1, hr.2.2.1, hr.2.2.2⟩
    have hmemeq2 : ∀ c' ∈ (s.getInner iid).childs.drop (j + 1),
        entriesAt (s.setLeaf lid leaf') h c' = entriesAt s h c' ∧
        fpInner (s.setLeaf lid leaf') h c' = fpInner s h c' ∧
        fpLeaf (s.setLeaf lid leaf') h c' = fpLeaf s h c' := by
      intro c' hc'
      obtain ⟨⟨i, hilt⟩, hgi⟩ := List.mem_iff_get.1 hc'
      have hlen2 : i < (s.getInner iid).childs.length - (j + 1) := by
        have := hilt
        rw [List.length_drop] at this
        omega
      have hcd2 : (s.getInner iid).childs.getD (j + 1 + i) default = c' := by
        rw [← hgi, ← getD_eq_get default _ i hilt, getD_drop]
      have hr := hsib (j + 1 + i) (by omega) (by omega)
      rw [hcd2] at hr
      exact ⟨hr.2.1, hr.2.2.1, hr.2.2.2⟩
    have hcdj2 : (s.getInner iid).childs.getD j default = c := hcd
    refine ⟨⟨?_, ?_, ?_, ?_, ?_⟩, ?_, ?_, ?_⟩
    · rw [hleneq.1]
      exact hv
    · rw [hginner iid]
      exact hlock
    · show m ≤ ((s.setLeaf lid leaf').getInner iid).size
      rw [hginner iid]
      exact hmin
    · show ((s.setLeaf lid leaf').getInner iid).size ≤ IN
      rw [hginner iid]
      exact hmax
    · rw [hginner iid]
      intro i hi
      by_cases hij : i = j
      · subst hij
        exact hgj'
      · exact (hsib i hi hij).1
    · rw [entriesAt_inner, hginner iid,
        flatten_split_at (entriesAt (s.setLeaf lid leaf') h) default
          (s.getInner iid).childs j hjlt]
      rw [List.map_congr_left (fun c' hc' => (hmemeq c' hc').1),
        List.map_congr_left (fun c' hc' => (hmemeq2 c' hc').1), hentj2]
      simp [List.append_assoc]
    · rw [fpInner_inner, fpInner_inner, hginner iid,
        flatten_split_at (fpInner (s.setLeaf lid leaf') h) default
          (s.getInner iid).childs j hjlt,
        flatten_split_at (fpInner s h) default (s.getInner iid).childs j hjlt]
      rw [List.map_congr_left (fun c' hc' => (hmemeq c' hc').2.1),
        List.map_congr_left (fun c' hc' => (hmemeq2 c' hc').2.1), hfpI']
    · rw [fpLeaf_inner, fpLeaf_inner, hginner iid,
        flatten_split_at (fpLeaf (s.setLeaf lid leaf') h) default
          (s.getInner iid).childs j hjlt,
        flatten_split_at (fpLeaf s h) default (s.getInner iid).childs j hjlt]
      rw [List.map_congr_left (fun c' hc' => (hmemeq c' hc').2.2),
        List.map_congr_left (fun c' hc' => (hmemeq2 c' hc').2.2), hfpL']

/-- Any leaf of a well-formed subtree has a full context, and overwriting it
with well-formed content in its interval keeps the subtree well formed. -/
theorem good_leaf_ctx [LinearOrder K] (IN LN : Nat) (s : NodeStoreVec K V) :
    ∀ (h : Nat) (id : NodeId) (lo hi : Option K),
      Good IN LN s h id lo hi →
      (fpLeaf s h id).Nodup →
      ∀ lid, lid ∈ fpLeaf s h id →
        LeafCtx IN LN s h id lo hi lid
          (fun s' => Good IN LN s' h id lo hi)
  | 0, .leaf lid', lo, hi, hg, _, lid, hmem => by
    rw [fpLeaf_leaf, List.mem_singleton] at hmem
    subst hmem
    refine ⟨lo, hi, [], [], hg, by simp [entriesAt_leaf], fun x hx => hx,
      by simp, by simp, ?_⟩
    intro leaf' hls hlb hlmn hlmx
    have hget : (s.setLeaf lid leaf').getLeaf lid = leaf' :=
      getLeaf_setLeaf_self s lid leaf' hg.1
    refine ⟨?_, ?_, ?_, ?_⟩
    · refine ⟨?_, ?_, ?_, ?_, ?_⟩
      · rw [(setLeaf_lengths s lid leaf').2]
        exact hg.1
      · rw [hget]
        exact hls
      · rw [hget]
        exact hlb
      · show LeafNode.minimumSize LN ≤ ((s.setLeaf lid leaf').getLeaf lid).size
        rw [hget]
        exact hlmn
      · show ((s.setLeaf lid leaf').getLeaf lid).size ≤ LN
        rw [hget]
        exact hlmx
    · rw [entriesAt_leaf, hget]
      simp
    · rw [fpInner_leaf, fpInner_leaf]
    · rw [fpLeaf_leaf, fpLeaf_leaf]
  | h + 1, .inner iid, lo, hi, hg, hnd, lid, hmem =>
    innerBody_leaf_ctx IN LN s h iid lo hi (InnerNode.minimumSize IN) hg hnd
      lid hmem
      (fun i hi2 hnd2 hmem2 =>
        good_leaf_ctx IN LN s h _ _ _ (hg.2.2.2.2 i hi2) hnd2 lid hmem2)
  | 0, .inner _, _, _, hg, _, _, _ => hg.elim
  | _ + 1, .leaf _, _, _, hg, _, _, _ => hg.elim

/-- Leaf context at an inner root: same as `good_leaf_ctx` but the root only
needs one separator. -/
theorem treeAt_inner_leaf_ctx [LinearOrder K] (IN LN : Nat)
    (s : NodeStoreVec K V) (h iid : Nat)
    (hg : TreeAt IN LN s (h + 1) (.inner iid))
    (hnd : (fpLeaf s (h + 1) (.inner iid)).Nodup)
    (lid : Nat) (hmem : lid ∈ fpLeaf s (h + 1) (.inner iid)) :
    LeafCtx IN LN s (h + 1) (.inner iid) none none lid
      (fun s' => TreeAt IN LN s' (h + 1) (.inner iid)) :=
  innerBody_leaf_ctx IN LN s h iid none none 1 hg hnd lid hmem
    (fun i hi2 hnd2 hmem2 =>
      good_leaf_ctx IN LN s h _ _ _ (hg.2.2.2.2 i hi2) hnd2 lid hmem2)

/-! ### More lookup, upsert and erase lemmas on sorted association lists -/

theorem lookupList_append_left [LinearOrder K] (k : K) (w : V) :
    ∀ (A B : List (K × V)), lookupList k A = some w →
      lookupList k (A ++ B) = some w
  | [], _, h => by simp [lookupList] at h
  | a :: A, B, h => by
    by_cases ha : a.1 = k
    · rw [lookupList, if_pos ha] at h
      rw [List.cons_append, lookupList, if_pos ha]
      exact h
    · rw [lookupList, if_neg ha] at h
      rw [List.cons_append, lookupList, if_neg ha]
      exact lookupList_append_left k w A B h

theorem lookupList_mem [LinearOrder K] (k : K) :
    ∀ (es : List (K × V)), k ∈ keysOf es → ∃ w, lookupList k es = some w
  | [], h => by simp [keysOf] at h
  | a :: es, h => by
    by_cases ha : a.1 = k
    · exact ⟨a.2, by rw [lookupList, if_pos ha]⟩
    · rcases mem_keysOf_cons.1 h with he | hm
      · exact absurd he.symm ha
      · obtain ⟨w, hw⟩ := lookupList_mem k es hm
        exact ⟨w, by rw [lookupList, if_neg ha]; exact hw⟩

theorem lookupList_none_iff [LinearOrder K] (k : K) (es : List (K × V)) :
    lookupList k es = none ↔ k ∉ keysOf es := by
  constructor
  · intro h hm
    obtain ⟨w, hw⟩ := lookupList_mem k es hm
    rw [h] at hw
    cases hw
  · exact lookupList_eq_none k es

theorem sortedKeys_cons [LinearOrder K] (a : K × V) (es : List (K × V))
    (hs : SortedKeys (a :: es)) :
    SortedKeys es ∧ ∀ x ∈ keysOf es, a.1 < x := by
  rw [sortedKeys_iff_pairwise, keysOf_cons, List.pairwise_cons] at hs
  exact ⟨(sortedKeys_iff_pairwise es).2 hs.2, hs.1⟩

theorem sorted_split_notMem [LinearOrder K] (k : K) :
    ∀ (es : List (K × V)), SortedKeys es → k ∉ keysOf es →
      ∃ A B, es = A ++ B ∧ (∀ x ∈ keysOf A, x < k) ∧
        (∀ x ∈ keysOf B, k < x)
  | [], _, _ => ⟨[], [], rfl, by simp [keysOf], by simp [keysOf]⟩
  | a :: es, hs, hm => by
    obtain ⟨hs', ha'⟩ := sortedKeys_cons a es hs
    have hak : a.1 ≠ k := fun he => hm (mem_keysOf_cons.2 (Or.inl he.symm))
    rcases lt_or_gt_of_ne hak with hlt | hgt
    · obtain ⟨A, B, he, hA, hB⟩ := sorted_split_notMem k es hs'
        (fun hmm => hm (mem_keysOf_cons.2 (Or.inr hmm)))
      refine ⟨a :: A, B, by rw [he, List.cons_append], ?_, hB⟩
      intro x hx
      rcases mem_keysOf_cons.1 hx with rfl | hx'
      · exact hlt
      · exact hA x hx'
    · refine ⟨[], a :: es, rfl, by simp [keysOf], ?_⟩
      intro x hx
      rcases mem_keysOf_cons.1 hx with rfl | hx'
      · exact hgt
      · exact lt_trans hgt (ha' x hx')

theorem sorted_split_mem [LinearOrder K] (k : K) :
    ∀ (es : List (K × V)), SortedKeys es → k ∈ keysOf es →
      ∃ v₀ A B, es = A ++ (k, v₀) :: B ∧ (∀ x ∈ keysOf A, x < k) ∧
        (∀ x ∈ keysOf B, k < x)
  | [], _, hm => by simp [keysOf] at hm
  | a :: es, hs, hm => by
    obtain ⟨hs', ha'⟩ := sortedKeys_cons a es hs
    by_cases hak : a.1 = k
    · refine ⟨a.2, [], es, ?_, by simp [keysOf], ?_⟩
      · rw [List.nil_append]
        rw [show ((k, a.2) : K × V) = a from by rw [← hak]]
      · intro x hx
        rw [← hak]
        exact ha' x hx
    · rcases mem_keysOf_cons.1 hm with he | hm'
      · exact absurd he.symm hak
      · obtain ⟨v₀, A, B, he, hA, hB⟩ := sorted_split_mem k es hs' hm'
        refine ⟨v₀, a :: A, B, by rw [he, List.cons_append], ?_, hB⟩
        intro x hx
        rcases mem_keysOf_cons.1 hx with rfl | hx'
        · exact ha' k (by rw [he, keysOf_append]; simp [keysOf])
        · exact hA x hx'

theorem sorted_lookup_split [LinearOrder K] (k : K) (v₀ : V)
    (es : List (K × V)) (hs : SortedKeys es)
    (hl : lookupList k es = some v₀) :
    ∃ A B, es = A ++ (k, v₀) :: B ∧ (∀ x ∈ keysOf A, x < k) ∧
      (∀ x ∈ keysOf B, k < x) := by
  have hm : k ∈ keysOf es := by
    by_contra hm
    rw [lookupList_eq_none k es hm] at hl
    cases hl
  obtain ⟨v₁, A, B, he, hA, hB⟩ := sorted_split_mem k es hs hm
  have : lookupList k es = some v₁ := by
    rw [he, lookupList_append_of_notMem k A _ (fun x hx => ne_of_lt (hA x hx)),
      lookupList_cons_self]
  rw [hl] at this
  cases this
  exact ⟨A, B, he, hA, hB⟩

theorem count_keys_split [LinearOrder K] (k : K) (v : V) (A B : List (K × V))
    (hA : ∀ x ∈ keysOf A, x < k) (hB : ∀ x ∈ keysOf B, k < x) :
    (keysOf (A ++ (k, v) :: B)).count k = 1 := by
  rw [keysOf_append, keysOf_cons, List.count_append, List.count_cons_self]
  have h1 : (keysOf A).count k = 0 :=
    List.count_eq_zero.2 (fun hm => absurd (hA k hm) (lt_irrefl k))
  have h2 : (keysOf B).count k = 0 :=
    List.count_eq_zero.2 (fun hm => absurd (hB k hm) (lt_irrefl k))
  rw [h1, h2]

theorem upsertList_append_mid [LinearOrder K] (k : K) (v : V)
    (P M S : List (K × V)) (hP : ∀ x ∈ keysOf P, x < k)
    (hS : ∀ x ∈ keysOf S, k < x) (hM : SortedKeys M) :
    upsertList k v (P ++ M ++ S) = P ++ upsertList k v M ++ S := by
  by_cases hm : k ∈ keysOf M
  · obtain ⟨v₀, A, B, he, hA, hB⟩ := sorted_split_mem k M hM hm
    rw [he]
    have h1 : upsertList k v (A ++ (k, v₀) :: B) = A ++ (k, v) :: B :=
      upsertList_split_mem k v v₀ A B hA
    have h2 : P ++ (A ++ (k, v₀) :: B) ++ S =
        (P ++ A) ++ (k, v₀) :: (B ++ S) := by
      simp [List.append_assoc]
    rw [h2, upsertList_split_mem k v v₀ (P ++ A) (B ++ S) ?_, h1]
    · simp [List.append_assoc]
    · intro x hx
      rw [keysOf_append, List.mem_append] at hx
      rcases hx with hx | hx
      · exact hP x hx
      · exact hA x hx
  · obtain ⟨A, B, he, hA, hB⟩ := sorted_split_notMem k M hM hm
    rw [he]
    have h1 : upsertList k v (A ++ B) = A ++ (k, v) :: B :=
      upsertList_split_notMem k v A B hA hB
    have h2 : P ++ (A ++ B) ++ S = (P ++ A) ++ (B ++ S) := by
      simp [List.append_assoc]
    rw [h2, upsertList_split_notMem k v (P ++ A) (B ++ S) ?_ ?_, h1]
    · simp [List.append_assoc]
    · intro x hx
      rw [keysOf_append, List.mem_append] at hx
      rcases hx with hx | hx
      · exact hP x hx
      · exact hA x hx
    · intro x hx
      rw [keysOf_append, List.mem_append] at hx
      rcases hx with hx | hx
      · exact hB x hx
      · exact hS x hx

theorem eraseKeyList_append_mid [LinearOrder K] (k : K)
    (P M S : List (K × V)) (hP : ∀ x ∈ keysOf P, x < k)
    (hS : ∀ x ∈ keysOf S, k < x) (hM : SortedKeys M) :
    eraseKeyList k (P ++ M ++ S) = P ++ eraseKeyList k M ++ S := by
  by_cases hm : k ∈ keysOf M
  · obtain ⟨v₀, A, B, he, hA, hB⟩ := sorted_split_mem k M hM hm
    rw [he]
    have h1 : eraseKeyList k (A ++ (k, v₀) :: B) = A ++ B :=
      eraseKeyList_split_mem k v₀ A B (fun x hx => ne_of_lt (hA x hx))
    have h2 : P ++ (A ++ (k, v₀) :: B) ++ S =
        (P ++ A) ++ (k, v₀) :: (B ++ S) := by
      simp [List.append_assoc]
    rw [h2, eraseKeyList_split_mem k v₀ (P ++ A) (B ++ S) ?_, h1]
    · simp [List.append_assoc]
    · intro x hx
      rw [keysOf_append, List.mem_append] at hx
      rcases hx with hx | hx
      · exact ne_of_lt (hP x hx)
      · exact ne_of_lt (hA x hx)
  · have hall : k ∉ keysOf (P ++ M ++ S) := by
      intro hx
      rw [keysOf_append, keysOf_append, List.mem_append, List.mem_append] at hx
      rcases hx with (hx | hx) | hx
      · exact absurd (hP k hx) (lt_irrefl k)
      · exact hm hx
      · exact absurd (hS k hx) (lt_irrefl k)
    rw [eraseKeyList_eq_self k _ hall, eraseKeyList_eq_self k M hm]

theorem lookupList_append_mid [LinearOrder K] (k : K)
    (P M S : List (K × V)) (hP : ∀ x ∈ keysOf P, x < k)
    (hS : ∀ x ∈ keysOf S, k < x) :
    lookupList k (P ++ M ++ S) = lookupList k M := by
  rw [List.append_assoc,
    lookupList_append_of_notMem k P _ (fun x hx => ne_of_lt (hP x hx))]
  rcases hl : lookupList k M with _ | w
  · rw [lookupList_append_of_notMem k M S ?_, lookupList_eq_none k S ?_]
    · intro hx
      exact absurd (hS k hx) (lt_irrefl k)
    · intro x hx he
      subst he
      exact (lookupList_none_iff x M).1 hl hx
  · exact lookupList_append_left k w M S hl

theorem get?_keysOf {K V : Type} (es : List (K × V)) (i : Nat) (k : K)
    (h : (keysOf es).get? i = some k) : ∃ w, es.get? i = some (k, w) := by
  unfold keysOf at h
  rw [List.get?_eq_getElem?, List.getElem?_map] at h
  rcases he : es[i]? with _ | kv
  · rw [he] at h
    cases h
  · rw [he] at h
    have hk : kv.1 = k := Option.some.inj h
    exact ⟨kv.2, by rw [List.get?_eq_getElem?, he, ← hk]⟩

/-! ### Store constructor access lemmas -/

theorem reserveLeaf_fst (s : NodeStoreVec K V) :
    (s.reserveLeaf).1 = s.leafNodes.length := rfl

theorem getLeaf_reserveLeaf_lt (s : NodeStoreVec K V) (id : Nat)
    (h : id < s.leafNodes.length) :
    (s.reserveLeaf).2.getLeaf id = s.getLeaf id := by
  show (s.leafNodes ++ [default]).getD id default = s.leafNodes.getD id default
  rw [List.getD_append _ _ _ _ h]

theorem getLeaf_reserveLeaf_self (s : NodeStoreVec K V) :
    (s.reserveLeaf).2.getLeaf s.leafNodes.length = default := by
  show (s.leafNodes ++ [default]).getD s.leafNodes.length default = default
  rw [List.getD_eq_getElem?_getD, List.getElem?_append_right (le_refl _)]
  simp

theorem getInner_reserveLeaf (s : NodeStoreVec K V) (j : Nat) :
    (s.reserveLeaf).2.getInner j = s.getInner j := rfl

theorem reserveLeaf_lengths (s : NodeStoreVec K V) :
    (s.reserveLeaf).2.innerNodes.length = s.innerNodes.length ∧
    (s.reserveLeaf).2.leafNodes.length = s.leafNodes.length + 1 := by
  constructor
  · rfl
  · show (s.leafNodes ++ [default]).length = _
    simp

theorem reserveLeaf_cache (s : NodeStoreVec K V) :
    (s.reserveLeaf).2.cache = s.cache := rfl

theorem addInner_fst (s : NodeStoreVec K V) (n : InnerNode K) :
    (s.addInner n).1 = s.innerNodes.length := rfl

theorem getInner_addInner_lt (s : NodeStoreVec K V) (n : InnerNode K)
    (j : Nat) (h : j < s.innerNodes.length) :
    (s.addInner n).2.getInner j = s.getInner j := by
  show (s.innerNodes ++ [n]).getD j default = s.innerNodes.getD j default
  rw [List.getD_append _ _ _ _ h]

theorem getInner_addInner_self (s : NodeStoreVec K V) (n : InnerNode K) :
    (s.addInner n).2.getInner s.innerNodes.length = n := by
  show (s.innerNodes ++ [n]).getD s.innerNodes.length default = n
  rw [List.getD_eq_getElem?_getD, List.getElem?_append_right (le_refl _)]
  simp

theorem getLeaf_addInner (s : NodeStoreVec K V) (n : InnerNode K) (j : Nat) :
    (s.addInner n).2.getLeaf j = s.getLeaf j := rfl

theorem addInner_lengths (s : NodeStoreVec K V) (n : InnerNode K) :
    (s.addInner n).2.innerNodes.length = s.innerNodes.length + 1 ∧
    (s.addInner n).2.leafNodes.length = s.leafNodes.length := by
  constructor
  · show (s.innerNodes ++ [n]).length = _
    simp
  · rfl

theorem addInner_cache (s : NodeStoreVec K V) (n : InnerNode K) :
    (s.addInner n).2.cache = s.cache := rfl

theorem assignLeaf_eq_setLeaf (s : NodeStoreVec K V) (id : Nat)
    (leaf : LeafNode K V) : s.assignLeaf id leaf = s.setLeaf id leaf := rfl

theorem cacheLeaf_getLeaf (s : NodeStoreVec K V) (id j : Nat) :
    (s.cacheLeaf id).getLeaf j = s.getLeaf j := rfl

theorem cacheLeaf_getInner (s : NodeStoreVec K V) (id j : Nat) :
    (s.cacheLeaf id).getInner j = s.getInner j := rfl

theorem cacheLeaf_fields (s : NodeStoreVec K V) (id : Nat) :
    (s.cacheLeaf id).innerNodes = s.innerNodes ∧
    (s.cacheLeaf id).leafNodes = s.leafNodes ∧
    (s.cacheLeaf id).cache = some id :=
  ⟨rfl, rfl, rfl⟩

theorem setLeaf_cache (s : NodeStoreVec K V) (id : Nat) (leaf : LeafNode K V) :
    (s.setLeaf id leaf).cache = s.cache := rfl

theorem setInner_cache (s : NodeStoreVec K V) (id : Nat) (n : InnerNode K) :
    (s.setInner id n).cache = s.cache := rfl

theorem takeLeaf_eq (s : NodeStoreVec K V) (id : Nat) :
    (s.takeLeaf id).1 = s.getLeaf id ∧
    (s.takeLeaf id).2 = s.setLeaf id default :=
  ⟨rfl, rfl⟩

theorem takeInner_eq (s : NodeStoreVec K V) (id : Nat) :
    (s.takeInner id).1 = s.getInner id ∧
    (s.takeInner id).2 = s.setInner id default :=
  ⟨rfl, rfl⟩

/-- Footprints only read the inner nodes: stores with the same inner nodes
have the same footprints everywhere. -/
theorem fp_congr {s s' : NodeStoreVec K V}
    (hinner : s'.innerNodes = s.innerNodes) :
    ∀ (h : Nat) (id : NodeId),
      fpInner s' h id = fpInner s h id ∧ fpLeaf s' h id = fpLeaf s h id := by
  have hgi : ∀ j, s'.getInner j = s.getInner j := by
    intro j
    unfold NodeStoreVec.getInner
    rw [hinner]
  intro h
  induction h with
  | zero =>
    intro id
    cases id with
    | leaf lid => exact ⟨rfl, rfl⟩
    | inner iid => exact ⟨rfl, rfl⟩
  | succ h IH =>
    intro id
    cases id with
    | leaf lid => exact ⟨rfl, rfl⟩
    | inner iid =>
      constructor
      · rw [fpInner_inner, fpInner_inner, hgi]
        exact congrArg (iid :: ·) (congrArg List.flatten
          (List.map_congr_left (fun c _ => (IH c).1)))
      · rw [fpLeaf_inner, fpLeaf_inner, hgi]
        exact congrArg List.flatten
          (List.map_congr_left (fun c _ => (IH c).2))

/-- Weakening the separator minimum of an inner node. -/
theorem innerBody_weaken [LinearOrder K] (IN : Nat) (s : NodeStoreVec K V)
    (P : NodeId → Option K → Option K → Prop) (iid : Nat)
    (lo hi : Option K) (m m' : Nat) (hm : m' ≤ m)
    (hb : InnerBody IN s P iid lo hi m) : InnerBody IN s P iid lo hi m' :=
  ⟨hb.1, hb.2.1, le_trans hm hb.2.2.1, hb.2.2.2⟩

/-- A subtree that is well formed with the non-root minima is in particular
an admissible root subtree. -/
theorem good_to_treeAt [LinearOrder K] (IN LN : Nat) (s : NodeStoreVec K V)
    (hIN : 2 ≤ IN) :
    ∀ (h : Nat) (id : NodeId), Good IN LN s h id none none →
      TreeAt IN LN s h id := by
  intro h id hG
  match h, id with
  | 0, .leaf lid =>
    obtain ⟨h1, h2, _, _, h5⟩ := (good_leaf_iff IN LN s lid none none).1 hG
    exact ⟨h1, h2, h5⟩
  | h + 1, .leaf lid => exact hG.elim
  | 0, .inner iid => exact hG.elim
  | h + 1, .inner iid =>
    exact innerBody_weaken IN s _ iid none none _ 1
      (by unfold InnerNode.minimumSize; omega) hG

/-! ### Leaf operation case analyses -/

theorem keysOf_take {K V : Type} (es : List (K × V)) (n : Nat) :
    keysOf (es.take n) = (keysOf es).take n := by
  unfold keysOf
  rw [List.map_take]

theorem keysOf_drop {K V : Type} (es : List (K × V)) (n : Nat) :
    keysOf (es.drop n) = (keysOf es).drop n := by
  unfold keysOf
  rw [List.map_drop]

theorem keysOf_length {K V : Type} (es : List (K × V)) :
    (keysOf es).length = es.length := List.length_map es Prod.fst

/-- Full case analysis of `try_upsert` on a sorted leaf. -/
theorem tryUpsert_cases [LinearOrder K] (N : Nat) (l : LeafNode K V) (k : K)
    (v : V) (hs : SortedKeys l.data) :
    (∃ v₀ A B, l.data = A ++ (k, v₀) :: B ∧
      (∀ x ∈ keysOf A, x < k) ∧ (∀ x ∈ keysOf B, k < x) ∧
      l.tryUpsert N k v =
        ({ l with data := A ++ (k, v) :: B }, .updated v₀)) ∨
    (k ∉ keysOf l.data ∧ l.data.length ≠ N ∧
      ∃ A B, l.data = A ++ B ∧
        (∀ x ∈ keysOf A, x < k) ∧ (∀ x ∈ keysOf B, k < x) ∧
        l.tryUpsert N k v =
          ({ l with data := A ++ (k, v) :: B }, .inserted)) ∨
    (k ∉ keysOf l.data ∧ l.data.length = N ∧
      ∃ idx, idx ≤ l.data.length ∧
        (∀ x ∈ keysOf (l.data.take idx), x < k) ∧
        (∀ x ∈ keysOf (l.data.drop idx), k < x) ∧
        l.tryUpsert N k v = (l, .isFull idx)) := by
  have hp : List.Pairwise (· < ·) l.keys :=
    (sortedKeys_iff_pairwise l.data).1 hs
  rcases hr : l.locateSlot k with idx | idx
  · have hf := locateList_found k l.keys hp idx hr
    obtain ⟨w, hw⟩ := get?_keysOf l.data idx k hf.1
    have hkl : l.keys.length = l.data.length := keysOf_length l.data
    have hlt : idx < l.data.length := by
      by_contra hge
      have hnone : l.keys.get? idx = none := List.get?_eq_none.mpr (by omega)
      rw [hnone] at hf
      exact Option.noConfusion hf.1
    left
    refine ⟨w, l.data.take idx, l.data.drop (idx + 1),
      eq_take_cons_drop (k, w) l.data idx hw, ?_, ?_, ?_⟩
    · intro x hx
      rw [keysOf_take] at hx
      exact hf.2.1 x hx
    · intro x hx
      rw [keysOf_drop] at hx
      exact hf.2.2 x hx
    · have hset : l.data.set idx (k, v) =
          l.data.take idx ++ (k, v) :: l.data.drop (idx + 1) :=
        set_eq_take_cons_drop (k, v) l.data idx hlt
      simp only [LeafNode.tryUpsert, hr, hw]
      rw [hset]
  · have hf := locateList_notFound k l.keys hp idx hr
    have hkl : l.keys.length = l.data.length := keysOf_length l.data
    by_cases hfull : l.data.length = N
    · right
      right
      refine ⟨hf.2.1, hfull, idx, by omega, ?_, ?_, ?_⟩
      · intro x hx
        rw [keysOf_take] at hx
        exact hf.2.2.1 x hx
      · intro x hx
        rw [keysOf_drop] at hx
        exact hf.2.2.2 x hx
      · have hfb : l.isFull N = true := by
          unfold LeafNode.isFull LeafNode.size
          simp [hfull]
        simp only [LeafNode.tryUpsert, hr, hfb, if_true]
    · right
      left
      refine ⟨hf.2.1, hfull, l.data.take idx, l.data.drop idx,
        (List.take_append_drop idx l.data).symm, ?_, ?_, ?_⟩
      · intro x hx
        rw [keysOf_take] at hx
        exact hf.2.2.1 x hx
      · intro x hx
        rw [keysOf_drop] at hx
        exact hf.2.2.2 x hx
      · have hfb : l.isFull N = false := by
          unfold LeafNode.isFull LeafNode.size
          simp [hfull]
        have hins : l.data.insertIdx idx (k, v) =
            l.data.take idx ++ (k, v) :: l.data.drop idx :=
          insertIdx_eq_take_cons_drop (k, v) idx l.data (by omega)
        simp only [LeafNode.tryUpsert, hr, hfb, Bool.false_eq_true, if_false]
        rw [hins]

/-- Full case analysis of `delete` on a sorted leaf. -/
theorem tryDelete_cases [LinearOrder K] (N : Nat) (l : LeafNode K V) (k : K)
    (hs : SortedKeys l.data) :
    (k ∉ keysOf l.data ∧ l.tryDelete N k = (l, .notFound)) ∨
    (LeafNode.minimumSize N < l.data.length ∧
      ∃ v₀ A B, l.data = A ++ (k, v₀) :: B ∧
        (∀ x ∈ keysOf A, x < k) ∧ (∀ x ∈ keysOf B, k < x) ∧
        l.tryDelete N k = ({ l with data := A ++ B }, .done (k, v₀))) ∨
    (l.data.length ≤ LeafNode.minimumSize N ∧ k ∈ keysOf l.data ∧
      ∃ idx v₀, l.data.get? idx = some (k, v₀) ∧
        (∀ x ∈ keysOf (l.data.take idx), x < k) ∧
        (∀ x ∈ keysOf (l.data.drop (idx + 1)), k < x) ∧
        l.tryDelete N k = (l, .underSize idx)) := by
  have hp : List.Pairwise (· < ·) l.keys :=
    (sortedKeys_iff_pairwise l.data).1 hs
  rcases hr : l.locateSlot k with idx | idx
  · have hf := locateList_found k l.keys hp idx hr
    obtain ⟨w, hw⟩ := get?_keysOf l.data idx k hf.1
    have hkmem : k ∈ keysOf l.data := by
      have := List.get?_mem hf.1
      exact this
    by_cases hlend : LeafNode.minimumSize N < l.data.length
    · right
      left
      refine ⟨hlend, w, l.data.take idx, l.data.drop (idx + 1),
        eq_take_cons_drop (k, w) l.data idx hw, ?_, ?_, ?_⟩
      · intro x hx
        rw [keysOf_take] at hx
        exact hf.2.1 x hx
      · intro x hx
        rw [keysOf_drop] at hx
        exact hf.2.2 x hx
      · have hlb : l.ableToLend N = true := by
          unfold LeafNode.ableToLend LeafNode.size
          simp [hlend]
        simp only [LeafNode.tryDelete, hr, hlb, if_true, hw]
        rw [eraseIdx_eq_take_drop l.data idx]
    · right
      right
      refine ⟨by omega, hkmem, idx, w, hw, ?_, ?_, ?_⟩
      · intro x hx
        rw [keysOf_take] at hx
        exact hf.2.1 x hx
      · intro x hx
        rw [keysOf_drop] at hx
        exact hf.2.2 x hx
      · have hlb : l.ableToLend N = false := by
          unfold LeafNode.ableToLend LeafNode.size
          simp
          omega
        simp only [LeafNode.tryDelete, hr, hlb, Bool.false_eq_true, if_false]
  · have hf := locateList_notFound k l.keys hp idx hr
    left
    refine ⟨hf.2.1, ?_⟩
    simp only [LeafNode.tryDelete, hr]

/-- Raw split computation of `split_new_leaf`: data concatenation, part
lengths, and the surviving `next` link. -/
theorem splitNewLeaf_parts [LinearOrder K] (N : Nat) (l : LeafNode K V)
    (idx : Nat) (item : K × V) (newId selfId : Nat)
    (hfull : l.data.length = N) (hidx : idx ≤ N) :
    (l.splitNewLeaf N idx item newId selfId).1.data ++
        (l.splitNewLeaf N idx item newId selfId).2.data =
      l.data.insertIdx idx item ∧
    (l.splitNewLeaf N idx item newId selfId).1.data.length =
      (if idx < N / 2 then N / 2 + 1 else N / 2) ∧
    (l.splitNewLeaf N idx item newId selfId).2.data.length =
      (if idx < N / 2 then N - N / 2 else N - N / 2 + 1) ∧
    (l.splitNewLeaf N idx item newId selfId).2.next = l.next := by
  have hm : N / 2 ≤ N := Nat.div_le_self N 2
  by_cases hc : idx < N / 2
  · have e : l.splitNewLeaf N idx item newId selfId =
        ({ data := (l.data.take (N / 2)).insertIdx idx item,
           prev := l.prev, next := some newId },
         { data := l.data.drop (N / 2), prev := some selfId,
           next := l.next }) := by
      simp [LeafNode.splitNewLeaf, LeafNode.splitOriginSize, hc]
    rw [e, if_pos hc, if_pos hc]
    have hi : idx ≤ (l.data.take (N / 2)).length := by
      rw [List.length_take]
      omega
    refine ⟨?_, ?_, by rw [List.length_drop]; omega, rfl⟩
    · show (l.data.take (N / 2)).insertIdx idx item ++ l.data.drop (N / 2) =
        l.data.insertIdx idx item
      rw [insertIdx_eq_take_cons_drop item idx _ hi,
        insertIdx_eq_take_cons_drop item idx _ (by omega)]
      have ht : (l.data.take (N / 2)).take idx = l.data.take idx := by
        rw [List.take_take]
        congr 1
        omega
      rw [ht, List.append_assoc, List.cons_append,
        drop_take_append_drop l.data idx (N / 2) (by omega)]
    · show ((l.data.take (N / 2)).insertIdx idx item).length = N / 2 + 1
      rw [insertIdx_eq_take_cons_drop item idx _ hi]
      simp only [List.length_append, List.length_cons, List.length_take,
        List.length_drop]
      omega
  · have e : l.splitNewLeaf N idx item newId selfId =
        ({ data := l.data.take (N / 2), prev := l.prev, next := some newId },
         { data := (l.data.drop (N / 2)).insertIdx (idx - N / 2) item,
           prev := some selfId, next := l.next }) := by
      simp [LeafNode.splitNewLeaf, LeafNode.splitOriginSize, hc]
    rw [e, if_neg hc, if_neg hc]
    have hi : idx - N / 2 ≤ (l.data.drop (N / 2)).length := by
      rw [List.length_drop]
      omega
    refine ⟨?_, by rw [List.length_take]; omega, ?_, rfl⟩
    · show l.data.take (N / 2) ++
          (l.data.drop (N / 2)).insertIdx (idx - N / 2) item =
        l.data.insertIdx idx item
      rw [insertIdx_eq_take_cons_drop item _ _ hi,
        insertIdx_eq_take_cons_drop item idx _ (by omega)]
      rw [← List.append_assoc,
        take_append_take_drop l.data idx (N / 2) (by omega)]
      congr 2
      rw [List.drop_drop]
      congr 1
      omega
    · show ((l.data.drop (N / 2)).insertIdx (idx - N / 2) item).length =
        N - N / 2 + 1
      rw [insertIdx_eq_take_cons_drop item _ _ hi]
      simp only [List.length_append, List.length_cons, List.length_take,
        List.length_drop]
      omega

/-! ### Inner-node entry assembly, minimum-agnostic -/

/-- Separator keys of any `InnerBody` node are strictly sorted, whatever its
minimum. -/
theorem innerBody_keys_sorted [LinearOrder K] (IN LN : Nat)
    (s : NodeStoreVec K V) (h iid : Nat) (lo hi : Option K) (m : Nat)
    (hb : InnerBody IN s (Good IN LN s h) iid lo hi m) :
    List.Pairwise (· < ·) (s.getInner iid).keys := by
  obtain ⟨_, hlock, _, _, hch⟩ := hb
  rw [← List.chain'_iff_pairwise]
  rw [List.chain'_iff_get]
  intro i hi1
  have hi1' : i + 1 < (s.getInner iid).keys.length := by
    omega
  have hchild := hch (i + 1) (by omega)
  have hent := good_entries IN LN s h _ _ _ hchild
  obtain ⟨e, he⟩ := List.exists_mem_of_ne_nil _ hent.2.2
  have hbl : (boundsList lo hi (s.getInner iid).keys).getD (i + 1) none =
      some ((s.getInner iid).keys.get ⟨i, by omega⟩) := by
    rw [boundsList_get? lo hi _ i (by omega), List.get?_eq_get]
  have hbu : (boundsList lo hi (s.getInner iid).keys).getD (i + 2) none =
      some ((s.getInner iid).keys.get ⟨i + 1, hi1'⟩) := by
    rw [boundsList_get? lo hi _ (i + 1) hi1', List.get?_eq_get]
  have hb2 := hent.2.1 e he
  rw [hbl, hbu] at hb2
  have h1 := ((inBnd_iff _ _ _).1 hb2).1 _ rfl
  have h2 := ((inBnd_iff _ _ _).1 hb2).2 _ rfl
  exact lt_of_le_of_lt h1 h2

/-- Entries of any `InnerBody` node are sorted, bounded and non-empty,
whatever its minimum. -/
theorem innerBody_entries [LinearOrder K] (IN LN : Nat)
    (s : NodeStoreVec K V) (h iid : Nat) (lo hi : Option K) (m : Nat)
    (hb : InnerBody IN s (Good IN LN s h) iid lo hi m) :
    SortedKeys (entriesAt s (h + 1) (.inner iid)) ∧
    (∀ kv ∈ entriesAt s (h + 1) (.inner iid), inBnd lo hi kv.1) ∧
    entriesAt s (h + 1) (.inner iid) ≠ [] := by
  obtain ⟨hvalid, hlock, hmin, hmax, hch⟩ := hb
  have aux : ∀ n j, j + n = (s.getInner iid).childs.length →
      SortedKeys ((((s.getInner iid).childs.drop j).map
        (entriesAt s h)).flatten) ∧
      (∀ kv ∈ (((s.getInner iid).childs.drop j).map (entriesAt s h)).flatten,
        inBnd ((boundsList lo hi (s.getInner iid).keys).getD j none) hi kv.1) ∧
      (j < (s.getInner iid).childs.length →
        (((s.getInner iid).childs.drop j).map (entriesAt s h)).flatten ≠ []) := by
    intro n
    induction n with
    | zero =>
      intro j hj
      have : (s.getInner iid).childs.drop j = [] :=
        List.drop_eq_nil_of_le (by omega)
      rw [this]
      refine ⟨by simp [SortedKeys, keysOf], by simp,
        fun hlt => absurd hlt (by omega)⟩
    | succ n ihn =>
      intro j hj
      have hjlt : j < (s.getInner iid).childs.length := by omega
      rw [drop_eq_getD_cons default _ j hjlt, List.map_cons, List.flatten_cons]
      have hchild := hch j hjlt
      have ihc := good_entries IN LN s h ((s.getInner iid).childs.getD j default)
        ((boundsList lo hi (s.getInner iid).keys).getD j none)
        ((boundsList lo hi (s.getInner iid).keys).getD (j + 1) none) hchild
      have ihrest := ihn (j + 1) (by omega)
      by_cases hj1 : j + 1 < (s.getInner iid).childs.length
      · have hjk : j < (s.getInner iid).keys.length := by omega
        have hget : (s.getInner iid).keys.get? j =
            some ((s.getInner iid).keys.get ⟨j, hjk⟩) := List.get?_eq_get hjk
        set kj := (s.getInner iid).keys.get ⟨j, hjk⟩ with hkjdef
        have hbmid : (boundsList lo hi (s.getInner iid).keys).getD (j + 1) none =
            some kj := by
          rw [boundsList_get? lo hi (s.getInner iid).keys j hjk, hget]
        rw [hbmid] at ihc
        rw [hbmid] at ihrest
        set ce := entriesAt s h ((s.getInner iid).childs.getD j default)
          with hcedef
        set rest := (((s.getInner iid).childs.drop (j + 1)).map
          (entriesAt s h)).flatten with hrestdef
        have hrest_ne : rest ≠ [] := ihrest.2.2 hj1
        obtain ⟨b₀, hb₀⟩ := List.exists_mem_of_ne_nil rest hrest_ne
        have hce_ne : ce ≠ [] := ihc.2.2
        obtain ⟨c₀, hc₀⟩ := List.exists_mem_of_ne_nil ce hce_ne
        have hkj_le_b : ∀ kv ∈ rest, kj ≤ kv.1 := fun kv hkv =>
          ((inBnd_iff _ _ _).1 (ihrest.2.1 kv hkv)).1 kj rfl
        have hc_lt_kj : ∀ kv ∈ ce, kv.1 < kj := fun kv hkv =>
          ((inBnd_iff _ _ _).1 (ihc.2.1 kv hkv)).2 kj rfl
        refine ⟨?_, ?_, fun _ => ?_⟩
        · exact sortedKeys_append_of ce rest ihc.1 ihrest.1 (by
            intro a ha b hb
            obtain ⟨kva, hkva, rfl⟩ := (mem_keysOf_iff a ce).1 ha
            obtain ⟨kvb, hkvb, rfl⟩ := (mem_keysOf_iff b rest).1 hb
            exact lt_of_lt_of_le (hc_lt_kj kva hkva) (hkj_le_b kvb hkvb))
        · intro kv hkv
          rcases List.mem_append.1 hkv with hin | hin
          · rw [inBnd_iff]
            refine ⟨fun a ha => ((inBnd_iff _ _ _).1 (ihc.2.1 kv hin)).1 a ha,
              fun b hb => ?_⟩
            have h1 : kv.1 < kj := hc_lt_kj kv hin
            have h2 : kj ≤ b₀.1 := hkj_le_b b₀ hb₀
            have h3 : b₀.1 < b := ((inBnd_iff _ _ _).1 (ihrest.2.1 b₀ hb₀)).2 b hb
            exact lt_trans (lt_of_lt_of_le h1 h2) h3
          · rw [inBnd_iff]
            refine ⟨fun a ha => ?_,
              fun b hb => ((inBnd_iff _ _ _).1 (ihrest.2.1 kv hin)).2 b hb⟩
            have h1 : a ≤ c₀.1 := ((inBnd_iff _ _ _).1 (ihc.2.1 c₀ hc₀)).1 a ha
            have h2 : c₀.1 < kj := hc_lt_kj c₀ hc₀
            have h3 : kj ≤ kv.1 := hkj_le_b kv hin
            exact le_trans h1 (le_trans (le_of_lt h2) h3)
        · intro hnil
          exact hce_ne (List.append_eq_nil.mp hnil).1
      · have hdropnil : (s.getInner iid).childs.drop (j + 1) = [] :=
          List.drop_eq_nil_of_le (by omega)
        rw [hdropnil]
        simp only [List.map_nil, List.flatten_nil, List.append_nil]
        have hbend : (boundsList lo hi (s.getInner iid).keys).getD (j + 1) none =
            hi := by
          have : j = (s.getInner iid).keys.length := by omega
          rw [this]
          exact boundsList_last lo hi (s.getInner iid).keys
        rw [hbend] at ihc
        exact ⟨ihc.1, ihc.2.1, fun _ => ihc.2.2⟩
  have hfinal := aux (s.getInner iid).childs.length 0 (by omega)
  rw [List.drop_zero, boundsList_zero] at hfinal
  rw [entriesAt_inner]
  exact ⟨hfinal.1, hfinal.2.1, hfinal.2.2 (by omega)⟩

/-- Where `locate_child` sends a key: a valid child index whose half-open
interval contains the key. -/
theorem locateChild_spec [LinearOrder K] (IN LN : Nat) (s : NodeStoreVec K V)
    (h iid : Nat) (lo hi : Option K) (m : Nat)
    (hb : InnerBody IN s (Good IN LN s h) iid lo hi m)
    (k : K) (hk : inBnd lo hi k) :
    ((s.getInner iid).locateChild k).1 < (s.getInner iid).childs.length ∧
    ((s.getInner iid).locateChild k).2 =
      (s.getInner iid).childs.getD ((s.getInner iid).locateChild k).1 default ∧
    inBnd ((boundsList lo hi (s.getInner iid).keys).getD
        ((s.getInner iid).locateChild k).1 none)
      ((boundsList lo hi (s.getInner iid).keys).getD
        (((s.getInner iid).locateChild k).1 + 1) none) k := by
  have hp : List.Pairwise (· < ·) (s.getInner iid).keys :=
    innerBody_keys_sorted IN LN s h iid lo hi m hb
  have hlock := hb.2.1
  rcases hr : locateList k (s.getInner iid).keys with i | i
  · have hf := locateList_found k (s.getInner iid).keys hp i hr
    have hik : i < (s.getInner iid).keys.length := by
      by_contra hge
      rw [List.get?_eq_none.mpr (by omega)] at hf
      exact Option.noConfusion hf.1
    have hloc : (s.getInner iid).locateChild k =
        (i + 1, (s.getInner iid).childId (i + 1)) := by
      unfold InnerNode.locateChild
      rw [hr]
    rw [hloc]
    have hksome : (s.getInner iid).keys.get? i =
        some ((s.getInner iid).keys.get ⟨i, hik⟩) := List.get?_eq_get hik
    have hkval : (s.getInner iid).keys.get ⟨i, hik⟩ = k := by
      rw [hksome] at hf
      exact Option.some.inj hf.1
    refine ⟨by omega, rfl, ?_⟩
    rw [inBnd_iff]
    constructor
    · intro a ha
      rw [boundsList_get? lo hi _ i hik, hksome] at ha
      rw [← Option.some.inj ha, hkval]
    · intro b hb2
      by_cases hend : i + 1 = (s.getInner iid).keys.length
      · rw [hend, boundsList_last] at hb2
        exact ((inBnd_iff _ _ _).1 hk).2 b hb2
      · have hik1 : i + 1 < (s.getInner iid).keys.length := by omega
        rw [boundsList_get? lo hi _ (i + 1) hik1, List.get?_eq_get hik1] at hb2
        have hkk : k < (s.getInner iid).keys.get ⟨i + 1, hik1⟩ := by
          have := List.pairwise_iff_get.1 hp ⟨i, hik⟩ ⟨i + 1, hik1⟩ (by
            show i < i + 1
            omega)
          rw [hkval] at this
          exact this
        rw [← Option.some.inj hb2]
        exact hkk
  · have hf := locateList_notFound k (s.getInner iid).keys hp i hr
    have hloc : (s.getInner iid).locateChild k =
        (i, (s.getInner iid).childId i) := by
      unfold InnerNode.locateChild
      rw [hr]
    rw [hloc]
    refine ⟨by omega, rfl, ?_⟩
    rw [inBnd_iff]
    constructor
    · intro a ha
      rcases Nat.eq_zero_or_pos i with rfl | hpos
      · rw [boundsList_zero] at ha
        exact ((inBnd_iff _ _ _).1 hk).1 a (by rw [ha])
      · have hik : i - 1 < (s.getInner iid).keys.length := by omega
        have hi1 : i - 1 + 1 = i := by omega
        have hb0 := boundsList_get? lo hi (s.getInner iid).keys (i - 1) hik
        rw [List.get?_eq_get hik, hi1] at hb0
        rw [hb0] at ha
        have hmemt : (s.getInner iid).keys.get ⟨i - 1, hik⟩ ∈
            (s.getInner iid).keys.take i := by
          rw [← getD_eq_get ((s.getInner iid).keys.get ⟨i - 1, hik⟩) _ _ hik]
          have he2 : ((s.getInner iid).keys.take i).getD (i - 1)
              ((s.getInner iid).keys.get ⟨i - 1, hik⟩) =
              (s.getInner iid).keys.getD (i - 1)
                ((s.getInner iid).keys.get ⟨i - 1, hik⟩) :=
            getD_take _ _ i (i - 1) (by omega)
          rw [← he2]
          exact getD_mem _ _ _ (by rw [List.length_take]; omega)
        have := hf.2.2.1 _ hmemt
        rw [← Option.some.inj ha]
        exact le_of_lt this
    · intro b hb2
      by_cases hend : i = (s.getInner iid).keys.length
      · rw [hend, boundsList_last] at hb2
        exact ((inBnd_iff _ _ _).1 hk).2 b hb2
      · have hik : i < (s.getInner iid).keys.length := by omega
        rw [boundsList_get? lo hi _ i hik, List.get?_eq_get hik] at hb2
        have hmemd : (s.getInner iid).keys.get ⟨i, hik⟩ ∈
            (s.getInner iid).keys.drop i := by
          rw [← getD_eq_get ((s.getInner iid).keys.get ⟨i, hik⟩) _ _ hik]
          have he2 : ((s.getInner iid).keys.drop i).getD 0
              ((s.getInner iid).keys.get ⟨i, hik⟩) =
              (s.getInner iid).keys.getD (i + 0)
                ((s.getInner iid).keys.get ⟨i, hik⟩) :=
            getD_drop _ _ i 0
          rw [Nat.add_zero] at he2
          rw [← he2]
          exact getD_mem _ _ _ (by rw [List.length_drop]; omega)
        have := hf.2.2.2 _ hmemd
        rw [← Option.some.inj hb2]
        exact this

/-! ### Upsert corollaries on sorted lists -/

theorem upsertList_sorted [LinearOrder K] (k : K) (v : V) (es : List (K × V))
    (hs : SortedKeys es) : SortedKeys (upsertList k v es) := by
  by_cases hm : k ∈ keysOf es
  · obtain ⟨v₀, A, B, he, hA, hB⟩ := sorted_split_mem k es hs hm
    rw [he, upsertList_split_mem k v v₀ A B hA]
    rw [he] at hs
    have hkeq : keysOf (A ++ (k, v) :: B) = keysOf (A ++ (k, v₀) :: B) := by
      rw [keysOf_append, keysOf_append, keysOf_cons, keysOf_cons]
    show List.Chain' (· < ·) (keysOf (A ++ (k, v) :: B))
    rw [hkeq]
    exact hs
  · obtain ⟨A, B, he, hA, hB⟩ := sorted_split_notMem k es hs hm
    rw [he, upsertList_split_notMem k v A B hA hB]
    rw [he] at hs
    exact sortedKeys_middle A B k v hs hA hB

theorem upsertList_entries_sub [LinearOrder K] (k : K) (v : V)
    (es : List (K × V)) (hs : SortedKeys es) :
    ∀ kv ∈ upsertList k v es, kv ∈ es ∨ kv = (k, v) := by
  by_cases hm : k ∈ keysOf es
  · obtain ⟨v₀, A, B, he, hA, hB⟩ := sorted_split_mem k es hs hm
    rw [he, upsertList_split_mem k v v₀ A B hA]
    intro kv hkv
    rcases List.mem_append.1 hkv with hin | hin
    · exact Or.inl (List.mem_append.2 (Or.inl hin))
    · rcases List.mem_cons.1 hin with rfl | hin'
      · exact Or.inr rfl
      · exact Or.inl
          (List.mem_append.2 (Or.inr (List.mem_cons.2 (Or.inr hin'))))
  · obtain ⟨A, B, he, hA, hB⟩ := sorted_split_notMem k es hs hm
    rw [he, upsertList_split_notMem k v A B hA hB]
    intro kv hkv
    rcases List.mem_append.1 hkv with hin | hin
    · exact Or.inl (List.mem_append.2 (Or.inl hin))
    · rcases List.mem_cons.1 hin with rfl | hin'
      · exact Or.inr rfl
      · exact Or.inl (List.mem_append.2 (Or.inr hin'))

theorem upsertList_lookup_self [LinearOrder K] (k : K) (v : V)
    (es : List (K × V)) (hs : SortedKeys es) :
    lookupList k (upsertList k v es) = some v := by
  by_cases hm : k ∈ keysOf es
  · obtain ⟨v₀, A, B, he, hA, hB⟩ := sorted_split_mem k es hs hm
    rw [he, upsertList_split_mem k v v₀ A B hA,
      lookupList_append_of_notMem k A _ (fun x hx => ne_of_lt (hA x hx)),
      lookupList_cons_self]
  · obtain ⟨A, B, he, hA, hB⟩ := sorted_split_notMem k es hs hm
    rw [he, upsertList_split_notMem k v A B hA hB,
      lookupList_append_of_notMem k A _ (fun x hx => ne_of_lt (hA x hx)),
      lookupList_cons_self]

theorem upsertList_count [LinearOrder K] (k : K) (v : V)
    (es : List (K × V)) (hs : SortedKeys es) :
    (keysOf (upsertList k v es)).count k = 1 := by
  by_cases hm : k ∈ keysOf es
  · obtain ⟨v₀, A, B, he, hA, hB⟩ := sorted_split_mem k es hs hm
    rw [he, upsertList_split_mem k v v₀ A B hA]
    exact count_keys_split k v A B hA hB
  · obtain ⟨A, B, he, hA, hB⟩ := sorted_split_notMem k es hs hm
    rw [he, upsertList_split_notMem k v A B hA hB]
    exact count_keys_split k v A B hA hB

theorem upsertList_length_mem [LinearOrder K] (k : K) (v : V)
    (es : List (K × V)) (hs : SortedKeys es) (hm : k ∈ keysOf es) :
    (upsertList k v es).length = es.length := by
  obtain ⟨v₀, A, B, he, hA, hB⟩ := sorted_split_mem k es hs hm
  rw [he, upsertList_split_mem k v v₀ A B hA]
  simp

theorem upsertList_length_notMem [LinearOrder K] (k : K) (v : V)
    (es : List (K × V)) (hs : SortedKeys es) (hm : k ∉ keysOf es) :
    (upsertList k v es).length = es.length + 1 := by
  obtain ⟨A, B, he, hA, hB⟩ := sorted_split_notMem k es hs hm
  rw [he, upsertList_split_notMem k v A B hA hB]
  simp
  omega

/-! ### Reduction lemmas for `insert_leaf` -/

theorem insertLeaf_updated_eq [LinearOrder K] [Inhabited K] [Inhabited V]
    (LN : Nat) (s : NodeStoreVec K V) (id : Nat) (k : K) (v : V)
    (l' : LeafNode K V) (v₀ : V)
    (heq : (s.getLeaf id).tryUpsert LN k v = (l', .updated v₀)) :
    insertLeaf LN s id k v = (s.setLeaf id l', .updated v₀) := by
  conv_lhs => rw [insertLeaf, heq]

theorem insertLeaf_inserted_eq [LinearOrder K] [Inhabited K] [Inhabited V]
    (LN : Nat) (s : NodeStoreVec K V) (id : Nat) (k : K) (v : V)
    (l' : LeafNode K V)
    (heq : (s.getLeaf id).tryUpsert LN k v = (l', .inserted)) :
    insertLeaf LN s id k v = ((s.setLeaf id l').cacheLeaf id, .inserted) := by
  conv_lhs => rw [insertLeaf, heq]

theorem insertLeaf_isFull_eq [LinearOrder K] [Inhabited K] [Inhabited V]
    (LN : Nat) (s : NodeStoreVec K V) (id : Nat) (k : K) (v : V) (idx : Nat)
    (heq : (s.getLeaf id).tryUpsert LN k v = (s.getLeaf id, .isFull idx)) :
    insertLeaf LN s id k v =
      (let rightId := s.leafNodes.length
       let s1 := (s.reserveLeaf).2
       let lr := (s1.getLeaf id).splitNewLeaf LN idx (k, v) rightId id
       let s2 := s1.setLeaf id lr.1
       let s3 := match lr.2.next with
         | some nxt => s2.setLeaf nxt ((s2.getLeaf nxt).setPrev (some rightId))
         | none => s2
       let s4 := s3.assignLeaf rightId lr.2
       (s4.cacheLeaf (if LN / 2 ≤ idx then rightId else id),
        .split ((lr.2.dataAt 0).1) (.leaf rightId))) := by
  conv_lhs => rw [insertLeaf, heq]
  rfl

/-- Raw behaviour of `insert_leaf` on a sorted valid leaf. -/
theorem insertLeaf_raw [LinearOrder K] [Inhabited K] [Inhabited V]
    (LN : Nat) (s : NodeStoreVec K V) (id : Nat) (k : K) (v : V)
    (hv : id < s.leafNodes.length) (hs : SortedKeys (s.getLeaf id).data)
    (hmax : (s.getLeaf id).data.length ≤ LN) (hLN : 2 ≤ LN) :
    (∃ v₀, (insertLeaf LN s id k v).2 = .updated v₀ ∧
      lookupList k (s.getLeaf id).data = some v₀ ∧
      (insertLeaf LN s id k v).1 =
        s.setLeaf id
          { s.getLeaf id with data := upsertList k v (s.getLeaf id).data } ∧
      (upsertList k v (s.getLeaf id).data).length =
        (s.getLeaf id).data.length) ∨
    ((insertLeaf LN s id k v).2 = .inserted ∧
      k ∉ keysOf (s.getLeaf id).data ∧
      (s.getLeaf id).data.length < LN ∧
      (insertLeaf LN s id k v).1 =
        (s.setLeaf id
          { s.getLeaf id with
              data := upsertList k v (s.getLeaf id).data }).cacheLeaf id ∧
      (upsertList k v (s.getLeaf id).data).length =
        (s.getLeaf id).data.length + 1) ∨
    (∃ splitKey L R,
      (insertLeaf LN s id k v).2 =
        .split splitKey (.leaf s.leafNodes.length) ∧
      k ∉ keysOf (s.getLeaf id).data ∧
      (s.getLeaf id).data.length = LN ∧
      L ++ R = upsertList k v (s.getLeaf id).data ∧
      LeafNode.minimumSize LN ≤ L.length ∧ L.length ≤ LN ∧
      LeafNode.minimumSize LN ≤ R.length ∧ R.length ≤ LN ∧
      (∀ x ∈ keysOf L, x < splitKey) ∧ (∀ x ∈ keysOf R, splitKey ≤ x) ∧
      (insertLeaf LN s id k v).1.innerNodes = s.innerNodes ∧
      (insertLeaf LN s id k v).1.leafNodes.length = s.leafNodes.length + 1 ∧
      ((insertLeaf LN s id k v).1.getLeaf id).data = L ∧
      ((insertLeaf LN s id k v).1.getLeaf s.leafNodes.length).data = R ∧
      (∀ j, j < s.leafNodes.length → j ≠ id →
        ((insertLeaf LN s id k v).1.getLeaf j).data = (s.getLeaf j).data) ∧
      ((insertLeaf LN s id k v).1.cache = some id ∨
        (insertLeaf LN s id k v).1.cache = some s.leafNodes.length)) := by
  rcases tryUpsert_cases LN (s.getLeaf id) k v hs with
    ⟨v₀, A, B, hD, hA, hB, heq⟩ | ⟨hkm, hne, A, B, hD, hA, hB, heq⟩ |
    ⟨hkm, hDlen, idx, hidxle, htake, hdrop, heq⟩
  · left
    have hred := insertLeaf_updated_eq LN s id k v _ v₀ heq
    have hupeq : upsertList k v (s.getLeaf id).data = A ++ (k, v) :: B := by
      rw [hD]
      exact upsertList_split_mem k v v₀ A B hA
    refine ⟨v₀, by rw [hred], ?_, ?_, ?_⟩
    · rw [hD,
        lookupList_append_of_notMem k A _ (fun x hx => ne_of_lt (hA x hx)),
        lookupList_cons_self]
    · rw [hred, hupeq]
    · rw [hupeq, hD]
      simp
  · right
    left
    have hred := insertLeaf_inserted_eq LN s id k v _ heq
    have hupeq : upsertList k v (s.getLeaf id).data = A ++ (k, v) :: B := by
      rw [hD]
      exact upsertList_split_notMem k v A B hA hB
    refine ⟨by rw [hred], hkm, by omega, ?_, ?_⟩
    · rw [hred, hupeq]
    · rw [hupeq, hD]
      simp
      omega
  · right
    right
    have hred := insertLeaf_isFull_eq LN s id k v idx heq
    simp only [] at hred
    have gL : (s.reserveLeaf).2.getLeaf id = s.getLeaf id :=
      getLeaf_reserveLeaf_lt s id hv
    rw [gL] at hred
    have hP := splitNewLeaf_parts LN (s.getLeaf id) idx (k, v)
      s.leafNodes.length id hDlen (by omega)
    set lr := (s.getLeaf id).splitNewLeaf LN idx (k, v) s.leafNodes.length id
      with hlrd
    have hup : upsertList k v (s.getLeaf id).data =
        (s.getLeaf id).data.insertIdx idx (k, v) := by
      conv_lhs => rw [← List.take_append_drop idx (s.getLeaf id).data]
      rw [upsertList_split_notMem k v _ _ htake hdrop,
        insertIdx_eq_take_cons_drop (k, v) idx _ (by omega)]
    have hcat : lr.1.data ++ lr.2.data = upsertList k v (s.getLeaf id).data := by
      rw [hup]
      exact hP.1
    have hsup : SortedKeys (upsertList k v (s.getLeaf id).data) :=
      upsertList_sorted k v _ hs
    have hsLR : SortedKeys (lr.1.data ++ lr.2.data) := by
      rw [hcat]
      exact hsup
    have hsub := sortedKeys_sub _ _ hsLR
    have hRpos : 0 < lr.2.data.length := by
      rw [hP.2.2.1]
      split <;> omega
    obtain ⟨r0, R', hR⟩ := List.exists_cons_of_ne_nil
      (List.ne_nil_of_length_pos hRpos)
    have hsk : (lr.2.dataAt 0).1 = r0.1 := by
      show (lr.2.data.getD 0 default).1 = r0.1
      rw [hR]
      rfl
    have hLlt : ∀ x ∈ keysOf lr.1.data, x < (lr.2.dataAt 0).1 := by
      intro x hx
      rw [hsk]
      exact hsub.2.2 x hx r0.1 (by rw [hR]; exact mem_keysOf_cons.2 (Or.inl rfl))
    have hRge : ∀ x ∈ keysOf lr.2.data, (lr.2.dataAt 0).1 ≤ x := by
      intro x hx
      rw [hsk]
      rw [hR] at hx
      rcases mem_keysOf_cons.1 hx with rfl | hx'
      · exact le_refl _
      · have hsR : SortedKeys (r0 :: R') := by
          rw [← hR]
          exact hsub.2.1
        exact le_of_lt ((sortedKeys_cons r0 R' hsR).2 x hx')
    -- case on the split-off leaf's next link
    rcases hnext : lr.2.next with _ | nxt
    all_goals simp only [hnext] at hred
    -- none case
    · refine ⟨(lr.2.dataAt 0).1, lr.1.data, lr.2.data, by rw [hred], hkm,
        hDlen, hcat, ?_, ?_, ?_, ?_, hLlt, hRge, ?_, ?_, ?_, ?_, ?_, ?_⟩
      · rw [hP.2.1]
        unfold LeafNode.minimumSize
        split <;> split <;> omega
      · rw [hP.2.1]
        split <;> omega
      · rw [hP.2.2.1]
        unfold LeafNode.minimumSize
        split <;> split <;> omega
      · rw [hP.2.2.1]
        split <;> omega
      · rw [hred]
        rfl
      · rw [hred]
        show ((((s.reserveLeaf).2.setLeaf id lr.1).setLeaf
            s.leafNodes.length lr.2).leafNodes).length = s.leafNodes.length + 1
        rw [(setLeaf_lengths _ _ _).2, (setLeaf_lengths _ _ _).2,
          (reserveLeaf_lengths s).2]
      · rw [hred]
        show ((((s.reserveLeaf).2.setLeaf id lr.1).setLeaf
            s.leafNodes.length lr.2).getLeaf id).data = lr.1.data
        rw [getLeaf_setLeaf_ne _ _ _ _ (by omega),
          getLeaf_setLeaf_self _ _ _ (by
            rw [(reserveLeaf_lengths s).2]
            omega)]
      · rw [hred]
        show ((((s.reserveLeaf).2.setLeaf id lr.1).setLeaf
            s.leafNodes.length lr.2).getLeaf s.leafNodes.length).data =
          lr.2.data
        rw [getLeaf_setLeaf_self _ _ _ (by
          rw [(setLeaf_lengths _ _ _).2, (reserveLeaf_lengths s).2]
          omega)]
      · intro j hj hjid
        rw [hred]
        show ((((s.reserveLeaf).2.setLeaf id lr.1).setLeaf
            s.leafNodes.length lr.2).getLeaf j).data = (s.getLeaf j).data
        rw [getLeaf_setLeaf_ne _ _ _ _ (by omega),
          getLeaf_setLeaf_ne _ _ _ _ (fun he => hjid he.symm),
          getLeaf_reserveLeaf_lt s j hj]
      · rw [hred]
        by_cases hcache : LN / 2 ≤ idx
        · right
          show some (if LN / 2 ≤ idx then s.leafNodes.length else id) =
            some s.leafNodes.length
          rw [if_pos hcache]
        · left
          show some (if LN / 2 ≤ idx then s.leafNodes.length else id) =
            some id
          rw [if_neg hcache]
    -- some nxt case
    · refine ⟨(lr.2.dataAt 0).1, lr.1.data, lr.2.data, by rw [hred], hkm,
        hDlen, hcat, ?_, ?_, ?_, ?_, hLlt, hRge, ?_, ?_, ?_, ?_, ?_, ?_⟩
      · rw [hP.2.1]
        unfold LeafNode.minimumSize
        split <;> split <;> omega
      · rw [hP.2.1]
        split <;> omega
      · rw [hP.2.2.1]
        unfold LeafNode.minimumSize
        split <;> split <;> omega
      · rw [hP.2.2.1]
        split <;> omega
      · rw [hred]
        rfl
      · rw [hred]
        show (((((s.reserveLeaf).2.setLeaf id lr.1).setLeaf nxt _).setLeaf
            s.leafNodes.length lr.2).leafNodes).length = s.leafNodes.length + 1
        rw [(setLeaf_lengths _ _ _).2, (setLeaf_lengths _ _ _).2,
          (setLeaf_lengths _ _ _).2, (reserveLeaf_lengths s).2]
      · rw [hred]
        show (((((s.reserveLeaf).2.setLeaf id lr.1).setLeaf nxt
            ((((s.reserveLeaf).2.setLeaf id lr.1).getLeaf nxt).setPrev
              (some s.leafNodes.length))).setLeaf
            s.leafNodes.length lr.2).getLeaf id).data = lr.1.data
        rw [getLeaf_setLeaf_ne _ _ _ _ (by omega)]
        by_cases hnid : nxt = id
        · subst hnid
          rw [getLeaf_setLeaf_self _ _ _ (by
            rw [(setLeaf_lengths _ _ _).2, (reserveLeaf_lengths s).2]
            omega)]
          show ((((s.reserveLeaf).2.setLeaf nxt lr.1).getLeaf nxt).setPrev
            (some s.leafNodes.length)).data = lr.1.data
          rw [getLeaf_setLeaf_self _ _ _ (by
            rw [(reserveLeaf_lengths s).2]
            omega)]
          rfl
        · rw [getLeaf_setLeaf_ne _ _ _ _ hnid,
            getLeaf_setLeaf_self _ _ _ (by
              rw [(reserveLeaf_lengths s).2]
              omega)]
      · rw [hred]
        show (((((s.reserveLeaf).2.setLeaf id lr.1).setLeaf nxt
            ((((s.reserveLeaf).2.setLeaf id lr.1).getLeaf nxt).setPrev
              (some s.leafNodes.length))).setLeaf
            s.leafNodes.length lr.2).getLeaf s.leafNodes.length).data =
          lr.2.data
        rw [getLeaf_setLeaf_self _ _ _ (by
          rw [(setLeaf_lengths _ _ _).2, (setLeaf_lengths _ _ _).2,
            (reserveLeaf_lengths s).2]
          omega)]
      · intro j hj hjid
        rw [hred]
        show (((((s.reserveLeaf).2.setLeaf id lr.1).setLeaf nxt
            ((((s.reserveLeaf).2.setLeaf id lr.1).getLeaf nxt).setPrev
              (some s.leafNodes.length))).setLeaf
            s.leafNodes.length lr.2).getLeaf j).data = (s.getLeaf j).data
        rw [getLeaf_setLeaf_ne _ _ _ _ (by omega)]
        by_cases hnj : nxt = j
        · subst hnj
          rw [getLeaf_setLeaf_self _ _ _ (by
            rw [(setLeaf_lengths _ _ _).2, (reserveLeaf_lengths s).2]
            omega)]
          show (((((s.reserveLeaf).2.setLeaf id lr.1).getLeaf nxt).setPrev
            (some s.leafNodes.length)).data) = (s.getLeaf nxt).data
          show ((((s.reserveLeaf).2.setLeaf id lr.1).getLeaf nxt).data) =
            (s.getLeaf nxt).data
          rw [getLeaf_setLeaf_ne _ _ _ _ (fun he => hjid he.symm),
            getLeaf_reserveLeaf_lt s nxt hj]
        · rw [getLeaf_setLeaf_ne _ _ _ _ hnj,
            getLeaf_setLeaf_ne _ _ _ _ (fun he => hjid he.symm),
            getLeaf_reserveLeaf_lt s j hj]
      · rw [hred]
        by_cases hcache : LN / 2 ≤ idx
        · right
          show some (if LN / 2 ≤ idx then s.leafNodes.length else id) =
            some s.leafNodes.length
          rw [if_pos hcache]
        · left
          show some (if LN / 2 ≤ idx then s.leafNodes.length else id) =
            some id
          rw [if_neg hcache]

/-- `insert_leaf` satisfies the descend-insert postcondition on a well-formed
leaf. -/
theorem insertLeaf_post [LinearOrder K] [Inhabited K] [Inhabited V]
    (IN LN : Nat) (s : NodeStoreVec K V) (id : Nat) (lo hi : Option K)
    (hG : Good IN LN s 0 (.leaf id) lo hi) (hLN : 2 ≤ LN)
    (k : K) (v : V) (hk : inBnd lo hi k) :
    InsertPost IN LN s 0 (.leaf id) lo hi k v (insertLeaf LN s id k v) := by
  obtain ⟨hv, hs, hbnd, hmin, hmax⟩ := (good_leaf_iff IN LN s id lo hi).1 hG
  have hmax' : (s.getLeaf id).data.length ≤ LN := hmax
  rcases insertLeaf_raw LN s id k v hv hs hmax' hLN with
    ⟨v₀, hr2, hlook, hst, hlen⟩ | ⟨hr2, hkm, hlt, hst, hlen⟩ |
    ⟨sk, L, R, hr2, hkm, hDlen, hcat, hLmn, hLmx, hRmn, hRmx, hLsk, hRsk,
      hinner, hleneq, hLid, hRid, hout, hcache⟩
  · -- updated
    have hup_sorted : SortedKeys (upsertList k v (s.getLeaf id).data) :=
      upsertList_sorted k v _ hs
    have hup_bnd : ∀ kv ∈ upsertList k v (s.getLeaf id).data,
        inBnd lo hi kv.1 := by
      intro kv hkv
      rcases upsertList_entries_sub k v _ hs kv hkv with hin | rfl
      · exact hbnd kv hin
      · exact hk
    unfold InsertPost
    rw [hr2, hst]
    refine ⟨⟨le_refl _, le_of_eq (setLeaf_lengths s id _).2.symm,
        fun j _ _ => getInner_setLeaf s id _ j, ?_⟩, ?_, ?_, ?_, rfl,
      (setLeaf_lengths s id _).2, rfl⟩
    · intro j _ hj
      rw [fpLeaf_leaf, List.mem_singleton] at hj
      exact congrArg LeafNode.data (getLeaf_setLeaf_ne s id j _ (fun he => hj he.symm))
    · rw [entriesAt_leaf]
      exact hlook
    · have hget := getLeaf_setLeaf_self s id
        { s.getLeaf id with data := upsertList k v (s.getLeaf id).data } hv
      refine (good_leaf_iff IN LN _ id lo hi).2
        ⟨by rw [(setLeaf_lengths s id _).2]; exact hv, ?_, ?_, ?_, ?_⟩
      · rw [hget]
        exact hup_sorted
      · rw [hget]
        exact hup_bnd
      · show LeafNode.minimumSize LN ≤
          ((s.setLeaf id { s.getLeaf id with
            data := upsertList k v (s.getLeaf id).data }).getLeaf id).data.length
        rw [hget, hlen]
        exact hmin
      · show ((s.setLeaf id { s.getLeaf id with
            data := upsertList k v (s.getLeaf id).data
          }).getLeaf id).data.length ≤ LN
        rw [hget, hlen]
        exact hmax
    · rw [entriesAt_leaf, entriesAt_leaf, getLeaf_setLeaf_self s id
        { s.getLeaf id with data := upsertList k v (s.getLeaf id).data } hv]
  · -- inserted
    have hup_sorted : SortedKeys (upsertList k v (s.getLeaf id).data) :=
      upsertList_sorted k v _ hs
    have hup_bnd : ∀ kv ∈ upsertList k v (s.getLeaf id).data,
        inBnd lo hi kv.1 := by
      intro kv hkv
      rcases upsertList_entries_sub k v _ hs kv hkv with hin | rfl
      · exact hbnd kv hin
      · exact hk
    have hv2 : id < ((s.setLeaf id
        { s.getLeaf id with data := upsertList k v (s.getLeaf id).data
          }).cacheLeaf id).leafNodes.length := by
      show id < (s.setLeaf id _).leafNodes.length
      rw [(setLeaf_lengths s id _).2]
      exact hv
    have hll := (setLeaf_lengths s id
      { s.getLeaf id with data := upsertList k v (s.getLeaf id).data }).2
    unfold InsertPost
    rw [hr2, hst]
    refine ⟨⟨le_refl _, le_of_eq hll.symm,
        fun j _ _ => getInner_setLeaf s id
          { s.getLeaf id with data := upsertList k v (s.getLeaf id).data } j,
        ?_⟩, ?_, ?_, ?_, ?_, ?_⟩
    · intro j _ hj
      rw [fpLeaf_leaf, List.mem_singleton] at hj
      exact congrArg LeafNode.data (getLeaf_setLeaf_ne s id j
        { s.getLeaf id with data := upsertList k v (s.getLeaf id).data }
        (fun he => hj he.symm))
    · rw [entriesAt_leaf]
      exact lookupList_eq_none k _ hkm
    · refine (good_leaf_iff IN LN _ id lo hi).2 ⟨hv2, ?_, ?_, ?_, ?_⟩ <;>
        rw [show ((s.setLeaf id { s.getLeaf id with
            data := upsertList k v (s.getLeaf id).data }).cacheLeaf id).getLeaf
            id = { s.getLeaf id with
              data := upsertList k v (s.getLeaf id).data } from
          getLeaf_setLeaf_self s id _ hv]
      · exact hup_sorted
      · exact hup_bnd
      · show LeafNode.minimumSize LN ≤ (upsertList k v (s.getLeaf id).data).length
        have hmin' : LeafNode.minimumSize LN ≤ (s.getLeaf id).data.length := hmin
        rw [hlen]
        omega
      · show (upsertList k v (s.getLeaf id).data).length ≤ LN
        rw [hlen]
        omega
    · rw [entriesAt_leaf, entriesAt_leaf,
        show ((s.setLeaf id { s.getLeaf id with
            data := upsertList k v (s.getLeaf id).data }).cacheLeaf id).getLeaf
            id = { s.getLeaf id with
              data := upsertList k v (s.getLeaf id).data } from
          getLeaf_setLeaf_self s id _ hv]
    · rw [fpInner_leaf, fpInner_leaf, fpLeaf_leaf, fpLeaf_leaf]
      exact ⟨List.nodup_nil, List.nodup_singleton id, by simp, by simp,
        fun j hj => hj, fun j hj => hj⟩
    · intro cid hc
      right
      have hcid : id = cid := Option.some.inj hc
      rw [fpLeaf_leaf, ← hcid]
      exact List.mem_singleton.2 rfl
  · -- split
    have hsLR : SortedKeys (L ++ R) := by
      rw [hcat]
      exact upsertList_sorted k v _ hs
    have hsub := sortedKeys_sub L R hsLR
    have hmem_ud : ∀ kv ∈ L ++ R, inBnd lo hi kv.1 := by
      intro kv hkv
      rw [hcat] at hkv
      rcases upsertList_entries_sub k v _ hs kv hkv with hin | rfl
      · exact hbnd kv hin
      · exact hk
    unfold InsertPost
    rw [hr2]
    have hgInner : ∀ j, (insertLeaf LN s id k v).1.getInner j = s.getInner j := by
      intro j
      unfold NodeStoreVec.getInner
      rw [hinner]
    refine ⟨⟨le_of_eq (congrArg List.length hinner).symm, by omega,
        fun j _ _ => hgInner j, ?_⟩, ?_, ?_, ?_, ?_, ?_, ?_⟩
    · intro j hjv hj
      rw [fpLeaf_leaf, List.mem_singleton] at hj
      exact hout j hjv hj
    · rw [entriesAt_leaf]
      exact lookupList_eq_none k _ hkm
    · refine (good_leaf_iff IN LN _ id lo (some sk)).2
        ⟨by omega, ?_, ?_, ?_, ?_⟩
      case refine_3 =>
        show LeafNode.minimumSize LN ≤
          ((insertLeaf LN s id k v).1.getLeaf id).data.length
        rw [hLid]
        exact hLmn
      case refine_4 =>
        show ((insertLeaf LN s id k v).1.getLeaf id).data.length ≤ LN
        rw [hLid]
        exact hLmx
      all_goals rw [hLid]
      · exact hsub.1
      · intro kv hkv
        rw [inBnd_iff]
        constructor
        · intro a ha
          exact ((inBnd_iff lo hi kv.1).1
            (hmem_ud kv (List.mem_append.2 (Or.inl hkv)))).1 a ha
        · intro b hb
          rw [← Option.some.inj hb]
          exact hLsk kv.1 ((mem_keysOf_iff kv.1 L).2 ⟨kv, hkv, rfl⟩)
    · refine (good_leaf_iff IN LN _ s.leafNodes.length (some sk) hi).2
        ⟨by omega, ?_, ?_, ?_, ?_⟩
      case refine_3 =>
        show LeafNode.minimumSize LN ≤
          ((insertLeaf LN s id k v).1.getLeaf s.leafNodes.length).data.length
        rw [hRid]
        exact hRmn
      case refine_4 =>
        show ((insertLeaf LN s id k v).1.getLeaf
          s.leafNodes.length).data.length ≤ LN
        rw [hRid]
        exact hRmx
      all_goals rw [hRid]
      · exact hsub.2.1
      · intro kv hkv
        rw [inBnd_iff]
        constructor
        · intro a ha
          rw [← Option.some.inj ha]
          exact hRsk kv.1 ((mem_keysOf_iff kv.1 R).2 ⟨kv, hkv, rfl⟩)
        · intro b hb
          exact ((inBnd_iff lo hi kv.1).1
            (hmem_ud kv (List.mem_append.2 (Or.inr hkv)))).2 b hb
    · rw [entriesAt_leaf, entriesAt_leaf, entriesAt_leaf, hLid, hRid]
      exact hcat
    · rw [fpInner_leaf, fpInner_leaf, fpInner_leaf, fpLeaf_leaf, fpLeaf_leaf,
        fpLeaf_leaf]
      refine ⟨List.nodup_nil, ?_, by simp, ?_, fun j hj => hj, ?_⟩
      · show ([id] ++ [s.leafNodes.length]).Nodup
        rw [List.nodup_append]
        refine ⟨List.nodup_singleton _, List.nodup_singleton _, ?_⟩
        intro a ha hb
        rw [List.mem_singleton] at ha hb
        omega
      · intro j hj
        rcases List.mem_append.1 hj with hj | hj
        · exact Or.inl hj
        · rw [List.mem_singleton] at hj
          omega
      · intro j hj
        exact List.mem_append.2 (Or.inl hj)
    · intro cid hc
      right
      rcases hcache with hcl | hcl
      · rw [hcl] at hc
        rw [fpLeaf_leaf, fpLeaf_leaf, ← Option.some.inj hc]
        exact List.mem_append.2 (Or.inl (List.mem_singleton.2 rfl))
      · rw [hcl] at hc
        rw [fpLeaf_leaf, fpLeaf_leaf, ← Option.some.inj hc]
        exact List.mem_append.2 (Or.inr (List.mem_singleton.2 rfl))

/-! ### Bounds lists under separator insertion and splitting -/

theorem boundsList_insertIdx (lo hi : Option K) (ks : List K) (cI : Nat)
    (key : K) (hle : cI ≤ ks.length) :
    (∀ i, i ≤ cI →
      (boundsList lo hi (ks.insertIdx cI key)).getD i none =
        (boundsList lo hi ks).getD i none) ∧
    (boundsList lo hi (ks.insertIdx cI key)).getD (cI + 1) none = some key ∧
    (∀ j, cI + 1 ≤ j → j ≤ ks.length + 1 →
      (boundsList lo hi (ks.insertIdx cI key)).getD (j + 1) none =
        (boundsList lo hi ks).getD j none) := by
  have hlen' : (ks.insertIdx cI key).length = ks.length + 1 := by
    rw [insertIdx_eq_take_cons_drop key cI ks hle]
    simp only [List.length_append, List.length_cons, List.length_take,
      List.length_drop]
    omega
  refine ⟨?_, ?_, ?_⟩
  · intro i hile
    cases i with
    | zero => rw [boundsList_zero, boundsList_zero]
    | succ j =>
      have hjlt : j < ks.length := by omega
      rw [boundsList_mid lo hi _ j key (by omega),
        boundsList_mid lo hi ks j key hjlt,
        getD_insertIdx_lt key key ks cI j (by omega)]
  · rw [boundsList_mid lo hi _ cI key (by omega),
      getD_insertIdx_self key key ks cI hle]
  · intro j hj1 hj2
    by_cases hend : j = ks.length + 1
    · subst hend
      rw [show ks.length + 1 + 1 = (ks.insertIdx cI key).length + 1 from
          by omega,
        boundsList_last, boundsList_last]
    · have hjlt : j - 1 < ks.length := by omega
      have hj' : j - 1 + 1 = j := by omega
      have h1 : (boundsList lo hi (ks.insertIdx cI key)).getD (j + 1) none =
          some ((ks.insertIdx cI key).getD j key) :=
        boundsList_mid lo hi _ j key (by omega)
      have h2 : (ks.insertIdx cI key).getD (j - 1 + 1) key =
          ks.getD (j - 1) key :=
        getD_insertIdx_succ key key ks cI (j - 1) (by omega)
      rw [hj'] at h2
      have h3 : (boundsList lo hi ks).getD (j - 1 + 1) none =
          some (ks.getD (j - 1) key) :=
        boundsList_mid lo hi ks (j - 1) key hjlt
      rw [hj'] at h3
      rw [h1, h2, h3]

theorem boundsList_take (lo hi : Option K) (ks : List K) (m : Nat) (d : K)
    (hm : m < ks.length) :
    ∀ i, i ≤ m + 1 →
      (boundsList lo (some (ks.getD m d)) (ks.take m)).getD i none =
        (boundsList lo hi ks).getD i none := by
  have hlt : (ks.take m).length = m := by
    rw [List.length_take]
    omega
  intro i hile
  by_cases hend : i = m + 1
  · subst hend
    conv_lhs => rw [show m + 1 = (ks.take m).length + 1 from by omega,
      boundsList_last]
    rw [boundsList_mid lo hi ks m d hm]
  · cases i with
    | zero => rw [boundsList_zero, boundsList_zero]
    | succ j =>
      have hjlt : j < m := by omega
      rw [boundsList_mid _ _ _ j d (by omega),
        boundsList_mid lo hi ks j d (by omega), getD_take d ks m j hjlt]

theorem boundsList_drop (lo hi : Option K) (ks : List K) (m : Nat) (d : K)
    (hm : m < ks.length) :
    ∀ j, j ≤ ks.length - m →
      (boundsList (some (ks.getD m d)) hi (ks.drop (m + 1))).getD j none =
        (boundsList lo hi ks).getD (m + 1 + j) none := by
  have hlen : (ks.drop (m + 1)).length = ks.length - (m + 1) := by
    rw [List.length_drop]
  intro j hj
  by_cases hend : j = ks.length - m
  · subst hend
    conv_lhs => rw [show ks.length - m = (ks.drop (m + 1)).length + 1 from
        by omega,
      boundsList_last]
    rw [show m + 1 + (ks.length - m) = ks.length + 1 from by omega,
      boundsList_last]
  · cases j with
    | zero =>
      rw [boundsList_zero, show m + 1 + 0 = m + 1 from rfl,
        boundsList_mid lo hi ks m d hm]
    | succ i =>
      have hilt : i < (ks.drop (m + 1)).length := by omega
      rw [boundsList_mid _ _ _ i d hilt,
        show m + 1 + (i + 1) = (m + 1 + i) + 1 from by omega,
        boundsList_mid lo hi ks (m + 1 + i) d (by omega), getD_drop d ks _ i]

/-- Frame through a `PreservedOutside` mutation: a subtree whose footprint is
disjoint from the touched footprints survives unchanged. -/
theorem good_frame_po [LinearOrder K] (IN LN : Nat) (s s1 : NodeStoreVec K V)
    (fpI fpL : List Nat) (hpo : PreservedOutside s s1 fpI fpL)
    (h : Nat) (c : NodeId) (lo hi : Option K) (hG : Good IN LN s h c lo hi)
    (hdisjI : ∀ j ∈ fpInner s h c, j ∉ fpI)
    (hdisjL : ∀ j ∈ fpLeaf s h c, j ∉ fpL) :
    Good IN LN s1 h c lo hi ∧ entriesAt s1 h c = entriesAt s h c ∧
    fpInner s1 h c = fpInner s h c ∧ fpLeaf s1 h c = fpLeaf s h c := by
  have hvalid := good_fp_valid IN LN s h c lo hi hG
  exact good_frame IN LN s s1 hpo.1 hpo.2.1 h c lo hi hG
    (fun j hj => hpo.2.2.1 j (hvalid.1 j hj) (hdisjI j hj))
    (fun j hj => hpo.2.2.2 j (hvalid.2 j hj) (hdisjL j hj))

/-- One unfolding of `descendInsert` at an inner node, with the destructuring
lets written as projections. -/
theorem descendInsert_inner_eq [LinearOrder K] [Inhabited K] [Inhabited V]
    (IN LN fuel : Nat) (s : NodeStoreVec K V) (iid : Nat) (k : K) (v : V) :
    descendInsert IN LN (fuel + 1) s (.inner iid) k v =
      (match descendInsert IN LN fuel s
          ((s.getInner iid).locateChild k).2 k v with
       | (s1, .split key rightChild) =>
         if (s1.getInner iid).isFull IN then
           ((s1.addInner ((s1.getInner iid).split IN
               ((s.getInner iid).locateChild k).1 key rightChild).2.2).2.setInner
             iid ((s1.getInner iid).split IN
               ((s.getInner iid).locateChild k).1 key rightChild).1,
            .split ((s1.getInner iid).split IN
               ((s.getInner iid).locateChild k).1 key rightChild).2.1
              (.inner (s1.addInner ((s1.getInner iid).split IN
                ((s.getInner iid).locateChild k).1 key rightChild).2.2).1))
         else
           (s1.setInner iid ((s1.getInner iid).insertAt
              ((s.getInner iid).locateChild k).1 key rightChild),
            .inserted)
       | r => r) := rfl

/-- Counterexample to claim C3 as stated: with `LN = 4` the tree reached from
a new tree by inserting `0, 1, 2, 3, 4` and removing `0` has root `inner 0`,
leaves `0` and `1`, and the non-root leaf `0` holds a single entry — fewer
than `⌈LN/2⌉ = 2`.  The code's leaf minimum is `max(1, ⌊LN/4⌋)`, not
`⌈LN/2⌉`. -/
theorem leaf_occupancy_counterexample :
    ((runInserts 4 4 BPlusTree.new [0, 1, 2, 3, 4]).remove 4 4 0).1.root =
      NodeId.inner 0 ∧
    ((runInserts 4 4 BPlusTree.new [0, 1, 2, 3, 4]).remove 4 4 0).1.leafIds =
      [0, 1] ∧
    (((runInserts 4 4 BPlusTree.new [0, 1, 2, 3, 4]).remove 4 4 0).1.store.getLeaf
        0).size = 1 ∧
    1 < halfCeil 4 :=
  ⟨rfl, rfl, rfl, by decide⟩

end Sweep

namespace Sweep
variable {K V : Type}

theorem preservedOutside_mono (s s' : NodeStoreVec K V)
    (fpI fpL fpI' fpL' : List Nat) (hpo : PreservedOutside s s' fpI fpL)
    (hI : ∀ j ∈ fpI, j ∈ fpI') (hL : ∀ j ∈ fpL, j ∈ fpL') :
    PreservedOutside s s' fpI' fpL' :=
  ⟨hpo.1, hpo.2.1,
   fun j hj hnot => hpo.2.2.1 j hj (fun hmem => hnot (hI j hmem)),
   fun j hj hnot => hpo.2.2.2 j hj (fun hmem => hnot (hL j hmem))⟩

theorem flatten_getD_disjoint {α : Type} (f : α → List Nat) (d : α)
    (cs : List α) (hnd : ((cs.map f).flatten).Nodup)
    (i j : Nat) (hi : i < cs.length) (hj : j < cs.length) (hne : i ≠ j) :
    ∀ x ∈ f (cs.getD i d), x ∉ f (cs.getD j d) := by
  have key : ∀ a b, a < b → b < cs.length →
      ∀ x ∈ f (cs.getD a d), x ∉ f (cs.getD b d) := by
    intro a b hab hb x hxa hxb
    have hsp := flatten_split_at f d cs a (by omega)
    rw [hsp] at hnd
    have h1 := List.nodup_append.1 hnd
    have h2 := List.nodup_append.1 h1.1
    -- x is in the middle part and in the suffix part
    refine h1.2.2 (List.mem_append.2 (Or.inr hxa)) ?_
    refine List.mem_flatten.2 ⟨f (cs.getD b d), List.mem_map_of_mem f ?_, hxb⟩
    have he : (cs.drop (a + 1)).getD (b - (a + 1)) d = cs.getD b d := by
      rw [getD_drop]
      congr 1
      omega
    rw [← he]
    exact getD_mem d _ _ (by rw [List.length_drop]; omega)
  rcases Nat.lt_or_ge i j with hij | hij
  · exact key i j hij hj
  · have hji : j < i := by omega
    intro x hxi hxj
    exact key j i hji hi x hxj hxi

theorem flatten_mem_of_getD {α : Type} (f : α → List Nat) (d : α)
    (cs : List α) (i : Nat) (hi : i < cs.length) :
    ∀ x ∈ f (cs.getD i d), x ∈ (cs.map f).flatten := by
  intro x hx
  exact List.mem_flatten.2 ⟨f (cs.getD i d),
    List.mem_map_of_mem f (getD_mem d cs i hi), hx⟩

theorem insertIdx_length {α : Type} (x : α) (l : List α) (i : Nat)
    (h : i ≤ l.length) : (l.insertIdx i x).length = l.length + 1 := by
  rw [insertIdx_eq_take_cons_drop x i l h]
  simp only [List.length_append, List.length_cons, List.length_take,
    List.length_drop]
  omega

theorem fp_replace_mid_nodup (PreL midL SufL newMid : List Nat) (n : Nat)
    (hnd : (PreL ++ midL ++ SufL).Nodup)
    (hvalid : ∀ x ∈ PreL ++ midL ++ SufL, x < n)
    (hndNew : newMid.Nodup)
    (hfresh : ∀ x ∈ newMid, x ∈ midL ∨ n ≤ x) :
    (PreL ++ newMid ++ SufL).Nodup := by
  have hA := List.nodup_append.1 hnd
  have hB := List.nodup_append.1 hA.1
  rw [List.nodup_append]
  refine ⟨?_, hA.2.1, ?_⟩
  · rw [List.nodup_append]
    refine ⟨hB.1, hndNew, ?_⟩
    intro x hxp hxn
    rcases hfresh x hxn with hxm | hxf
    · exact hB.2.2 hxp hxm
    · exact absurd (hvalid x (List.mem_append.2 (Or.inl
        (List.mem_append.2 (Or.inl hxp))))) (by omega)
  · intro x hx hxs
    rcases List.mem_append.1 hx with hxp | hxn
    · exact hA.2.2 (List.mem_append.2 (Or.inl hxp)) hxs
    · rcases hfresh x hxn with hxm | hxf
      · exact hA.2.2 (List.mem_append.2 (Or.inr hxm)) hxs
      · exact absurd (hvalid x (List.mem_append.2 (Or.inr hxs))) (by omega)

theorem fp_replace_mid_mem (PreL midL SufL newMid : List Nat) (n : Nat)
    (hfresh : ∀ x ∈ newMid, x ∈ midL ∨ n ≤ x) :
    ∀ x ∈ PreL ++ newMid ++ SufL,
      x ∈ PreL ++ midL ++ SufL ∨ n ≤ x := by
  intro x hx
  rcases List.mem_append.1 hx with hx1 | hxs
  · rcases List.mem_append.1 hx1 with hxp | hxn
    · exact Or.inl (List.mem_append.2 (Or.inl (List.mem_append.2 (Or.inl hxp))))
    · rcases hfresh x hxn with hxm | hxf
      · exact Or.inl (List.mem_append.2 (Or.inl (List.mem_append.2 (Or.inr hxm))))
      · exact Or.inr hxf
  · exact Or.inl (List.mem_append.2 (Or.inr hxs))

theorem fp_replace_mid_cover (PreL midL SufL newMid : List Nat)
    (hcov : ∀ x ∈ midL, x ∈ newMid) :
    ∀ x ∈ PreL ++ midL ++ SufL, x ∈ PreL ++ newMid ++ SufL := by
  intro x hx
  rcases List.mem_append.1 hx with hx1 | hxs
  · rcases List.mem_append.1 hx1 with hxp | hxm
    · exact List.mem_append.2 (Or.inl (List.mem_append.2 (Or.inl hxp)))
    · exact List.mem_append.2 (Or.inl (List.mem_append.2 (Or.inr (hcov x hxm))))
  · exact List.mem_append.2 (Or.inr hxs)

theorem take_getD_index {α : Type} (d : α) (cs : List α) (n : Nat)
    (c : α) (hc : c ∈ cs.take n) :
    ∃ i, i < n ∧ i < cs.length ∧ cs.getD i d = c := by
  obtain ⟨⟨i, hilt⟩, hgi⟩ := List.mem_iff_get.1 hc
  have hlt2 : i < n := by
    have := hilt
    rw [List.length_take] at this
    omega
  have hlt3 : i < cs.length := by
    have := hilt
    rw [List.length_take] at this
    omega
  refine ⟨i, hlt2, hlt3, ?_⟩
  rw [← hgi, ← getD_eq_get d _ i hilt, getD_take d _ n i hlt2]

theorem drop_getD_index {α : Type} (d : α) (cs : List α) (n : Nat)
    (c : α) (hc : c ∈ cs.drop n) :
    ∃ i, n ≤ i ∧ i < cs.length ∧ cs.getD i d = c := by
  obtain ⟨⟨i, hilt⟩, hgi⟩ := List.mem_iff_get.1 hc
  have hlt2 : i < cs.length - n := by
    have := hilt
    rw [List.length_drop] at this
    omega
  refine ⟨n + i, by omega, by omega, ?_⟩
  rw [← hgi, ← getD_eq_get d _ i hilt, getD_drop d _ n i]

/-- All footprint node ids under a body-correct inner node are valid in the
store. -/
theorem innerBody_fp_valid [LinearOrder K] (IN LN m : Nat)
    (s : NodeStoreVec K V) (h iid : Nat) (lo hi : Option K)
    (hbody : InnerBody IN s (Good IN LN s h) iid lo hi m) :
    (∀ j ∈ fpInner s (h + 1) (.inner iid), j < s.innerNodes.length) ∧
    (∀ j ∈ fpLeaf s (h + 1) (.inner iid), j < s.leafNodes.length) := by
  constructor
  · intro j hj
    rw [fpInner_inner] at hj
    rcases List.mem_cons.1 hj with rfl | hj'
    · exact hbody.1
    · obtain ⟨L, hL, hjL⟩ := List.mem_flatten.1 hj'
      obtain ⟨c, hc, rfl⟩ := List.mem_map.1 hL
      obtain ⟨⟨i, hilt⟩, hgi⟩ := List.mem_iff_get.1 hc
      have hcd : (s.getInner iid).childs.getD i default = c := by
        rw [← hgi, ← getD_eq_get default _ i hilt]
      have hval := good_fp_valid IN LN s h _ _ _ (hbody.2.2.2.2 i hilt)
      rw [hcd] at hval
      exact hval.1 j hjL
  · intro j hj
    rw [fpLeaf_inner] at hj
    obtain ⟨L, hL, hjL⟩ := List.mem_flatten.1 hj
    obtain ⟨c, hc, rfl⟩ := List.mem_map.1 hL
    obtain ⟨⟨i, hilt⟩, hgi⟩ := List.mem_iff_get.1 hc
    have hcd : (s.getInner iid).childs.getD i default = c := by
      rw [← hgi, ← getD_eq_get default _ i hilt]
    have hval := good_fp_valid IN LN s h _ _ _ (hbody.2.2.2.2 i hilt)
    rw [hcd] at hval
    exact hval.2 j hjL

/-- One parent step of an insert descent: from a body-correct inner node of
minimum `m` whose children behave as `InsertPost`, the parent's reassembly
satisfies `InsertPostTop m`. -/
theorem insertStep [LinearOrder K] [Inhabited K] [Inhabited V]
    (IN LN m : Nat) (hIN : 2 ≤ IN) (hLN : 2 ≤ LN) (h f : Nat)
    (s : NodeStoreVec K V) (iid : Nat) (lo hi : Option K) (k : K) (v : V)
    (hbody : InnerBody IN s (Good IN LN s h) iid lo hi m)
    (hndI : (fpInner s (h + 1) (.inner iid)).Nodup)
    (hndL : (fpLeaf s (h + 1) (.inner iid)).Nodup)
    (hk : inBnd lo hi k)
    (hrec : ∀ (id : NodeId) (lo hi : Option K),
      Good IN LN s h id lo hi → (fpInner s h id).Nodup →
      (fpLeaf s h id).Nodup → inBnd lo hi k →
      InsertPost IN LN s h id lo hi k v (descendInsert IN LN f s id k v)) :
    InsertPostTop IN LN m s h iid lo hi k v
      (descendInsert IN LN (f + 1) s (.inner iid) k v) := by
      obtain ⟨hv, hlock, hmin0, hmax0, hch⟩ := hbody
      have hGvalid := innerBody_fp_valid IN LN m s h iid lo hi
        ⟨hv, hlock, hmin0, hmax0, hch⟩
      have hloc := locateChild_spec IN LN s h iid lo hi m
        ⟨hv, hlock, hmin0, hmax0, hch⟩ k hk
      set cI := ((s.getInner iid).locateChild k).1 with hcIdef
      have hcIlt : cI < (s.getInner iid).childs.length := hloc.1
      have hcid := hloc.2.1
      have hkin := hloc.2.2
      have hchild := hch cI hcIlt
      -- footprint decompositions
      rw [fpInner_inner] at hndI
      have hiidnotin := (List.nodup_cons.1 hndI).1
      have hndIfl := (List.nodup_cons.1 hndI).2
      have hsplitI := flatten_split_at (fpInner s h) default
        (s.getInner iid).childs cI hcIlt
      have hsplitL := flatten_split_at (fpLeaf s h) default
        (s.getInner iid).childs cI hcIlt
      rw [fpLeaf_inner] at hndL
      have hndIfl' := hndIfl
      have hndL' := hndL
      rw [hsplitI] at hndIfl'
      rw [hsplitL] at hndL'
      have hndIA := List.nodup_append.1 hndIfl'
      have hndIB := List.nodup_append.1 hndIA.1
      have hndLA := List.nodup_append.1 hndL'
      have hndLB := List.nodup_append.1 hndLA.1
      -- IH for the child
      have hpost := hrec ((s.getInner iid).childs.getD cI default)
        ((boundsList lo hi (s.getInner iid).keys).getD cI none)
        ((boundsList lo hi (s.getInner iid).keys).getD (cI + 1) none)
        hchild hndIB.2.1 hndLB.2.1 hkin
      -- entry separation around the child
      have hEpre : ∀ kv ∈ (((s.getInner iid).childs.take cI).map
          (entriesAt s h)).flatten, kv.1 < k := by
        intro kv hkv
        by_cases hc0 : cI = 0
        · rw [hc0] at hkv
          simp at hkv
        · have hjk : cI - 1 < (s.getInner iid).keys.length := by omega
          have hj' : cI - 1 + 1 = cI := by omega
          have hb := boundsList_get? lo hi (s.getInner iid).keys (cI - 1) hjk
          rw [List.get?_eq_get hjk, hj'] at hb
          have h1 := good_children_prefix IN LN s h iid lo hi hlock hch cI
            (le_of_lt hcIlt) kv hkv _ hb
          have h2 := ((inBnd_iff _ _ _).1 hkin).1 _ hb
          exact lt_of_lt_of_le h1 h2
      have hEsuf : ∀ kv ∈ (((s.getInner iid).childs.drop (cI + 1)).map
          (entriesAt s h)).flatten, k < kv.1 := by
        intro kv hkv
        by_cases hcend : cI + 1 = (s.getInner iid).childs.length
        · rw [List.drop_eq_nil_of_le (by omega)] at hkv
          simp at hkv
        · have hjk : cI < (s.getInner iid).keys.length := by omega
          have hb := boundsList_get? lo hi (s.getInner iid).keys cI hjk
          rw [List.get?_eq_get hjk] at hb
          have h1 := good_children_suffix IN LN s h iid lo hi hlock hch
            ((s.getInner iid).childs.length - (cI + 1)) (cI + 1) (by omega)
            kv hkv _ hb
          have h2 := ((inBnd_iff _ _ _).1 hkin).2 _ hb
          exact lt_of_lt_of_le h2 h1
      have hEpreK : ∀ x ∈ keysOf ((((s.getInner iid).childs.take cI).map
          (entriesAt s h)).flatten), x < k := by
        intro x hx
        obtain ⟨kv, hkv, rfl⟩ := (mem_keysOf_iff x _).1 hx
        exact hEpre kv hkv
      have hEsufK : ∀ x ∈ keysOf ((((s.getInner iid).childs.drop
          (cI + 1)).map (entriesAt s h)).flatten), k < x := by
        intro x hx
        obtain ⟨kv, hkv, rfl⟩ := (mem_keysOf_iff x _).1 hx
        exact hEsuf kv hkv
      have hEcSorted := good_entries IN LN s h _ _ _ hchild
      -- the parent's entries split
      have hEsplit : entriesAt s (h + 1) (.inner iid) =
          (((s.getInner iid).childs.take cI).map (entriesAt s h)).flatten ++
          entriesAt s h ((s.getInner iid).childs.getD cI default) ++
          (((s.getInner iid).childs.drop (cI + 1)).map
            (entriesAt s h)).flatten := by
        rw [entriesAt_inner]
        exact flatten_split_at (entriesAt s h) default _ cI hcIlt
      -- case on the child's result
      rcases hres : descendInsert IN LN f s
        ((s.getInner iid).locateChild k).2 k v with ⟨s1, r⟩
      have hres' : descendInsert IN LN f s
          ((s.getInner iid).childs.getD cI default) k v = (s1, r) := by
        rw [← hcid]
        exact hres
      rw [hres'] at hpost
      rw [descendInsert_inner_eq IN LN f s iid k v, hres]
      -- facts independent of the result kind
      have hpo : PreservedOutside s s1
          (fpInner s h ((s.getInner iid).childs.getD cI default))
          (fpLeaf s h ((s.getInner iid).childs.getD cI default)) := hpost.1
      have hsubI : ∀ j ∈ fpInner s h
          ((s.getInner iid).childs.getD cI default),
          j ∈ fpInner s (h + 1) (.inner iid) := by
        intro j hj
        rw [fpInner_inner]
        exact List.mem_cons.2 (Or.inr
          (flatten_mem_of_getD (fpInner s h) default _ cI hcIlt j hj))
      have hsubL : ∀ j ∈ fpLeaf s h
          ((s.getInner iid).childs.getD cI default),
          j ∈ fpLeaf s (h + 1) (.inner iid) := by
        intro j hj
        rw [fpLeaf_inner]
        exact flatten_mem_of_getD (fpLeaf s h) default _ cI hcIlt j hj
      have hpo' := preservedOutside_mono s s1 _ _ _ _ hpo hsubI hsubL
      have hgiid : s1.getInner iid = s.getInner iid := by
        refine hpo.2.2.1 iid hv ?_
        intro hmem
        exact hiidnotin (flatten_mem_of_getD (fpInner s h) default _ cI
          hcIlt iid hmem)
      have hsib : ∀ i, i < (s.getInner iid).childs.length → i ≠ cI →
          Good IN LN s1 h ((s.getInner iid).childs.getD i default)
            ((boundsList lo hi (s.getInner iid).keys).getD i none)
            ((boundsList lo hi (s.getInner iid).keys).getD (i + 1) none) ∧
          entriesAt s1 h ((s.getInner iid).childs.getD i default) =
            entriesAt s h ((s.getInner iid).childs.getD i default) ∧
          fpInner s1 h ((s.getInner iid).childs.getD i default) =
            fpInner s h ((s.getInner iid).childs.getD i default) ∧
          fpLeaf s1 h ((s.getInner iid).childs.getD i default) =
            fpLeaf s h ((s.getInner iid).childs.getD i default) := by
        intro i hi2 hne
        refine good_frame_po IN LN s s1 _ _ hpo h _ _ _ (hch i hi2) ?_ ?_
        · exact flatten_getD_disjoint (fpInner s h) default _ hndIfl
            i cI hi2 hcIlt hne
        · exact flatten_getD_disjoint (fpLeaf s h) default _ hndL
            i cI hi2 hcIlt hne
      have htakeq : ∀ c' ∈ (s.getInner iid).childs.take cI,
          entriesAt s1 h c' = entriesAt s h c' ∧
          fpInner s1 h c' = fpInner s h c' ∧
          fpLeaf s1 h c' = fpLeaf s h c' := by
        intro c' hc'
        obtain ⟨⟨i, hilt⟩, hgi⟩ := List.mem_iff_get.1 hc'
        have hlt2 : i < cI := by
          have := hilt
          rw [List.length_take] at this
          omega
        have hcd2 : (s.getInner iid).childs.getD i default = c' := by
          rw [← hgi, ← getD_eq_get default _ i hilt,
            getD_take default _ cI i hlt2]
        rw [← hcd2]
        exact ⟨(hsib i (by omega) (by omega)).2.1,
          (hsib i (by omega) (by omega)).2.2.1,
          (hsib i (by omega) (by omega)).2.2.2⟩
      have hdropq : ∀ c' ∈ (s.getInner iid).childs.drop (cI + 1),
          entriesAt s1 h c' = entriesAt s h c' ∧
          fpInner s1 h c' = fpInner s h c' ∧
          fpLeaf s1 h c' = fpLeaf s h c' := by
        intro c' hc'
        obtain ⟨⟨i, hilt⟩, hgi⟩ := List.mem_iff_get.1 hc'
        have hlen2 : i < (s.getInner iid).childs.length - (cI + 1) := by
          have := hilt
          rw [List.length_drop] at this
          omega
        have hcd2 : (s.getInner iid).childs.getD (cI + 1 + i) default = c' := by
          rw [← hgi, ← getD_eq_get default _ i hilt, getD_drop]
        rw [← hcd2]
        exact ⟨(hsib (cI + 1 + i) (by omega) (by omega)).2.1,
          (hsib (cI + 1 + i) (by omega) (by omega)).2.2.1,
          (hsib (cI + 1 + i) (by omega) (by omega)).2.2.2⟩
      -- validity of all old parent-footprint members
      have hvalidI : ∀ x ∈ (((s.getInner iid).childs.take cI).map
          (fpInner s h)).flatten ++
          fpInner s h ((s.getInner iid).childs.getD cI default) ++
          (((s.getInner iid).childs.drop (cI + 1)).map
            (fpInner s h)).flatten, x < s.innerNodes.length := by
        intro x hx
        refine hGvalid.1 x ?_
        rw [fpInner_inner, hsplitI]
        exact List.mem_cons.2 (Or.inr hx)
      have hvalidL : ∀ x ∈ (((s.getInner iid).childs.take cI).map
          (fpLeaf s h)).flatten ++
          fpLeaf s h ((s.getInner iid).childs.getD cI default) ++
          (((s.getInner iid).childs.drop (cI + 1)).map
            (fpLeaf s h)).flatten, x < s.leafNodes.length := by
        intro x hx
        refine hGvalid.2 x ?_
        rw [fpLeaf_inner, hsplitL]
        exact hx
      cases r with
      | updated v₀ =>
        obtain ⟨_, hlk, hGc, hent, hinn, hlfl, hcch⟩ := hpost
        show InsertPostTop IN LN m s h iid lo hi k v
          (s1, .updated v₀)
        refine ⟨hpo', ?_, ?_, ?_, hinn, hlfl, hcch⟩
        · rw [hEsplit]
          rw [lookupList_append_mid k _ _ _ hEpreK hEsufK]
          exact hlk
        · refine ⟨by rw [hinn]; exact hv, ?_, ?_, ?_, ?_⟩
          · rw [hgiid]
            exact hlock
          · show m ≤ (s1.getInner iid).size
            rw [hgiid]
            exact hmin0
          · show (s1.getInner iid).size ≤ IN
            rw [hgiid]
            exact hmax0
          · rw [hgiid]
            intro i hi2
            by_cases hieq : i = cI
            · subst hieq
              exact hGc
            · exact (hsib i hi2 hieq).1
        · rw [entriesAt_inner, hgiid,
            flatten_split_at (entriesAt s1 h) default _ cI hcIlt,
            List.map_congr_left (fun c hc => (htakeq c hc).1),
            List.map_congr_left (fun c hc => (hdropq c hc).1), hent,
            hEsplit]
          rw [upsertList_append_mid k v _ _ _ hEpreK hEsufK hEcSorted.1]
      | inserted =>
        obtain ⟨_, hlk, hGc, hent, hfpok, hcch⟩ := hpost
        obtain ⟨hndIc', hndLc', hfreshI, hfreshL, hcovI, hcovL⟩ := hfpok
        show InsertPostTop IN LN m s h iid lo hi k v
          (s1, .inserted)
        have hfpIsplit : fpInner s1 (h + 1) (.inner iid) =
            iid :: ((((s.getInner iid).childs.take cI).map
              (fpInner s h)).flatten ++
            fpInner s1 h ((s.getInner iid).childs.getD cI default) ++
            (((s.getInner iid).childs.drop (cI + 1)).map
              (fpInner s h)).flatten) := by
          rw [fpInner_inner, hgiid,
            flatten_split_at (fpInner s1 h) default _ cI hcIlt,
            List.map_congr_left (fun c hc => (htakeq c hc).2.1),
            List.map_congr_left (fun c hc => (hdropq c hc).2.1)]
        have hfpLsplit : fpLeaf s1 (h + 1) (.inner iid) =
            (((s.getInner iid).childs.take cI).map (fpLeaf s h)).flatten ++
            fpLeaf s1 h ((s.getInner iid).childs.getD cI default) ++
            (((s.getInner iid).childs.drop (cI + 1)).map
              (fpLeaf s h)).flatten := by
          rw [fpLeaf_inner, hgiid,
            flatten_split_at (fpLeaf s1 h) default _ cI hcIlt,
            List.map_congr_left (fun c hc => (htakeq c hc).2.2),
            List.map_congr_left (fun c hc => (hdropq c hc).2.2)]
        refine ⟨hpo', ?_, ?_, ?_, ?_, ?_⟩
        · rw [hEsplit]
          rw [lookupList_append_mid k _ _ _ hEpreK hEsufK]
          exact hlk
        · refine ⟨?_, ?_, ?_, ?_, ?_⟩
          · show iid < s1.innerNodes.length
            have := hpo.1
            omega
          · rw [hgiid]
            exact hlock
          · show m ≤ (s1.getInner iid).size
            rw [hgiid]
            exact hmin0
          · show (s1.getInner iid).size ≤ IN
            rw [hgiid]
            exact hmax0
          · rw [hgiid]
            intro i hi2
            by_cases hieq : i = cI
            · subst hieq
              exact hGc
            · exact (hsib i hi2 hieq).1
        · show entriesAt s1 (h + 1) (.inner iid) =
            upsertList k v (entriesAt s (h + 1) (.inner iid))
          rw [entriesAt_inner, hgiid,
            flatten_split_at (entriesAt s1 h) default _ cI hcIlt,
            List.map_congr_left (fun c hc => (htakeq c hc).1),
            List.map_congr_left (fun c hc => (hdropq c hc).1), hent,
            hEsplit]
          rw [upsertList_append_mid k v _ _ _ hEpreK hEsufK hEcSorted.1]
        · -- FpOk at the parent
          show FpOk s (fpInner s (h + 1) (.inner iid))
            (fpLeaf s (h + 1) (.inner iid)) (fpInner s1 (h + 1) (.inner iid))
            (fpLeaf s1 (h + 1) (.inner iid))
          rw [hfpIsplit, hfpLsplit]
          have hndInew := fp_replace_mid_nodup _ _ _ _ s.innerNodes.length
            hndIfl' hvalidI hndIc' hfreshI
          have hiidnew : iid ∉ (((s.getInner iid).childs.take cI).map
              (fpInner s h)).flatten ++
              fpInner s1 h ((s.getInner iid).childs.getD cI default) ++
              (((s.getInner iid).childs.drop (cI + 1)).map
                (fpInner s h)).flatten := by
            intro hmem
            rcases fp_replace_mid_mem _ _ _ _ s.innerNodes.length hfreshI
              iid hmem with hold | hge
            · rw [← hsplitI] at hold
              exact hiidnotin hold
            · omega
          refine ⟨List.nodup_cons.2 ⟨hiidnew, hndInew⟩,
            fp_replace_mid_nodup _ _ _ _ s.leafNodes.length hndL' hvalidL
              hndLc' hfreshL, ?_, ?_, ?_, ?_⟩
          · intro j hj
            rcases List.mem_cons.1 hj with rfl | hj'
            · refine Or.inl ?_
              rw [fpInner_inner]
              exact List.mem_cons.2 (Or.inl rfl)
            · rcases fp_replace_mid_mem _ _ _ _ s.innerNodes.length hfreshI
                j hj' with hold | hge
              · refine Or.inl ?_
                rw [fpInner_inner, hsplitI]
                exact List.mem_cons.2 (Or.inr hold)
              · exact Or.inr hge
          · intro j hj
            rcases fp_replace_mid_mem _ _ _ _ s.leafNodes.length hfreshL
              j hj with hold | hge
            · refine Or.inl ?_
              rw [fpLeaf_inner, hsplitL]
              exact hold
            · exact Or.inr hge
          · intro j hj
            rw [fpInner_inner] at hj
            rcases List.mem_cons.1 hj with rfl | hj'
            · exact List.mem_cons.2 (Or.inl rfl)
            · rw [hsplitI] at hj'
              exact List.mem_cons.2 (Or.inr
                (fp_replace_mid_cover _ _ _ _ hcovI j hj'))
          · intro j hj
            rw [fpLeaf_inner, hsplitL] at hj
            exact fp_replace_mid_cover _ _ _ _ hcovL j hj
        · intro cid hcc
          rcases hcch cid hcc with hold | hmem
          · exact Or.inl hold
          · refine Or.inr ?_
            rw [hfpLsplit]
            exact List.mem_append.2 (Or.inl (List.mem_append.2 (Or.inr hmem)))
      | split key rc =>
        obtain ⟨_, hlk, hGl, hGrc, hent, hfpok, hcch⟩ := hpost
        obtain ⟨hndIc', hndLc', hfreshI, hfreshL, hcovI, hcovL⟩ := hfpok
        show InsertPostTop IN LN m s h iid lo hi k v
          (if (s1.getInner iid).isFull IN = true then
            ((s1.addInner ((s1.getInner iid).split IN cI key
                rc).2.2).2.setInner iid
               ((s1.getInner iid).split IN cI key rc).1,
             .split ((s1.getInner iid).split IN cI key rc).2.1
               (.inner (s1.addInner ((s1.getInner iid).split IN cI key
                 rc).2.2).1))
           else
            (s1.setInner iid ((s1.getInner iid).insertAt cI key rc),
             .inserted))
        rw [hgiid]
        -- every id in the two split footprints differs from iid
        have hiid_ne_fpI : ∀ j ∈ fpInner s1 h
            ((s.getInner iid).childs.getD cI default) ++ fpInner s1 h rc,
            j ≠ iid := by
          intro j hj he
          subst he
          rcases hfreshI j hj with hold | hge
          · exact hiidnotin
              (flatten_mem_of_getD (fpInner s h) default _ cI hcIlt j hold)
          · omega
        by_cases hfull : ((s.getInner iid).isFull IN) = true
        · -- full: the parent itself splits
          rw [if_pos hfull]
          have hkIN : (s.getInner iid).size = IN := by
            unfold InnerNode.isFull at hfull
            exact beq_iff_eq.mp hfull
          have hkIN' : (s.getInner iid).keys.length = IN := hkIN
          have hcIN : (s.getInner iid).childs.length = IN + 1 := by omega
          have hcIk : cI ≤ (s.getInner iid).keys.length := by omega
          have hks'len : ((s.getInner iid).keys.insertIdx cI key).length =
              (s.getInner iid).keys.length + 1 :=
            insertIdx_length key _ cI hcIk
          have hcs'len : ((s.getInner iid).childs.insertIdx (cI + 1)
              rc).length = (s.getInner iid).childs.length + 1 :=
            insertIdx_length rc _ (cI + 1) (by omega)
          set m := IN / 2 with hmdef
          have hmlt : m < ((s.getInner iid).keys.insertIdx cI key).length := by
            omega
          set nd := (s.getInner iid).split IN cI key rc with hnddef
          have hnd1k : nd.1.keys =
              ((s.getInner iid).keys.insertIdx cI key).take m := rfl
          have hnd1c : nd.1.childs =
              ((s.getInner iid).childs.insertIdx (cI + 1) rc).take (m + 1) :=
            rfl
          have hndpk : nd.2.1 =
              ((s.getInner iid).keys.insertIdx cI key).getD m default := rfl
          have hnd2k : nd.2.2.keys =
              ((s.getInner iid).keys.insertIdx cI key).drop (m + 1) := rfl
          have hnd2c : nd.2.2.childs =
              ((s.getInner iid).childs.insertIdx (cI + 1) rc).drop (m + 1) :=
            rfl
          set s3 := (s1.addInner nd.2.2).2.setInner iid nd.1 with hs3def
          have hlen31 := addInner_lengths s1 nd.2.2
          have hlen32 := setInner_lengths (s1.addInner nd.2.2).2 iid nd.1
          have hlen3I : s3.innerNodes.length = s1.innerNodes.length + 1 := by
            rw [hs3def, hlen32.1, hlen31.1]
          have hlen3L : s3.leafNodes.length = s1.leafNodes.length := by
            rw [hs3def, hlen32.2, hlen31.2]
          have hvs1 : iid < s1.innerNodes.length := by
            have := hpo.1
            omega
          have h3iid : s3.getInner iid = nd.1 := by
            rw [hs3def]
            exact getInner_setInner_self _ iid nd.1 (by rw [hlen31.1]; omega)
          have hiidNID : iid ≠ s1.innerNodes.length := by omega
          have h3nid : s3.getInner s1.innerNodes.length = nd.2.2 := by
            rw [hs3def, getInner_setInner_ne _ iid _ nd.1 hiidNID]
            exact getInner_addInner_self s1 nd.2.2
          have h3other : ∀ j, j ≠ iid → j < s1.innerNodes.length →
              s3.getInner j = s1.getInner j := by
            intro j hne hlt
            rw [hs3def, getInner_setInner_ne _ iid j nd.1 (fun he => hne
              he.symm)]
            exact getInner_addInner_lt s1 nd.2.2 j hlt
          have h3leaf : ∀ j, s3.getLeaf j = s1.getLeaf j := fun j => by
            rw [hs3def]
            rfl
          -- frame from s1 to s3 for subtrees avoiding iid
          have hfr31 : ∀ (c : NodeId) (a b : Option K),
              Good IN LN s1 h c a b → (∀ j ∈ fpInner s1 h c, j ≠ iid) →
              Good IN LN s3 h c a b ∧
              entriesAt s3 h c = entriesAt s1 h c ∧
              fpInner s3 h c = fpInner s1 h c ∧
              fpLeaf s3 h c = fpLeaf s1 h c := by
            intro c a b hGc hne
            have hval := good_fp_valid IN LN s1 h c a b hGc
            refine good_frame IN LN s1 s3 (by omega) (by omega) h c a b hGc
              ?_ ?_
            · intro j hj
              exact h3other j (hne j hj) (hval.1 j hj)
            · intro j hj
              rw [h3leaf j]
          have hsib3 : ∀ i, i < (s.getInner iid).childs.length → i ≠ cI →
              Good IN LN s3 h ((s.getInner iid).childs.getD i default)
                ((boundsList lo hi (s.getInner iid).keys).getD i none)
                ((boundsList lo hi (s.getInner iid).keys).getD (i + 1) none) ∧
              entriesAt s3 h ((s.getInner iid).childs.getD i default) =
                entriesAt s h ((s.getInner iid).childs.getD i default) ∧
              fpInner s3 h ((s.getInner iid).childs.getD i default) =
                fpInner s h ((s.getInner iid).childs.getD i default) ∧
              fpLeaf s3 h ((s.getInner iid).childs.getD i default) =
                fpLeaf s h ((s.getInner iid).childs.getD i default) := by
            intro i hi2 hne
            have h1 := hsib i hi2 hne
            have h2 := hfr31 _ _ _ h1.1 (by
              intro j hj he
              subst he
              rw [h1.2.2.1] at hj
              exact hiidnotin
                (flatten_mem_of_getD (fpInner s h) default _ i hi2 j hj))
            exact ⟨h2.1, h2.2.1.trans h1.2.1, h2.2.2.1.trans h1.2.2.1,
              h2.2.2.2.trans h1.2.2.2⟩
          have hl3 := hfr31 _ _ _ hGl (fun j hj =>
            hiid_ne_fpI j (List.mem_append.2 (Or.inl hj)))
          have hrc3 := hfr31 _ _ _ hGrc (fun j hj =>
            hiid_ne_fpI j (List.mem_append.2 (Or.inr hj)))
          have hBI := boundsList_insertIdx lo hi (s.getInner iid).keys cI key
            hcIk
          -- children of the over-full virtual node, in s3
          have hvc : ∀ i, i < ((s.getInner iid).childs.insertIdx
              (cI + 1) rc).length →
              Good IN LN s3 h
                (((s.getInner iid).childs.insertIdx (cI + 1) rc).getD i
                  default)
                ((boundsList lo hi ((s.getInner iid).keys.insertIdx cI
                  key)).getD i none)
                ((boundsList lo hi ((s.getInner iid).keys.insertIdx cI
                  key)).getD (i + 1) none) := by
            intro i hi2
            rw [hcs'len] at hi2
            rcases Nat.lt_trichotomy i cI with hlt | heq | hgt
            · have hcd : ((s.getInner iid).childs.insertIdx (cI + 1) rc).getD
                  i default = (s.getInner iid).childs.getD i default :=
                getD_insertIdx_lt rc default _ (cI + 1) i (by omega)
              have hb1 := hBI.1 i (by omega)
              have hb2 := hBI.1 (i + 1) (by omega)
              rw [hcd, hb1, hb2]
              exact (hsib3 i (by omega) (by omega)).1
            · rw [heq]
              have hcd : ((s.getInner iid).childs.insertIdx (cI + 1) rc).getD
                  cI default = (s.getInner iid).childs.getD cI default :=
                getD_insertIdx_lt rc default _ (cI + 1) cI (by omega)
              have hb1 := hBI.1 cI (by omega)
              have hb2 := hBI.2.1
              rw [hcd, hb1, hb2]
              exact hl3.1
            · by_cases hi1 : i = cI + 1
              · rw [hi1]
                have hcd : ((s.getInner iid).childs.insertIdx (cI + 1)
                    rc).getD (cI + 1) default = rc :=
                  getD_insertIdx_self rc default _ (cI + 1) (by omega)
                have hb1 := hBI.2.1
                have hb2 := hBI.2.2 (cI + 1) (by omega) (by omega)
                rw [hcd, hb1, hb2]
                exact hrc3.1
              · have hi3 : i - 1 + 1 = i := by omega
                have hcd : ((s.getInner iid).childs.insertIdx (cI + 1)
                    rc).getD (i - 1 + 1) default =
                    (s.getInner iid).childs.getD (i - 1) default :=
                  getD_insertIdx_succ rc default _ (cI + 1) (i - 1) (by omega)
                rw [hi3] at hcd
                have hb1 := hBI.2.2 (i - 1) (by omega) (by omega)
                rw [hi3] at hb1
                have hb2 := hBI.2.2 i (by omega) (by omega)
                rw [hcd, hb1, hb2]
                have hsg := (hsib3 (i - 1) (by omega) (by omega)).1
                rw [hi3] at hsg
                exact hsg
          -- the two halves are well formed
          have hGleft : Good IN LN s3 (h + 1) (.inner iid) lo
              (some nd.2.1) := by
            refine ⟨by omega, ?_, ?_, ?_, ?_⟩
            · rw [h3iid, hnd1c, hnd1k, List.length_take, List.length_take]
              omega
            · show InnerNode.minimumSize IN ≤ (s3.getInner iid).keys.length
              rw [h3iid, hnd1k, List.length_take]
              unfold InnerNode.minimumSize
              omega
            · show (s3.getInner iid).keys.length ≤ IN
              rw [h3iid, hnd1k, List.length_take]
              omega
            · intro i hi2
              rw [h3iid, hnd1c, List.length_take] at hi2
              have hilen : i < m + 1 := by omega
              rw [h3iid, hnd1c, hnd1k, hndpk,
                getD_take default _ (m + 1) i hilen]
              have hbl := boundsList_take lo hi
                ((s.getInner iid).keys.insertIdx cI key) m default hmlt
              rw [hbl i (by omega), hbl (i + 1) (by omega)]
              exact hvc i (by omega)
          have hGright : Good IN LN s3 (h + 1)
              (.inner s1.innerNodes.length) (some nd.2.1) hi := by
            refine ⟨by omega, ?_, ?_, ?_, ?_⟩
            · rw [h3nid, hnd2c, hnd2k, List.length_drop, List.length_drop]
              omega
            · show InnerNode.minimumSize IN ≤
                (s3.getInner s1.innerNodes.length).keys.length
              rw [h3nid, hnd2k, List.length_drop]
              unfold InnerNode.minimumSize
              omega
            · show (s3.getInner s1.innerNodes.length).keys.length ≤ IN
              rw [h3nid, hnd2k, List.length_drop]
              omega
            · intro j hj2
              rw [h3nid, hnd2c, List.length_drop] at hj2
              have hjlen : j < IN + 1 - m := by omega
              rw [h3nid, hnd2c, hnd2k, hndpk,
                getD_drop default _ (m + 1) j]
              have hbr := boundsList_drop lo hi
                ((s.getInner iid).keys.insertIdx cI key) m default hmlt
              rw [hbr j (by omega), hbr (j + 1) (by omega),
                show m + 1 + (j + 1) = (m + 1 + j) + 1 from by omega]
              exact hvc (m + 1 + j) (by omega)
          -- entry and footprint assembly over the virtual child list
          have hcs'decomp : (s.getInner iid).childs.insertIdx (cI + 1) rc =
              (s.getInner iid).childs.take cI ++
              ((s.getInner iid).childs.getD cI default) :: rc ::
              (s.getInner iid).childs.drop (cI + 1) := by
            rw [insertIdx_eq_take_cons_drop rc (cI + 1) _ (by omega),
              take_succ_getD default _ cI hcIlt]
            simp [List.append_assoc]
          have hallent : ((((s.getInner iid).childs.insertIdx (cI + 1)
              rc)).map (entriesAt s3 h)).flatten =
              (((s.getInner iid).childs.take cI).map
                (entriesAt s h)).flatten ++
              (entriesAt s1 h ((s.getInner iid).childs.getD cI default) ++
                entriesAt s1 h rc) ++
              (((s.getInner iid).childs.drop (cI + 1)).map
                (entriesAt s h)).flatten := by
            have htk2 : ((s.getInner iid).childs.take cI).map
                (entriesAt s3 h) =
                ((s.getInner iid).childs.take cI).map (entriesAt s h) :=
              List.map_congr_left (fun c hc => by
                obtain ⟨i, h1, h2, rfl⟩ :=
                  take_getD_index default (s.getInner iid).childs cI c hc
                exact (hsib3 i h2 (by omega)).2.1)
            have hdp2 : ((s.getInner iid).childs.drop (cI + 1)).map
                (entriesAt s3 h) =
                ((s.getInner iid).childs.drop (cI + 1)).map (entriesAt s h) :=
              List.map_congr_left (fun c hc => by
                obtain ⟨i, h1, h2, rfl⟩ :=
                  drop_getD_index default (s.getInner iid).childs (cI + 1) c hc
                exact (hsib3 i h2 (by omega)).2.1)
            rw [hcs'decomp, List.map_append, List.flatten_append,
              List.map_cons, List.flatten_cons, List.map_cons,
              List.flatten_cons]
            rw [htk2, hdp2, hl3.2.1, hrc3.2.1]
            simp [List.append_assoc]
          have hallfpI : ((((s.getInner iid).childs.insertIdx (cI + 1)
              rc)).map (fpInner s3 h)).flatten =
              (((s.getInner iid).childs.take cI).map
                (fpInner s h)).flatten ++
              (fpInner s1 h ((s.getInner iid).childs.getD cI default) ++
                fpInner s1 h rc) ++
              (((s.getInner iid).childs.drop (cI + 1)).map
                (fpInner s h)).flatten := by
            have htk2 : ((s.getInner iid).childs.take cI).map
                (fpInner s3 h) =
                ((s.getInner iid).childs.take cI).map (fpInner s h) :=
              List.map_congr_left (fun c hc => by
                obtain ⟨i, h1, h2, rfl⟩ :=
                  take_getD_index default (s.getInner iid).childs cI c hc
                exact (hsib3 i h2 (by omega)).2.2.1)
            have hdp2 : ((s.getInner iid).childs.drop (cI + 1)).map
                (fpInner s3 h) =
                ((s.getInner iid).childs.drop (cI + 1)).map (fpInner s h) :=
              List.map_congr_left (fun c hc => by
                obtain ⟨i, h1, h2, rfl⟩ :=
                  drop_getD_index default (s.getInner iid).childs (cI + 1) c hc
                exact (hsib3 i h2 (by omega)).2.2.1)
            rw [hcs'decomp, List.map_append, List.flatten_append,
              List.map_cons, List.flatten_cons, List.map_cons,
              List.flatten_cons]
            rw [htk2, hdp2, hl3.2.2.1, hrc3.2.2.1]
            simp [List.append_assoc]
          have hallfpL : ((((s.getInner iid).childs.insertIdx (cI + 1)
              rc)).map (fpLeaf s3 h)).flatten =
              (((s.getInner iid).childs.take cI).map
                (fpLeaf s h)).flatten ++
              (fpLeaf s1 h ((s.getInner iid).childs.getD cI default) ++
                fpLeaf s1 h rc) ++
              (((s.getInner iid).childs.drop (cI + 1)).map
                (fpLeaf s h)).flatten := by
            have htk2 : ((s.getInner iid).childs.take cI).map
                (fpLeaf s3 h) =
                ((s.getInner iid).childs.take cI).map (fpLeaf s h) :=
              List.map_congr_left (fun c hc => by
                obtain ⟨i, h1, h2, rfl⟩ :=
                  take_getD_index default (s.getInner iid).childs cI c hc
                exact (hsib3 i h2 (by omega)).2.2.2)
            have hdp2 : ((s.getInner iid).childs.drop (cI + 1)).map
                (fpLeaf s3 h) =
                ((s.getInner iid).childs.drop (cI + 1)).map (fpLeaf s h) :=
              List.map_congr_left (fun c hc => by
                obtain ⟨i, h1, h2, rfl⟩ :=
                  drop_getD_index default (s.getInner iid).childs (cI + 1) c hc
                exact (hsib3 i h2 (by omega)).2.2.2)
            rw [hcs'decomp, List.map_append, List.flatten_append,
              List.map_cons, List.flatten_cons, List.map_cons,
              List.flatten_cons]
            rw [htk2, hdp2, hl3.2.2.2, hrc3.2.2.2]
            simp [List.append_assoc]
          -- split of the virtual child list into the two halves
          have htdsplit : ∀ {β : Type} (F : NodeId → List β),
              ((((s.getInner iid).childs.insertIdx (cI + 1) rc)).map
                F).flatten =
              ((((s.getInner iid).childs.insertIdx (cI + 1) rc).take
                (m + 1)).map F).flatten ++
              ((((s.getInner iid).childs.insertIdx (cI + 1) rc).drop
                (m + 1)).map F).flatten := by
            intro β F
            conv_lhs => rw [← List.take_append_drop (m + 1)
              ((s.getInner iid).childs.insertIdx (cI + 1) rc)]
            rw [List.map_append, List.flatten_append]
          show InsertPostTop IN LN m s h iid lo hi k v
            (s3, .split nd.2.1 (.inner s1.innerNodes.length))
          have hfpIiid : fpInner s3 (h + 1) (.inner iid) =
              iid :: ((((s.getInner iid).childs.insertIdx (cI + 1) rc).take
                (m + 1)).map (fpInner s3 h)).flatten := by
            rw [fpInner_inner, h3iid, hnd1c]
          have hfpInid : fpInner s3 (h + 1)
              (.inner s1.innerNodes.length) =
              s1.innerNodes.length ::
              ((((s.getInner iid).childs.insertIdx (cI + 1) rc).drop
                (m + 1)).map (fpInner s3 h)).flatten := by
            rw [fpInner_inner, h3nid, hnd2c]
          have hfpLiid : fpLeaf s3 (h + 1) (.inner iid) =
              ((((s.getInner iid).childs.insertIdx (cI + 1) rc).take
                (m + 1)).map (fpLeaf s3 h)).flatten := by
            rw [fpLeaf_inner, h3iid, hnd1c]
          have hfpLnid : fpLeaf s3 (h + 1)
              (.inner s1.innerNodes.length) =
              ((((s.getInner iid).childs.insertIdx (cI + 1) rc).drop
                (m + 1)).map (fpLeaf s3 h)).flatten := by
            rw [fpLeaf_inner, h3nid, hnd2c]
          have hentiid : entriesAt s3 (h + 1) (.inner iid) =
              ((((s.getInner iid).childs.insertIdx (cI + 1) rc).take
                (m + 1)).map (entriesAt s3 h)).flatten := by
            rw [entriesAt_inner, h3iid, hnd1c]
          have hentnid : entriesAt s3 (h + 1)
              (.inner s1.innerNodes.length) =
              ((((s.getInner iid).childs.insertIdx (cI + 1) rc).drop
                (m + 1)).map (entriesAt s3 h)).flatten := by
            rw [entriesAt_inner, h3nid, hnd2c]
          -- id freshness facts
          have hnidfresh : ∀ x ∈ (((s.getInner iid).childs.take cI).map
              (fpInner s h)).flatten ++
              (fpInner s1 h ((s.getInner iid).childs.getD cI default) ++
                fpInner s1 h rc) ++
              (((s.getInner iid).childs.drop (cI + 1)).map
                (fpInner s h)).flatten, x ≠ s1.innerNodes.length := by
            intro x hx he
            have h0 := hpo.1
            rcases List.mem_append.1 hx with hx1 | hxs
            · rcases List.mem_append.1 hx1 with hxp | hxn
              · have := hvalidI x (List.mem_append.2 (Or.inl
                  (List.mem_append.2 (Or.inl hxp))))
                omega
              · have hval1 := good_fp_valid IN LN s1 h _ _ _ hGl
                have hval2 := good_fp_valid IN LN s1 h _ _ _ hGrc
                rcases List.mem_append.1 hxn with hxl | hxr
                · have := hval1.1 x hxl
                  omega
                · have := hval2.1 x hxr
                  omega
            · have := hvalidI x (List.mem_append.2 (Or.inr hxs))
              omega
          have hiidnew : iid ∉ (((s.getInner iid).childs.take cI).map
              (fpInner s h)).flatten ++
              (fpInner s1 h ((s.getInner iid).childs.getD cI default) ++
                fpInner s1 h rc) ++
              (((s.getInner iid).childs.drop (cI + 1)).map
                (fpInner s h)).flatten := by
            intro hmem
            rcases fp_replace_mid_mem _ _ _ _ s.innerNodes.length hfreshI
              iid hmem with hold | hge
            · rw [← hsplitI] at hold
              exact hiidnotin hold
            · omega
          refine ⟨?_, ?_, hGleft, hGright, ?_, ?_, ?_⟩
          · -- PreservedOutside s s3
            refine ⟨?_, ?_, ?_, ?_⟩
            · show s.innerNodes.length ≤ s3.innerNodes.length
              have h1 := hpo.1
              omega
            · show s.leafNodes.length ≤ s3.leafNodes.length
              have h1 := hpo.2.1
              omega
            · intro j hj hnot
              have h0 := hpo.1
              have hne : iid ≠ j := by
                intro he
                subst he
                refine hnot ?_
                rw [fpInner_inner]
                exact List.mem_cons.2 (Or.inl rfl)
              rw [h3other j (fun he => hne he.symm) (by omega)]
              exact hpo'.2.2.1 j hj hnot
            · intro j hj hnot
              rw [h3leaf j]
              exact hpo'.2.2.2 j hj hnot
          · rw [hEsplit]
            rw [lookupList_append_mid k _ _ _ hEpreK hEsufK]
            exact hlk
          · -- entry concatenation
            rw [hentiid, hentnid, ← htdsplit (entriesAt s3 h), hallent,
              hEsplit, hent]
            rw [upsertList_append_mid k v _ _ _ hEpreK hEsufK hEcSorted.1]
          · -- FpOk of the union
            show FpOk s (fpInner s (h + 1) (.inner iid))
              (fpLeaf s (h + 1) (.inner iid))
              (fpInner s3 (h + 1) (.inner iid) ++
                fpInner s3 (h + 1) (.inner s1.innerNodes.length))
              (fpLeaf s3 (h + 1) (.inner iid) ++
                fpLeaf s3 (h + 1) (.inner s1.innerNodes.length))
            have hW := fp_replace_mid_nodup _ _ _ _ s.innerNodes.length
              hndIfl' hvalidI hndIc' hfreshI
            rw [hfpIiid, hfpInid, hfpLiid, hfpLnid]
            refine ⟨?_, ?_, ?_, ?_, ?_, ?_⟩
            · -- Nodup of the inner union
              rw [show (iid :: ((((s.getInner iid).childs.insertIdx (cI + 1)
                  rc).take (m + 1)).map (fpInner s3 h)).flatten) ++
                  s1.innerNodes.length ::
                  ((((s.getInner iid).childs.insertIdx (cI + 1) rc).drop
                    (m + 1)).map (fpInner s3 h)).flatten =
                  (iid :: ((((s.getInner iid).childs.insertIdx (cI + 1)
                    rc).take (m + 1)).map (fpInner s3 h)).flatten) ++
                  s1.innerNodes.length ::
                  ((((s.getInner iid).childs.insertIdx (cI + 1) rc).drop
                    (m + 1)).map (fpInner s3 h)).flatten from rfl]
              rw [List.nodup_middle]
              rw [show (iid :: ((((s.getInner iid).childs.insertIdx (cI + 1)
                  rc).take (m + 1)).map (fpInner s3 h)).flatten) ++
                  ((((s.getInner iid).childs.insertIdx (cI + 1) rc).drop
                    (m + 1)).map (fpInner s3 h)).flatten =
                  iid :: (((((s.getInner iid).childs.insertIdx (cI + 1)
                    rc).take (m + 1)).map (fpInner s3 h)).flatten ++
                  ((((s.getInner iid).childs.insertIdx (cI + 1) rc).drop
                    (m + 1)).map (fpInner s3 h)).flatten) from by
                simp]
              rw [← htdsplit (fpInner s3 h), hallfpI]
              refine List.nodup_cons.2 ⟨?_, List.nodup_cons.2
                ⟨hiidnew, hW⟩⟩
              intro hmem
              rcases List.mem_cons.1 hmem with he | hmem'
              · omega
              · exact hnidfresh _ hmem' rfl
            · -- Nodup of the leaf union
              rw [← htdsplit (fpLeaf s3 h), hallfpL]
              exact fp_replace_mid_nodup _ _ _ _ s.leafNodes.length hndL'
                hvalidL hndLc' hfreshL
            · -- inner membership
              intro j hj
              rcases List.mem_append.1 hj with hj1 | hj2
              · rcases List.mem_cons.1 hj1 with rfl | hj1'
                · refine Or.inl ?_
                  rw [fpInner_inner]
                  exact List.mem_cons.2 (Or.inl rfl)
                · have hj'' : j ∈ ((((s.getInner iid).childs.insertIdx
                      (cI + 1) rc)).map (fpInner s3 h)).flatten := by
                    rw [htdsplit (fpInner s3 h)]
                    exact List.mem_append.2 (Or.inl hj1')
                  rw [hallfpI] at hj''
                  rcases fp_replace_mid_mem _ _ _ _ s.innerNodes.length
                    hfreshI j hj'' with hold | hge
                  · refine Or.inl ?_
                    rw [fpInner_inner, hsplitI]
                    exact List.mem_cons.2 (Or.inr hold)
                  · exact Or.inr hge
              · rcases List.mem_cons.1 hj2 with rfl | hj2'
                · refine Or.inr ?_
                  have := hpo.1
                  omega
                · have hj'' : j ∈ ((((s.getInner iid).childs.insertIdx
                      (cI + 1) rc)).map (fpInner s3 h)).flatten := by
                    rw [htdsplit (fpInner s3 h)]
                    exact List.mem_append.2 (Or.inr hj2')
                  rw [hallfpI] at hj''
                  rcases fp_replace_mid_mem _ _ _ _ s.innerNodes.length
                    hfreshI j hj'' with hold | hge
                  · refine Or.inl ?_
                    rw [fpInner_inner, hsplitI]
                    exact List.mem_cons.2 (Or.inr hold)
                  · exact Or.inr hge
            · -- leaf membership
              intro j hj
              have hj'' : j ∈ ((((s.getInner iid).childs.insertIdx
                  (cI + 1) rc)).map (fpLeaf s3 h)).flatten := by
                rw [htdsplit (fpLeaf s3 h)]
                exact hj
              rw [hallfpL] at hj''
              rcases fp_replace_mid_mem _ _ _ _ s.leafNodes.length hfreshL
                j hj'' with hold | hge
              · refine Or.inl ?_
                rw [fpLeaf_inner, hsplitL]
                exact hold
              · exact Or.inr hge
            · -- inner cover
              intro j hj
              rw [fpInner_inner] at hj
              rcases List.mem_cons.1 hj with rfl | hj'
              · exact List.mem_append.2 (Or.inl (List.mem_cons.2 (Or.inl
                  rfl)))
              · rw [hsplitI] at hj'
                have hj2 := fp_replace_mid_cover _ _ _ _ hcovI j hj'
                rw [← hallfpI, htdsplit (fpInner s3 h)] at hj2
                rcases List.mem_append.1 hj2 with hl | hr
                · exact List.mem_append.2 (Or.inl (List.mem_cons.2 (Or.inr
                    hl)))
                · exact List.mem_append.2 (Or.inr (List.mem_cons.2 (Or.inr
                    hr)))
            · -- leaf cover
              intro j hj
              rw [fpLeaf_inner, hsplitL] at hj
              have hj2 := fp_replace_mid_cover _ _ _ _ hcovL j hj
              rw [← hallfpL, htdsplit (fpLeaf s3 h)] at hj2
              exact hj2
          · -- cache
            intro cid hcc
            have hcc' : s1.cache = some cid := hcc
            rcases hcch cid hcc' with hold | hmem
            · exact Or.inl hold
            · refine Or.inr ?_
              rw [hfpLiid, hfpLnid, ← htdsplit (fpLeaf s3 h), hallfpL]
              exact List.mem_append.2 (Or.inl (List.mem_append.2
                (Or.inr hmem)))
        · -- not full: absorb the new separator
          rw [if_neg hfull]
          have hsz : (s.getInner iid).size ≠ IN := by
            intro he
            unfold InnerNode.isFull at hfull
            rw [he] at hfull
            simp at hfull
          show InsertPostTop IN LN m s h iid lo hi k v
            (s1.setInner iid ((s.getInner iid).insertAt cI key rc), .inserted)
          set node' := (s.getInner iid).insertAt cI key rc with hnode'
          set s2 := s1.setInner iid node' with hs2
          have hcIk : cI ≤ (s.getInner iid).keys.length := by omega
          have hks'len : ((s.getInner iid).keys.insertIdx cI key).length =
              (s.getInner iid).keys.length + 1 :=
            insertIdx_length key _ cI hcIk
          have hcs'len : ((s.getInner iid).childs.insertIdx (cI + 1) rc).length =
              (s.getInner iid).childs.length + 1 :=
            insertIdx_length rc _ (cI + 1) (by omega)
          have hvs1 : iid < s1.innerNodes.length := by
            have := hpo.1
            omega
          have hgiid2 : s2.getInner iid = node' :=
            getInner_setInner_self s1 iid node' hvs1
          have hBI := boundsList_insertIdx lo hi (s.getInner iid).keys cI key
            hcIk
          -- frame from s1 to s2 for subtrees avoiding iid
          have hfr21 : ∀ (c : NodeId) (a b : Option K),
              Good IN LN s1 h c a b → (∀ j ∈ fpInner s1 h c, j ≠ iid) →
              Good IN LN s2 h c a b ∧
              entriesAt s2 h c = entriesAt s1 h c ∧
              fpInner s2 h c = fpInner s1 h c ∧
              fpLeaf s2 h c = fpLeaf s1 h c := by
            intro c a b hGc hne
            refine good_frame IN LN s1 s2
              (le_of_eq (setInner_lengths s1 iid node').1.symm)
              (le_of_eq (setInner_lengths s1 iid node').2.symm) h c a b hGc
              ?_ ?_
            · intro j hj
              exact getInner_setInner_ne s1 iid j node'
                (fun he => hne j hj he.symm)
            · intro j hj
              rfl
          have hsib2 : ∀ i, i < (s.getInner iid).childs.length → i ≠ cI →
              Good IN LN s2 h ((s.getInner iid).childs.getD i default)
                ((boundsList lo hi (s.getInner iid).keys).getD i none)
                ((boundsList lo hi (s.getInner iid).keys).getD (i + 1) none) ∧
              entriesAt s2 h ((s.getInner iid).childs.getD i default) =
                entriesAt s h ((s.getInner iid).childs.getD i default) ∧
              fpInner s2 h ((s.getInner iid).childs.getD i default) =
                fpInner s h ((s.getInner iid).childs.getD i default) ∧
              fpLeaf s2 h ((s.getInner iid).childs.getD i default) =
                fpLeaf s h ((s.getInner iid).childs.getD i default) := by
            intro i hi2 hne
            have h1 := hsib i hi2 hne
            have h2 := hfr21 _ _ _ h1.1 (by
              intro j hj he
              subst he
              rw [h1.2.2.1] at hj
              exact hiidnotin
                (flatten_mem_of_getD (fpInner s h) default _ i hi2 j hj))
            exact ⟨h2.1, h2.2.1.trans h1.2.1, h2.2.2.1.trans h1.2.2.1,
              h2.2.2.2.trans h1.2.2.2⟩
          have hl2 := hfr21 _ _ _ hGl (fun j hj =>
            hiid_ne_fpI j (List.mem_append.2 (Or.inl hj)))
          have hrc2 := hfr21 _ _ _ hGrc (fun j hj =>
            hiid_ne_fpI j (List.mem_append.2 (Or.inr hj)))
          -- decomposition of the new child list
          have hcs'decomp : (s.getInner iid).childs.insertIdx (cI + 1) rc =
              (s.getInner iid).childs.take cI ++
              ((s.getInner iid).childs.getD cI default) :: rc ::
              (s.getInner iid).childs.drop (cI + 1) := by
            rw [insertIdx_eq_take_cons_drop rc (cI + 1) _ (by omega),
              take_succ_getD default _ cI hcIlt]
            simp [List.append_assoc]
          -- children of the enlarged node
          have hvc : ∀ i, i < ((s.getInner iid).childs.insertIdx
              (cI + 1) rc).length →
              Good IN LN s2 h
                (((s.getInner iid).childs.insertIdx (cI + 1) rc).getD i default)
                ((boundsList lo hi ((s.getInner iid).keys.insertIdx cI
                  key)).getD i none)
                ((boundsList lo hi ((s.getInner iid).keys.insertIdx cI
                  key)).getD (i + 1) none) := by
            intro i hi2
            rw [hcs'len] at hi2
            rcases Nat.lt_trichotomy i cI with hlt | heq | hgt
            · have hcd : ((s.getInner iid).childs.insertIdx (cI + 1) rc).getD
                  i default = (s.getInner iid).childs.getD i default :=
                getD_insertIdx_lt rc default _ (cI + 1) i (by omega)
              have hb1 := hBI.1 i (by omega)
              have hb2 := hBI.1 (i + 1) (by omega)
              rw [hcd, hb1, hb2]
              exact (hsib2 i (by omega) (by omega)).1
            · rw [heq]
              have hcd : ((s.getInner iid).childs.insertIdx (cI + 1) rc).getD
                  cI default = (s.getInner iid).childs.getD cI default :=
                getD_insertIdx_lt rc default _ (cI + 1) cI (by omega)
              have hb1 := hBI.1 cI (by omega)
              have hb2 := hBI.2.1
              rw [hcd, hb1, hb2]
              exact hl2.1
            · by_cases hi1 : i = cI + 1
              · subst hi1
                have hcd : ((s.getInner iid).childs.insertIdx (cI + 1)
                    rc).getD (cI + 1) default = rc :=
                  getD_insertIdx_self rc default _ (cI + 1) (by omega)
                have hb1 := hBI.2.1
                have hb2 := hBI.2.2 (cI + 1) (by omega) (by omega)
                rw [hcd, hb1, hb2]
                exact hrc2.1
              · have hi2' : cI + 2 ≤ i := by omega
                have hi3 : i - 1 + 1 = i := by omega
                have hcd : ((s.getInner iid).childs.insertIdx (cI + 1)
                    rc).getD (i - 1 + 1) default =
                    (s.getInner iid).childs.getD (i - 1) default :=
                  getD_insertIdx_succ rc default _ (cI + 1) (i - 1) (by omega)
                rw [hi3] at hcd
                have hb1 := hBI.2.2 (i - 1) (by omega) (by omega)
                rw [hi3] at hb1
                have hb2 := hBI.2.2 i (by omega) (by omega)
                rw [hcd, hb1, hb2]
                have hsg := (hsib2 (i - 1) (by omega) (by omega)).1
                rw [hi3] at hsg
                exact hsg
          -- entries of the parent after the insertion
          have hent2 : entriesAt s2 (h + 1) (.inner iid) =
              (((s.getInner iid).childs.take cI).map
                (entriesAt s h)).flatten ++
              (entriesAt s1 h ((s.getInner iid).childs.getD cI default) ++
                entriesAt s1 h rc) ++
              (((s.getInner iid).childs.drop (cI + 1)).map
                (entriesAt s h)).flatten := by
            rw [entriesAt_inner, hgiid2]
            show ((((s.getInner iid).childs.insertIdx (cI + 1) rc)).map
              (entriesAt s2 h)).flatten = _
            have htk2 : ((s.getInner iid).childs.take cI).map
                (entriesAt s2 h) =
                ((s.getInner iid).childs.take cI).map (entriesAt s h) :=
              List.map_congr_left (fun c hc => by
                obtain ⟨i, h1, h2, rfl⟩ :=
                  take_getD_index default (s.getInner iid).childs cI c hc
                exact (hsib2 i h2 (by omega)).2.1)
            have hdp2 : ((s.getInner iid).childs.drop (cI + 1)).map
                (entriesAt s2 h) =
                ((s.getInner iid).childs.drop (cI + 1)).map (entriesAt s h) :=
              List.map_congr_left (fun c hc => by
                obtain ⟨i, h1, h2, rfl⟩ :=
                  drop_getD_index default (s.getInner iid).childs (cI + 1) c hc
                exact (hsib2 i h2 (by omega)).2.1)
            rw [hcs'decomp, List.map_append, List.flatten_append,
              List.map_cons, List.flatten_cons, List.map_cons,
              List.flatten_cons]
            rw [htk2, hdp2, hl2.2.1, hrc2.2.1]
            simp [List.append_assoc]
          have hfpI2 : fpInner s2 (h + 1) (.inner iid) =
              iid :: ((((s.getInner iid).childs.take cI).map
                (fpInner s h)).flatten ++
              (fpInner s1 h ((s.getInner iid).childs.getD cI default) ++
                fpInner s1 h rc) ++
              (((s.getInner iid).childs.drop (cI + 1)).map
                (fpInner s h)).flatten) := by
            rw [fpInner_inner, hgiid2]
            show iid :: ((((s.getInner iid).childs.insertIdx (cI + 1) rc)).map
              (fpInner s2 h)).flatten = _
            have htk2 : ((s.getInner iid).childs.take cI).map
                (fpInner s2 h) =
                ((s.getInner iid).childs.take cI).map (fpInner s h) :=
              List.map_congr_left (fun c hc => by
                obtain ⟨i, h1, h2, rfl⟩ :=
                  take_getD_index default (s.getInner iid).childs cI c hc
                exact (hsib2 i h2 (by omega)).2.2.1)
            have hdp2 : ((s.getInner iid).childs.drop (cI + 1)).map
                (fpInner s2 h) =
                ((s.getInner iid).childs.drop (cI + 1)).map (fpInner s h) :=
              List.map_congr_left (fun c hc => by
                obtain ⟨i, h1, h2, rfl⟩ :=
                  drop_getD_index default (s.getInner iid).childs (cI + 1) c hc
                exact (hsib2 i h2 (by omega)).2.2.1)
            rw [hcs'decomp, List.map_append, List.flatten_append,
              List.map_cons, List.flatten_cons, List.map_cons,
              List.flatten_cons]
            rw [htk2, hdp2, hl2.2.2.1, hrc2.2.2.1]
            simp [List.append_assoc]
          have hfpL2 : fpLeaf s2 (h + 1) (.inner iid) =
              (((s.getInner iid).childs.take cI).map
                (fpLeaf s h)).flatten ++
              (fpLeaf s1 h ((s.getInner iid).childs.getD cI default) ++
                fpLeaf s1 h rc) ++
              (((s.getInner iid).childs.drop (cI + 1)).map
                (fpLeaf s h)).flatten := by
            rw [fpLeaf_inner, hgiid2]
            show ((((s.getInner iid).childs.insertIdx (cI + 1) rc)).map
              (fpLeaf s2 h)).flatten = _
            have htk2 : ((s.getInner iid).childs.take cI).map
                (fpLeaf s2 h) =
                ((s.getInner iid).childs.take cI).map (fpLeaf s h) :=
              List.map_congr_left (fun c hc => by
                obtain ⟨i, h1, h2, rfl⟩ :=
                  take_getD_index default (s.getInner iid).childs cI c hc
                exact (hsib2 i h2 (by omega)).2.2.2)
            have hdp2 : ((s.getInner iid).childs.drop (cI + 1)).map
                (fpLeaf s2 h) =
                ((s.getInner iid).childs.drop (cI + 1)).map (fpLeaf s h) :=
              List.map_congr_left (fun c hc => by
                obtain ⟨i, h1, h2, rfl⟩ :=
                  drop_getD_index default (s.getInner iid).childs (cI + 1) c hc
                exact (hsib2 i h2 (by omega)).2.2.2)
            rw [hcs'decomp, List.map_append, List.flatten_append,
              List.map_cons, List.flatten_cons, List.map_cons,
              List.flatten_cons]
            rw [htk2, hdp2, hl2.2.2.2, hrc2.2.2.2]
            simp [List.append_assoc]
          have hlen21 := setInner_lengths s1 iid node'
          have hlen21I : s2.innerNodes.length = s1.innerNodes.length :=
            hlen21.1
          have hlen21L : s2.leafNodes.length = s1.leafNodes.length :=
            hlen21.2
          refine ⟨?_, ?_, ?_, ?_, ?_, ?_⟩
          · -- PreservedOutside s s2
            refine ⟨?_, ?_, ?_, ?_⟩
            · show s.innerNodes.length ≤ s2.innerNodes.length
              have h1 := hpo.1
              have h2 := hlen21.1
              omega
            · show s.leafNodes.length ≤ s2.leafNodes.length
              have h1 := hpo.2.1
              have h2 := hlen21.2
              omega
            · intro j hj hnot
              have hne : iid ≠ j := by
                intro he
                subst he
                refine hnot ?_
                rw [fpInner_inner]
                exact List.mem_cons.2 (Or.inl rfl)
              rw [getInner_setInner_ne s1 iid j node' hne]
              exact hpo'.2.2.1 j hj hnot
            · intro j hj hnot
              show (s1.getLeaf j).data = (s.getLeaf j).data
              exact hpo'.2.2.2 j hj hnot
          · rw [hEsplit]
            rw [lookupList_append_mid k _ _ _ hEpreK hEsufK]
            exact hlk
          · -- Good at the grown node
            refine ⟨?_, ?_, ?_, ?_, ?_⟩
            · show iid < s2.innerNodes.length
              omega
            · rw [hgiid2]
              show ((s.getInner iid).childs.insertIdx (cI + 1) rc).length =
                ((s.getInner iid).keys.insertIdx cI key).length + 1
              omega
            · show m ≤ (s2.getInner iid).size
              rw [hgiid2]
              show m ≤
                ((s.getInner iid).keys.insertIdx cI key).length
              have : m ≤ (s.getInner iid).size := hmin0
              unfold InnerNode.size at this
              omega
            · show (s2.getInner iid).size ≤ IN
              rw [hgiid2]
              show ((s.getInner iid).keys.insertIdx cI key).length ≤ IN
              have h1 : (s.getInner iid).size ≤ IN := hmax0
              have h2 : (s.getInner iid).size ≠ IN := hsz
              unfold InnerNode.size at h1 h2
              omega
            · rw [hgiid2]
              exact hvc
          · rw [hent2, hEsplit, hent]
            rw [upsertList_append_mid k v _ _ _ hEpreK hEsufK hEcSorted.1]
          · -- FpOk
            show FpOk s (fpInner s (h + 1) (.inner iid))
              (fpLeaf s (h + 1) (.inner iid))
              (fpInner s2 (h + 1) (.inner iid))
              (fpLeaf s2 (h + 1) (.inner iid))
            rw [hfpI2, hfpL2]
            have hndInew := fp_replace_mid_nodup _ _ _ _ s.innerNodes.length
              hndIfl' hvalidI hndIc' hfreshI
            have hiidnew : iid ∉ (((s.getInner iid).childs.take cI).map
                (fpInner s h)).flatten ++
                (fpInner s1 h ((s.getInner iid).childs.getD cI default) ++
                  fpInner s1 h rc) ++
                (((s.getInner iid).childs.drop (cI + 1)).map
                  (fpInner s h)).flatten := by
              intro hmem
              rcases fp_replace_mid_mem _ _ _ _ s.innerNodes.length hfreshI
                iid hmem with hold | hge
              · rw [← hsplitI] at hold
                exact hiidnotin hold
              · omega
            refine ⟨List.nodup_cons.2 ⟨hiidnew, hndInew⟩,
              fp_replace_mid_nodup _ _ _ _ s.leafNodes.length hndL' hvalidL
                hndLc' hfreshL, ?_, ?_, ?_, ?_⟩
            · intro j hj
              rcases List.mem_cons.1 hj with rfl | hj'
              · refine Or.inl ?_
                rw [fpInner_inner]
                exact List.mem_cons.2 (Or.inl rfl)
              · rcases fp_replace_mid_mem _ _ _ _ s.innerNodes.length hfreshI
                  j hj' with hold | hge
                · refine Or.inl ?_
                  rw [fpInner_inner, hsplitI]
                  exact List.mem_cons.2 (Or.inr hold)
                · exact Or.inr hge
            · intro j hj
              rcases fp_replace_mid_mem _ _ _ _ s.leafNodes.length hfreshL
                j hj with hold | hge
              · refine Or.inl ?_
                rw [fpLeaf_inner, hsplitL]
                exact hold
              · exact Or.inr hge
            · intro j hj
              rw [fpInner_inner] at hj
              rcases List.mem_cons.1 hj with rfl | hj'
              · exact List.mem_cons.2 (Or.inl rfl)
              · rw [hsplitI] at hj'
                exact List.mem_cons.2 (Or.inr
                  (fp_replace_mid_cover _ _ _ _ hcovI j hj'))
            · intro j hj
              rw [fpLeaf_inner, hsplitL] at hj
              exact fp_replace_mid_cover _ _ _ _ hcovL j hj
          · intro cid hcc
            have hcc' : s1.cache = some cid := hcc
            rcases hcch cid hcc' with hold | hmem
            · exact Or.inl hold
            · refine Or.inr ?_
              rw [hfpL2]
              exact List.mem_append.2 (Or.inl (List.mem_append.2
                (Or.inr hmem)))

/-- At the standard minimum, `InsertPostTop` is the inner-node instance of
`InsertPost`. -/
theorem insertPostTop_min [LinearOrder K] [Inhabited K] [Inhabited V]
    (IN LN : Nat) (s : NodeStoreVec K V) (h iid : Nat) (lo hi : Option K)
    (k : K) (v : V) (out : NodeStoreVec K V × DescendInsertResult K V)
    (hp : InsertPostTop IN LN (InnerNode.minimumSize IN) s h iid lo hi k v
      out) :
    InsertPost IN LN s (h + 1) (.inner iid) lo hi k v out := by
  obtain ⟨s1, r⟩ := out
  cases r with
  | updated v₀ => exact hp
  | inserted => exact hp
  | split key rc => exact hp

/-- `descendInsert` satisfies its postcondition on any well-formed subtree,
given enough fuel. -/
theorem descendInsert_post [LinearOrder K] [Inhabited K] [Inhabited V]
    (IN LN : Nat) (hIN : 2 ≤ IN) (hLN : 2 ≤ LN) :
    ∀ (h fuel : Nat), h < fuel →
      ∀ (s : NodeStoreVec K V) (id : NodeId) (lo hi : Option K) (k : K)
        (v : V),
        Good IN LN s h id lo hi →
        (fpInner s h id).Nodup → (fpLeaf s h id).Nodup → inBnd lo hi k →
        InsertPost IN LN s h id lo hi k v
          (descendInsert IN LN fuel s id k v) := by
  intro h
  induction h with
  | zero =>
    intro fuel hfuel s id lo hi k v hG hndI hndL hk
    cases id with
    | inner iid => exact hG.elim
    | leaf lid =>
      obtain ⟨f, rfl⟩ : ∃ f, fuel = f + 1 := ⟨fuel - 1, by omega⟩
      exact insertLeaf_post IN LN s lid lo hi hG hLN k v hk
  | succ h IH =>
    intro fuel hfuel s id lo hi k v hG hndI hndL hk
    cases id with
    | leaf lid => exact hG.elim
    | inner iid =>
      obtain ⟨f, rfl⟩ : ∃ f, fuel = f + 1 := ⟨fuel - 1, by omega⟩
      refine insertPostTop_min IN LN s h iid lo hi k v _ ?_
      exact insertStep IN LN (InnerNode.minimumSize IN) hIN hLN h f s iid
        lo hi k v ((good_inner_iff IN LN s h iid lo hi).1 hG) hndI hndL hk
        (fun id' lo' hi' hG' hndI' hndL' hk' =>
          IH f (by omega) s id' lo' hi' k v hG' hndI' hndL' hk')

end Sweep
